import Mathlib

/-!
# qlib: a bounded, blocking message queue (src/qlib.c, src/qlib.h), and the
frame queues of the pipeline built on it

Shallow embedding of the queue primitive of the repository and of the queue
functions of its decoder, renderer and encoder stages, and the properties the
specification states about them.

Modelling conventions.

* A `size_t` is a natural number below `2 ^ w`, where `w` is the width of
  `size_t` on the target (64 on LP64, 32 on ILP32); `size_add`, `size_sub`
  and `size_mul` are the wrapping operations of the C source.
* An `int` is a 32-bit two's complement integer; `to_int` is the conversion
  (and the wrapping of a product) to `int`.
* Memory is a map from byte offsets to byte values.  The queue's storage is a
  `Block`: the extent `malloc` was asked for and the bytes at the returned
  address.  The caller's buffers are taken to be large enough for the length
  the caller passes.
* A call either returns, or stays suspended in `pthread_cond_wait` because
  its wait condition holds in the state it was called in (`Outcome.blocked`),
  or accesses memory outside the storage block (`Outcome.undefined`).
  The lock, unlock and broadcast calls do not change the queue fields and are
  not represented.
* A `struct FrameData` (defish_app.h) is a pair of addresses, stored in a
  message low byte first, `w / 8` bytes per pointer; `0` is `NULL`.  The
  static queue arrays of pipeline_src.c and pipeline_sink_gst.c are passed
  to and returned by the functions that use them (`SrcQueues`, `SinkQueues`).
  The two threads of a decoder channel are represented by the sequence of
  their queue operations (`ProtocolStep`), each performed by the function of
  the source that performs it.  The calls into the video library in the
  decoder loop are represented by their results (`PacketRead`).

Layout: the embedding of qlib.c; sequences of calls; the representation
relation between the storage and the list of queued messages; the embedding
of the queue functions of the pipeline and the dual-queue channel of section
4.2 of the specification (`Pool`, `poolStep`); lemmas on the cases of each
function; the behaviour of the queue while its counters stay below the
`size_t` limit (`run_refines_spec`, `round_trip_of_size_in_int`,
`send_normal_slots`, `urgent_first_of_no_wrap`, `receive_slots`,
`no_loss_of_no_wrap`, `urgent_lifo_of_no_wrap`, `send_slot_free_of_no_wrap`);
the decoder channel as a pool (`sim_step`, `sim_run`, `channel_reachable`);
the polling loop of the renderer and the main loop of the decoder thread
(`renderPoll`, `RenderPipelineWithGL`, `decoderMainLoop`; `renderPoll_spec`,
`tryReceive_general`, `decoderMainLoop_on_destroyed`); the claims of the
specification.

Two limits of the C source show in the embedding.  `msgQCreate` asks `malloc`
for the `int` product `maxMsgLength * maxMsgs`, which wraps above `INT_MAX`.
`msgQReceive` increments `head` and never reduces it modulo the capacity, so
`head + used` and `capacity + head - 1` in `msgQSend` wrap at `2 ^ w`, and the
slot index jumps there unless the capacity divides `2 ^ w`.
-/

namespace QLib

/-! ## Machine arithmetic -/

/-- Wrapping `size_t` addition for a `w`-bit `size_t`. -/
def size_add (w a b : Nat) : Nat := (a + b) % 2 ^ w

/-- Wrapping `size_t` subtraction for a `w`-bit `size_t`. -/
def size_sub (w a b : Nat) : Nat := (a % 2 ^ w + 2 ^ w - b % 2 ^ w) % 2 ^ w

/-- Wrapping `size_t` multiplication for a `w`-bit `size_t`. -/
def size_mul (w a b : Nat) : Nat := (a * b) % 2 ^ w

/-- Conversion of an integer value to `int` (32 bits, two's complement). -/
def to_int (z : Int) : Int :=
  if z % 4294967296 < 2147483648 then z % 4294967296 else z % 4294967296 - 4294967296

/-- Conversion of an `int` to a `w`-bit `size_t`. -/
def int_to_size (w : Nat) (z : Int) : Nat := (z % (2 ^ w : Nat)).toNat

/-! ## Constants of qlib.h -/

def MSG_Q_ERROR : Int := -1
def MSG_Q_FIFO : Int := 0
def MSG_PRI_NORMAL : Int := 0
def MSG_PRI_URGENT : Int := 1
def MSG_Q_NO_WAIT : Int := 0
def MSG_Q_WAIT_FOREVER : Int := -1

/-! ## Memory -/

/-- The `memcpy(dst + doff, src + soff, n)` of the C library on byte maps. -/
def memcpy (dst : Nat → Nat) (doff : Nat) (src : Nat → Nat) (soff n : Nat) : Nat → Nat :=
  fun i => if doff ≤ i ∧ i < doff + n then src (soff + (i - doff)) else dst i

/-- The `memset(dst + doff, c, n)` of the C library on byte maps. -/
def memset (dst : Nat → Nat) (doff c n : Nat) : Nat → Nat :=
  fun i => if doff ≤ i ∧ i < doff + n then c else dst i

/-- An object returned by `malloc`: the size requested and its bytes. -/
structure Block where
  size : Nat
  bytes : Nat → Nat

/-- The bytes of a caller's buffer holding the given list (zero beyond it). -/
def bytesOf (l : List Nat) : Nat → Nat := fun i => l.getD i 0

/-! ## The queue -/

/-- The fields of `struct msg_q`, without the mutex and condition variable. -/
structure msg_q where
  capacity : Nat
  used : Nat
  maxMsgLength : Nat
  data : Block
  head : Nat
  isDestroyed : Nat

/-- How a call on a queue ends. -/
inductive Outcome (α : Type) where
  | returned (a : α) : Outcome α
  | blocked : Outcome α
  | undefined : Outcome α

/-- What the library calls made by `msgQCreate` answer: whether
`malloc(sizeof(msg_q))` succeeds, what `malloc(n)` gives for the storage
(`none` for `NULL`, else the uninitialised bytes of the new object), and the
status of `pthread_mutex_init` and `pthread_cond_init`. -/
structure CreateEnv where
  mallocQ : Bool
  mallocData : Nat → Option (Nat → Nat)
  mutexInit : Int
  condInit : Int

/-- The function `msgQCreate` of qlib.c; `none` is the `NULL` handle. -/
def msgQCreate (w : Nat) (maxMsgs maxMsgLength options : Int) (env : CreateEnv) :
    Option msg_q :=
  if ¬ (maxMsgs > 0) then none
  else if ¬ (maxMsgLength > 0) then none
  else if env.mallocQ = false then none
  else
    let size := int_to_size w (to_int (maxMsgLength * maxMsgs))
    match env.mallocData size with
    | none => none
    | some bytes =>
      if env.mutexInit ≠ 0 then none
      else if env.condInit ≠ 0 then none
      else some
        { capacity := int_to_size w maxMsgs
          used := 0
          maxMsgLength := int_to_size w maxMsgLength
          data := { size := size, bytes := bytes }
          head := 0
          isDestroyed := 0 }

/-- The function `msgQDelete` of qlib.c: the status returned and the queue. -/
def msgQDelete (msgQId : Option msg_q) : Int × Option msg_q :=
  match msgQId with
  | none => (MSG_Q_ERROR, none)
  | some q => (MSG_Q_ERROR, some { q with isDestroyed := 1 })

/-- The function `msgQSend` of qlib.c: the status returned and the queue
after the call.  The `timeout` argument is not read by the C function.  With a
`NULL` handle the function jumps to `failed` and unlocks the mutex of the
`NULL` handle. -/
def msgQSend (w : Nat) (msgQId : Option msg_q) (buffer : Nat → Nat) (nBytes : Nat)
    (timeout priority : Int) : Outcome (Int × msg_q) :=
  match msgQId with
  | none => Outcome.undefined
  | some q =>
    if q.isDestroyed = 0 ∧ q.used ≥ q.capacity then Outcome.blocked
    else if ¬ (q.isDestroyed = 0) then Outcome.returned (MSG_Q_ERROR, q)
    else if ¬ (q.used < q.capacity) then Outcome.returned (MSG_Q_ERROR, q)
    else
      let head :=
        if MSG_PRI_URGENT = priority then
          size_sub w (size_add w q.capacity q.head) 1 % q.capacity
        else q.head
      let idx :=
        (if MSG_PRI_URGENT = priority then head else size_add w q.head q.used) % q.capacity
      let used := size_add w q.used 1
      let maxMsgLength := q.maxMsgLength
      let nBytes := if nBytes > maxMsgLength then maxMsgLength else nBytes
      let off := size_mul w idx maxMsgLength
      if off + nBytes ≤ q.data.size then
        Outcome.returned
          (to_int nBytes,
           { q with
             head := head
             used := used
             data := { q.data with bytes := memcpy q.data.bytes off buffer 0 nBytes } })
      else Outcome.undefined

/-- The function `msgQReceive` of qlib.c: the status returned, the queue after
the call and the caller's buffer after the call.  A timed wait is given the
time of the call as its deadline, so it times out at once. -/
def msgQReceive (w : Nat) (msgQId : Option msg_q) (buffer : Nat → Nat) (maxNBytes : Nat)
    (timeout : Int) : Outcome (Int × msg_q × (Nat → Nat)) :=
  match msgQId with
  | none => Outcome.undefined
  | some q =>
    if q.isDestroyed = 0 ∧ q.used ≤ 0 then
      if timeout = MSG_Q_WAIT_FOREVER then Outcome.blocked
      else Outcome.returned (MSG_Q_ERROR, q, buffer)
    else if ¬ (q.isDestroyed = 0) then Outcome.returned (MSG_Q_ERROR, q, buffer)
    else if ¬ (q.used > 0) then Outcome.returned (MSG_Q_ERROR, q, buffer)
    else
      let idx := q.head % q.capacity
      let head := size_add w q.head 1
      let used := size_sub w q.used 1
      let maxMsgLength := q.maxMsgLength
      let maxNBytes := if maxNBytes > maxMsgLength then maxMsgLength else maxNBytes
      let off := size_mul w idx maxMsgLength
      if off + maxNBytes ≤ q.data.size then
        Outcome.returned
          (to_int maxNBytes,
           { q with
             head := head
             used := used
             data := { q.data with bytes := memset q.data.bytes off 0 maxNBytes } },
           memcpy buffer 0 q.data.bytes off maxNBytes)
      else Outcome.undefined

/-- The function `msgQNumMsgs` of qlib.c. -/
def msgQNumMsgs (msgQId : Option msg_q) : Int :=
  match msgQId with
  | none => MSG_Q_ERROR
  | some q => to_int q.used

/-! ## Sequences of calls -/

/-- A call on a queue handle. -/
inductive Call where
  | send (buffer : Nat → Nat) (nBytes : Nat) (timeout priority : Int) : Call
  | receive (buffer : Nat → Nat) (maxNBytes : Nat) (timeout : Int) : Call
  | delete : Call

/-- The queue after one call that returns (`none` when the call does not
return or its behaviour is undefined). -/
def Call.next (w : Nat) (q : msg_q) : Call → Option msg_q
  | Call.send buffer nBytes timeout priority =>
    match msgQSend w (some q) buffer nBytes timeout priority with
    | Outcome.returned (_, q') => some q'
    | _ => none
  | Call.receive buffer maxNBytes timeout =>
    match msgQReceive w (some q) buffer maxNBytes timeout with
    | Outcome.returned (_, q', _) => some q'
    | _ => none
  | Call.delete => (msgQDelete (some q)).2

/-- The queue after a sequence of calls that all return. -/
def runCalls (w : Nat) (q : msg_q) : List Call → Option msg_q
  | [] => some q
  | c :: cs =>
    match c.next w q with
    | some q' => runCalls w q' cs
    | none => none

/-! ## Names for parts of `msgQSend` and `msgQCreate` -/

/-- The value of `head` that a send on a live queue with a free slot leaves. -/
def sendHead (w : Nat) (q : msg_q) (priority : Int) : Nat :=
  if MSG_PRI_URGENT = priority then size_sub w (size_add w q.capacity q.head) 1 % q.capacity
  else q.head

/-- The slot index that a send on a live queue with a free slot writes. -/
def sendIdx (w : Nat) (q : msg_q) (priority : Int) : Nat :=
  (if MSG_PRI_URGENT = priority then sendHead w q priority
   else size_add w q.head q.used) % q.capacity

/-- Every resource `msgQCreate` acquires is granted: both `malloc` calls
succeed, the second for a request of `n` bytes, and the lock and the condition
variable are initialised. -/
def CreateEnv.succeeds (env : CreateEnv) (n : Nat) : Prop :=
  env.mallocQ = true ∧ (env.mallocData n).isSome = true ∧ env.mutexInit = 0 ∧ env.condInit = 0

/-! ## Concrete inputs -/

/-- An environment in which every allocation succeeds and new storage reads
as zero. -/
def zeroEnv : CreateEnv :=
  { mallocQ := true, mallocData := fun _ => some (fun _ => 0), mutexInit := 0, condInit := 0 }

/-- An empty live queue of three one-byte slots, all zero, whose `head`
counter has the value `h`. -/
def emptyQ3 (h : Nat) : msg_q :=
  { capacity := 3, used := 0, maxMsgLength := 1, data := { size := 3, bytes := fun _ => 0 },
    head := h, isDestroyed := 0 }

/-- A destroyed queue of three one-byte slots that still holds one message. -/
def destroyedQ3 : msg_q :=
  { capacity := 3, used := 1, maxMsgLength := 1, data := { size := 3, bytes := bytesOf [7] },
    head := 0, isDestroyed := 1 }

/-- The calls of `n` rounds of one send of a zero byte followed by one
receive. -/
def pump : Nat → List Call
  | 0 => []
  | n + 1 =>
    Call.send (bytesOf []) 1 MSG_Q_WAIT_FOREVER MSG_PRI_NORMAL ::
      Call.receive (bytesOf []) 1 MSG_Q_NO_WAIT :: pump n

/-! ## Representation: what a queue holds -/

/-- The representation invariant of a live or destroyed queue whose storage
holds all its slots. -/
def WF (w : Nat) (q : msg_q) : Prop :=
  0 < q.capacity ∧ q.used ≤ q.capacity ∧ q.capacity < 2 ^ w ∧ q.maxMsgLength < 2 ^ 31 ∧
    q.capacity * q.maxMsgLength ≤ q.data.size ∧ q.capacity * q.maxMsgLength < 2 ^ w

instance (w : Nat) (q : msg_q) : Decidable (WF w q) := by
  unfold WF
  infer_instance

/-- Byte `j` of slot `i` of the storage. -/
def slotByte (q : msg_q) (i j : Nat) : Nat := q.data.bytes (i * q.maxMsgLength + j)

/-- A message as a queue holds it: the caller's payload and the number of
bytes of it that `msgQSend` copied. -/
structure Msg where
  buf : Nat → Nat
  len : Nat

/-- The `k`-th slot counted from `head` starts with the bytes of `m`. -/
def Holds (q : msg_q) (k : Nat) (m : Msg) : Prop :=
  m.len ≤ q.maxMsgLength ∧
    ∀ j, j < m.len → slotByte q ((q.head + k) % q.capacity) j = m.buf j

/-- The slots from the `k`-th on, counted from `head`, hold the messages `ms`
in this order. -/
def HoldsFrom (q : msg_q) : Nat → List Msg → Prop
  | _, [] => True
  | k, m :: ms => Holds q k m ∧ HoldsFrom q (k + 1) ms

/-- The queue holds exactly the messages `ms`, the next one to deliver first. -/
def Rep (q : msg_q) (ms : List Msg) : Prop :=
  ms.length = q.used ∧ HoldsFrom q 0 ms

/-- The queue after a sequence of calls that all return, and what every
receive in it returned: its status and the caller's buffer after the call. -/
def runTrace (w : Nat) (q : msg_q) : List Call → Option (msg_q × List (Int × (Nat → Nat)))
  | [] => some (q, [])
  | Call.send buffer nBytes timeout priority :: cs =>
    match msgQSend w (some q) buffer nBytes timeout priority with
    | Outcome.returned (_, q') => runTrace w q' cs
    | _ => none
  | Call.receive buffer maxNBytes timeout :: cs =>
    match msgQReceive w (some q) buffer maxNBytes timeout with
    | Outcome.returned (rc, q', buffer') =>
      match runTrace w q' cs with
      | some (q'', out) => some (q'', (rc, buffer') :: out)
      | none => none
    | _ => none
  | Call.delete :: cs =>
    match (msgQDelete (some q)).2 with
    | some q' => runTrace w q' cs
    | none => none

/-- The queue in the words of section 4.1 of the specification, as a list of
messages in delivery order, to compare `runTrace` with.  A send copies
`min(length, slotSize)` bytes; NORMAL appends at the logical tail, URGENT
inserts as the new logical head; a receive takes the message at the head and
gets `min(maxLength, slotSize)` bytes.  The result is the list of messages
left and, for every receive, the message it takes with its byte count. -/
def specRun (slotSize : Nat) (ms : List Msg) : List Call → List Msg × List (Msg × Nat)
  | [] => (ms, [])
  | Call.send buffer nBytes _ priority :: cs =>
    if MSG_PRI_URGENT = priority then
      specRun slotSize ({ buf := buffer, len := min nBytes slotSize } :: ms) cs
    else specRun slotSize (ms ++ [{ buf := buffer, len := min nBytes slotSize }]) cs
  | Call.receive _ maxNBytes _ :: cs =>
    match ms with
    | [] => specRun slotSize [] cs
    | m :: rest =>
      ((specRun slotSize rest cs).1, (m, min maxNBytes slotSize) :: (specRun slotSize rest cs).2)
  | Call.delete :: cs => specRun slotSize ms cs

/-- A sequence of sends and receives in which no send is issued on a full
queue and no receive on an empty one, for a queue of the given capacity that
holds `used` messages. -/
def Admissible (capacity : Nat) : Nat → List Call → Prop
  | _, [] => True
  | used, Call.send _ _ _ _ :: cs => used < capacity ∧ Admissible capacity (used + 1) cs
  | used, Call.receive _ _ _ :: cs => 0 < used ∧ Admissible capacity (used - 1) cs
  | _, Call.delete :: _ => False

/-- What a receive returned is the message `m` cut to `n` bytes. -/
def Delivered (r : Int × (Nat → Nat)) (m : Msg × Nat) : Prop :=
  r.1 = (m.2 : Int) ∧ ∀ j, j < m.1.len → j < m.2 → r.2 j = m.1.buf j

/-- The NORMAL sends of a list of payloads, in order. -/
def sendAll (ps : List Msg) : List Call :=
  ps.map (fun p => Call.send p.buf p.len MSG_Q_WAIT_FOREVER MSG_PRI_NORMAL)

/-- `n` receives of up to `maxNBytes` bytes into a zeroed buffer. -/
def receiveN (n maxNBytes : Nat) : List Call :=
  List.replicate n (Call.receive (fun _ => 0) maxNBytes MSG_Q_NO_WAIT)

/-! ## Counting and collecting the messages of a sequence of calls -/

/-- The net number of messages a sequence of calls adds: one for every send
that returns a byte count, minus one for every receive that returns a byte
count, up to the first call that does not return. -/
def netCount (w : Nat) (q : msg_q) : List Call → Int
  | [] => 0
  | Call.send buffer nBytes timeout priority :: cs =>
    match msgQSend w (some q) buffer nBytes timeout priority with
    | Outcome.returned (rc, q') =>
      (if rc = MSG_Q_ERROR then 0 else 1) + netCount w q' cs
    | _ => 0
  | Call.receive buffer maxNBytes timeout :: cs =>
    match msgQReceive w (some q) buffer maxNBytes timeout with
    | Outcome.returned (rc, q', _) =>
      (if rc = MSG_Q_ERROR then 0 else -1) + netCount w q' cs
    | _ => 0
  | Call.delete :: cs =>
    match (msgQDelete (some q)).2 with
    | some q' => netCount w q' cs
    | none => 0

/-- The messages the sends of a sequence of calls hand to a queue of the given
slot size, in call order. -/
def sentMsgs (slotSize : Nat) : List Call → List Msg
  | [] => []
  | Call.send buffer nBytes _ _ :: cs =>
    { buf := buffer, len := min nBytes slotSize } :: sentMsgs slotSize cs
  | Call.receive _ _ _ :: cs => sentMsgs slotSize cs
  | Call.delete :: cs => sentMsgs slotSize cs

/-! ## The pipeline around the queues (defish_app.h, pipeline_src.c, pipeline_sink_gst.c) -/

def DECODER_QUEUE_DEPTH : Nat := 2

def ENCODER_QUEUE_DEPTH : Nat := 4

def NUM_SRC_STREAMS : Nat := 4

/-- The record `struct FrameData` of defish_app.h: two pointers, taken as
addresses; `0` is `NULL`. -/
structure FrameData where
  frame : Nat
  rawPixelData : Nat

/-- The size of a pointer in bytes on a target with `w`-bit addresses. -/
def ptrSize (w : Nat) : Nat := w / 8

/-- The value of `sizeof(struct FrameData)`. -/
def sizeofFrameData (w : Nat) : Nat := 2 * ptrSize w

/-- Byte `i` of the address `p` as stored in memory, low byte first. -/
def ptrByte (p i : Nat) : Nat := p / 256 ^ i % 256

/-- The address stored in the `n` bytes of `b` from offset `off` on, low byte
first. -/
def ptrOfBytes (b : Nat → Nat) (off : Nat) : Nat → Nat
  | 0 => 0
  | n + 1 => b off + 256 * ptrOfBytes b (off + 1) n

/-- The bytes of a `struct FrameData` in memory, as `(char*)&frameData` reads
them. -/
def FrameData.toBytes (w : Nat) (fd : FrameData) : Nat → Nat :=
  fun i => if i < ptrSize w then ptrByte fd.frame i else ptrByte fd.rawPixelData (i - ptrSize w)

/-- The `struct FrameData` that the bytes `b` are. -/
def FrameData.ofBytes (w : Nat) (b : Nat → Nat) : FrameData :=
  { frame := ptrOfBytes b 0 (ptrSize w)
    rawPixelData := ptrOfBytes b (ptrSize w) (ptrSize w) }

/-- The static queue arrays of pipeline_src.c, by stream index. -/
structure SrcQueues where
  FrameQueuesDecoded : Nat → Option msg_q
  FrameQueuesReturnedToDecoder : Nat → Option msg_q

/-- The function `SubmitFrameFromDecoder` of pipeline_src.c. -/
def SubmitFrameFromDecoder (w : Nat) (g : SrcQueues) (frame index : Nat) : Outcome SrcQueues :=
  match msgQSend w (g.FrameQueuesDecoded index)
      (FrameData.toBytes w { frame := frame, rawPixelData := 0 }) (sizeofFrameData w)
      MSG_Q_WAIT_FOREVER MSG_PRI_NORMAL with
  | Outcome.returned (_, q') =>
    Outcome.returned { g with FrameQueuesDecoded := Function.update g.FrameQueuesDecoded index (some q') }
  | Outcome.blocked => Outcome.blocked
  | Outcome.undefined => Outcome.undefined

/-- The function `ReturnFrameToDecoderQueue` of pipeline_src.c. -/
def ReturnFrameToDecoderQueue (w : Nat) (g : SrcQueues) (frame index : Nat) :
    Outcome SrcQueues :=
  match msgQSend w (g.FrameQueuesReturnedToDecoder index)
      (FrameData.toBytes w { frame := frame, rawPixelData := 0 }) (sizeofFrameData w)
      MSG_Q_WAIT_FOREVER MSG_PRI_NORMAL with
  | Outcome.returned (_, q') =>
    Outcome.returned
      { g with
        FrameQueuesReturnedToDecoder :=
          Function.update g.FrameQueuesReturnedToDecoder index (some q') }
  | Outcome.blocked => Outcome.blocked
  | Outcome.undefined => Outcome.undefined

/-- The function `TryReceiveDecodedFrame` of pipeline_src.c: the value
returned, the caller's `frameData` after the call and the queues. -/
def TryReceiveDecodedFrame (w : Nat) (g : SrcQueues) (frameData : FrameData) (src_idx : Nat) :
    Outcome (Bool × FrameData × SrcQueues) :=
  match msgQReceive w (g.FrameQueuesDecoded src_idx) (FrameData.toBytes w frameData)
      (sizeofFrameData w) MSG_Q_NO_WAIT with
  | Outcome.returned (q_status, q', buffer') =>
    Outcome.returned
      (decide (int_to_size w q_status = sizeofFrameData w),
       FrameData.ofBytes w buffer',
       { g with FrameQueuesDecoded := Function.update g.FrameQueuesDecoded src_idx (some q') })
  | Outcome.blocked => Outcome.blocked
  | Outcome.undefined => Outcome.undefined

/-- Lines 241 to 254 of `DecoderThreadRoutine` in pipeline_src.c: the decoder
takes a `struct FrameData` from its returned queue with `MSG_Q_WAIT_FOREVER`;
the result is the frame it goes on with, or `none` when the status is not
the size of the record and the loop continues. -/
def decoderReceiveFrame (w : Nat) (g : SrcQueues) (thisDecoderIndex : Nat) :
    Outcome (Option Nat × SrcQueues) :=
  match msgQReceive w (g.FrameQueuesReturnedToDecoder thisDecoderIndex)
      (FrameData.toBytes w { frame := 0, rawPixelData := 0 }) (sizeofFrameData w)
      MSG_Q_WAIT_FOREVER with
  | Outcome.returned (q_status, q', buffer') =>
    Outcome.returned
      (if int_to_size w q_status ≠ sizeofFrameData w then none
       else some (FrameData.ofBytes w buffer').frame,
       { g with
         FrameQueuesReturnedToDecoder :=
           Function.update g.FrameQueuesReturnedToDecoder thisDecoderIndex (some q') })
  | Outcome.blocked => Outcome.blocked
  | Outcome.undefined => Outcome.undefined

/-- The queue creation loop of `InitializeDecoders` in pipeline_src.c, from
`streamIndex` on for `n` streams; `none` when an `assert` fails. -/
def initDecoderQueues (w : Nat) (env : CreateEnv) (g : SrcQueues) (streamIndex : Nat) :
    Nat → Option SrcQueues
  | 0 => some g
  | n + 1 =>
    match msgQCreate w DECODER_QUEUE_DEPTH (sizeofFrameData w) MSG_Q_FIFO env with
    | none => none
    | some qd =>
      match msgQCreate w DECODER_QUEUE_DEPTH (sizeofFrameData w) MSG_Q_FIFO env with
      | none => none
      | some qr =>
        initDecoderQueues w env
          { FrameQueuesDecoded := Function.update g.FrameQueuesDecoded streamIndex (some qd)
            FrameQueuesReturnedToDecoder :=
              Function.update g.FrameQueuesReturnedToDecoder streamIndex (some qr) }
          (streamIndex + 1) n

/-- The queues `InitializeDecoders` of pipeline_src.c creates. -/
def InitializeDecoders (w : Nat) (env : CreateEnv) : Option SrcQueues :=
  initDecoderQueues w env
    { FrameQueuesDecoded := fun _ => none, FrameQueuesReturnedToDecoder := fun _ => none }
    0 NUM_SRC_STREAMS

/-- Lines 216 to 225 of `DecoderThreadRoutine`: the frames `av_frame_alloc`
gives (`0` for `NULL`) are sent to the returned queue one by one; the loop is
left at the first `NULL`.  The result says whether the loop ran to its end. -/
def seedDecoderFrames (w : Nat) (thisDecoderIndex : Nat) :
    SrcQueues → List Nat → Outcome (Bool × SrcQueues)
  | g, [] => Outcome.returned (true, g)
  | g, frame :: frames =>
    if frame = 0 then Outcome.returned (false, g)
    else
      match ReturnFrameToDecoderQueue w g frame thisDecoderIndex with
      | Outcome.returned g' => seedDecoderFrames w thisDecoderIndex g' frames
      | Outcome.blocked => Outcome.blocked
      | Outcome.undefined => Outcome.undefined

/-- The static queue arrays of pipeline_sink_gst.c, each of one element. -/
structure SinkQueues where
  FrameQueuesEncoderInput : Option msg_q
  FrameQueuesReturnedToEncoder : Option msg_q

/-- The function `ReturnFrameFromEncoder` of pipeline_sink_gst.c. -/
def ReturnFrameFromEncoder (w : Nat) (s : SinkQueues) (frameData : FrameData) :
    Outcome SinkQueues :=
  match msgQSend w s.FrameQueuesEncoderInput (FrameData.toBytes w frameData)
      (sizeofFrameData w) MSG_Q_WAIT_FOREVER MSG_PRI_NORMAL with
  | Outcome.returned (_, q') => Outcome.returned { s with FrameQueuesEncoderInput := some q' }
  | Outcome.blocked => Outcome.blocked
  | Outcome.undefined => Outcome.undefined

/-- The function `GetFrameForEncoder` of pipeline_sink_gst.c. -/
def GetFrameForEncoder (w : Nat) (s : SinkQueues) (frameData : FrameData) :
    Outcome (Bool × FrameData × SinkQueues) :=
  match msgQReceive w s.FrameQueuesReturnedToEncoder (FrameData.toBytes w frameData)
      (sizeofFrameData w) MSG_Q_WAIT_FOREVER with
  | Outcome.returned (q_status, q', buffer') =>
    Outcome.returned
      (decide (int_to_size w q_status = sizeofFrameData w),
       FrameData.ofBytes w buffer',
       { s with FrameQueuesReturnedToEncoder := some q' })
  | Outcome.blocked => Outcome.blocked
  | Outcome.undefined => Outcome.undefined

/-- The function `SubmitEncoderInputBuffer` of pipeline_sink_gst.c. -/
def SubmitEncoderInputBuffer (w : Nat) (s : SinkQueues) (frameData : FrameData) :
    Outcome SinkQueues :=
  match msgQSend w s.FrameQueuesReturnedToEncoder (FrameData.toBytes w frameData)
      (sizeofFrameData w) MSG_Q_WAIT_FOREVER MSG_PRI_NORMAL with
  | Outcome.returned (_, q') =>
    Outcome.returned { s with FrameQueuesReturnedToEncoder := some q' }
  | Outcome.blocked => Outcome.blocked
  | Outcome.undefined => Outcome.undefined

/-- The function `TryGetEncoderInputBuffer` of pipeline_sink_gst.c. -/
def TryGetEncoderInputBuffer (w : Nat) (s : SinkQueues) (frameData : FrameData) :
    Outcome (Bool × FrameData × SinkQueues) :=
  match msgQReceive w s.FrameQueuesEncoderInput (FrameData.toBytes w frameData)
      (sizeofFrameData w) MSG_Q_WAIT_FOREVER with
  | Outcome.returned (q_status, q', buffer') =>
    Outcome.returned
      (decide (int_to_size w q_status = sizeofFrameData w),
       FrameData.ofBytes w buffer',
       { s with FrameQueuesEncoderInput := some q' })
  | Outcome.blocked => Outcome.blocked
  | Outcome.undefined => Outcome.undefined

/-- The seeding loop of `InitEncoderQueues`: every buffer `malloc` gives is
put in a `struct FrameData` and passed to `SubmitEncoderInputBuffer`; a `NULL`
buffer fails the `assert` (`none`). -/
def seedEncoderBuffers (w : Nat) : SinkQueues → List Nat → Option (Outcome SinkQueues)
  | s, [] => some (Outcome.returned s)
  | s, buffer :: buffers =>
    if buffer = 0 then none
    else
      match SubmitEncoderInputBuffer w s { frame := 0, rawPixelData := buffer } with
      | Outcome.returned s' => seedEncoderBuffers w s' buffers
      | Outcome.blocked => some Outcome.blocked
      | Outcome.undefined => some Outcome.undefined

/-- The function `InitEncoderQueues` of pipeline_sink_gst.c; `buffers` are the
results of its `ENCODER_QUEUE_DEPTH` calls of `malloc`, and `none` is a failed
`assert`. -/
def InitEncoderQueues (w : Nat) (env : CreateEnv) (buffers : List Nat) :
    Option (Outcome SinkQueues) :=
  match msgQCreate w ENCODER_QUEUE_DEPTH (sizeofFrameData w) MSG_Q_FIFO env with
  | none => none
  | some qi =>
    match msgQCreate w ENCODER_QUEUE_DEPTH (sizeofFrameData w) MSG_Q_FIFO env with
    | none => none
    | some qr =>
      seedEncoderBuffers w
        { FrameQueuesEncoderInput := some qi, FrameQueuesReturnedToEncoder := some qr }
        (buffers.take ENCODER_QUEUE_DEPTH)

/-- The function `DownloadFramebuffer` of pipeline_proc_defish.c, as far as
the queues go: the pixel transfer into the buffer is not represented. -/
def DownloadFramebuffer (w : Nat) (s : SinkQueues) : Outcome SinkQueues :=
  match TryGetEncoderInputBuffer w s { frame := 0, rawPixelData := 0 } with
  | Outcome.returned (ok, frameData, s') =>
    if ok = false then Outcome.returned s'
    else if frameData.rawPixelData = 0 then Outcome.returned s'
    else SubmitEncoderInputBuffer w s' frameData
  | Outcome.blocked => Outcome.blocked
  | Outcome.undefined => Outcome.undefined

/-- The `struct FrameData` records a queue holds, the next one to deliver
first. -/
def queueRecords (w : Nat) : Option msg_q → List FrameData
  | none => []
  | some q =>
    (List.range q.used).map
      (fun k => FrameData.ofBytes w
        (fun j => q.data.bytes ((q.head + k) % q.capacity * q.maxMsgLength + j)))

/-- The frames of the records a queue holds, the next one to deliver first. -/
def queueFrames (w : Nat) (q : Option msg_q) : List Nat :=
  (queueRecords w q).map FrameData.frame

/-- The number of messages a queue handle holds. -/
def usedOf : Option msg_q → Nat
  | none => 0
  | some q => q.used

/-- Where the frames of the channel of one decoder are: in its two queues, or
with the decoder thread between its receive and its send, or with the
renderer between `TryReceiveDecodedFrame` and `ReturnFrameToDecoderQueue`. -/
structure DecoderChannel where
  queues : SrcQueues
  decoderHeld : Option Nat
  rendererHeld : Option Nat

/-- The queue operations of the two threads of a decoder channel. -/
inductive ProtocolStep where
  | decoderAcquire : ProtocolStep
  | decoderPublish : ProtocolStep
  | decoderHandBack : ProtocolStep
  | rendererAcquire : ProtocolStep
  | rendererRelease : ProtocolStep

/-- One queue operation of the channel of stream `index`, by the code that
performs it: the receive of `DecoderThreadRoutine`, `SubmitFrameFromDecoder`,
`ReturnFrameToDecoderQueue` (from the decoder and from the renderer) and
`TryReceiveDecodedFrame` as `RenderPipelineWithGL` calls it.  The result is
`none` when the thread is not at that operation or the call does not return. -/
def protocolStep (w : Nat) (index : Nat) (s : DecoderChannel) :
    ProtocolStep → Option DecoderChannel
  | ProtocolStep.decoderAcquire =>
    match s.decoderHeld with
    | some _ => none
    | none =>
      match decoderReceiveFrame w s.queues index with
      | Outcome.returned (frame, g) => some { s with queues := g, decoderHeld := frame }
      | _ => none
  | ProtocolStep.decoderPublish =>
    match s.decoderHeld with
    | none => none
    | some frame =>
      match SubmitFrameFromDecoder w s.queues frame index with
      | Outcome.returned g => some { s with queues := g, decoderHeld := none }
      | _ => none
  | ProtocolStep.decoderHandBack =>
    match s.decoderHeld with
    | none => none
    | some frame =>
      match ReturnFrameToDecoderQueue w s.queues frame index with
      | Outcome.returned g => some { s with queues := g, decoderHeld := none }
      | _ => none
  | ProtocolStep.rendererAcquire =>
    match s.rendererHeld with
    | some _ => none
    | none =>
      match TryReceiveDecodedFrame w s.queues { frame := 0, rawPixelData := 0 } index with
      | Outcome.returned (ok, frameData, g) =>
        some { s with queues := g, rendererHeld := if ok then some frameData.frame else none }
      | _ => none
  | ProtocolStep.rendererRelease =>
    match s.rendererHeld with
    | none => none
    | some frame =>
      match ReturnFrameToDecoderQueue w s.queues frame index with
      | Outcome.returned g => some { s with queues := g, rendererHeld := none }
      | _ => none

/-- The channel after a sequence of queue operations that all take place. -/
def runProtocol (w : Nat) (index : Nat) (s : DecoderChannel) :
    List ProtocolStep → Option DecoderChannel
  | [] => some s
  | st :: sts =>
    match protocolStep w index s st with
    | some s' => runProtocol w index s' sts
    | none => none

/-- The dual-queue channel in the words of section 4.2 of the specification:
the handles in `free`, the handle in flight with the filling role, the handles
in `filled` and the handle in flight with the draining role. -/
structure Pool where
  free : List Nat
  fillerHeld : Option Nat
  filled : List Nat
  drainerHeld : Option Nat

/-- All handles of a pool, place by place. -/
def Pool.handles (p : Pool) : List Nat :=
  p.free ++ p.fillerHeld.toList ++ p.filled ++ p.drainerHeld.toList

/-- The protocol of section 4.2 on a pool whose queues have the given
capacity: acquire from `free` (blocking), publish to `filled`, hand back to
`free`, acquire from `filled` without blocking, release to `free`.  The result
is `none` when the role is not at that operation or its call blocks. -/
def poolStep (capacity : Nat) (p : Pool) : ProtocolStep → Option Pool
  | ProtocolStep.decoderAcquire =>
    match p.fillerHeld, p.free with
    | none, h :: rest => some { p with free := rest, fillerHeld := some h }
    | _, _ => none
  | ProtocolStep.decoderPublish =>
    match p.fillerHeld with
    | some h =>
      if p.filled.length < capacity then
        some { p with fillerHeld := none, filled := p.filled ++ [h] }
      else none
    | none => none
  | ProtocolStep.decoderHandBack =>
    match p.fillerHeld with
    | some h =>
      if p.free.length < capacity then some { p with fillerHeld := none, free := p.free ++ [h] }
      else none
    | none => none
  | ProtocolStep.rendererAcquire =>
    match p.drainerHeld, p.filled with
    | none, h :: rest => some { p with filled := rest, drainerHeld := some h }
    | none, [] => some p
    | some _, _ => none
  | ProtocolStep.rendererRelease =>
    match p.drainerHeld with
    | some h =>
      if p.free.length < capacity then
        some { p with drainerHeld := none, free := p.free ++ [h] }
      else none
    | none => none

/-- The channel of stream `index` when its decoder thread enters its main
loop: the queues `InitializeDecoders` created, after the seeding loop of
`DecoderThreadRoutine` has sent the frames `av_frame_alloc` gave, with no
frame in flight; `none` when an `assert` fails, a frame is `NULL` or a send
does not return. -/
def startChannel (w : Nat) (env : CreateEnv) (index : Nat) (frames : List Nat) :
    Option DecoderChannel :=
  match InitializeDecoders w env with
  | none => none
  | some g =>
    match seedDecoderFrames w index g (frames.take DECODER_QUEUE_DEPTH) with
    | Outcome.returned (true, g') =>
      some { queues := g', decoderHeld := none, rendererHeld := none }
    | _ => none

/-- The places of the frames of a channel, in the order returned queue,
decoder thread, decoded queue, renderer. -/
def DecoderChannel.places (w : Nat) (index : Nat) (s : DecoderChannel) : List Nat :=
  queueFrames w (s.queues.FrameQueuesReturnedToDecoder index) ++ s.decoderHeld.toList ++
    queueFrames w (s.queues.FrameQueuesDecoded index) ++ s.rendererHeld.toList

/-- The pool of section 4.2 after a sequence of operations that all take
place. -/
def runPool (capacity : Nat) (p : Pool) : List ProtocolStep → Option Pool
  | [] => some p
  | st :: sts =>
    match poolStep capacity p st with
    | some p' => runPool capacity p' sts
    | none => none

/-- The message that carries the frame `h` through a queue. -/
def frameMsg (w : Nat) (h : Nat) : Msg :=
  { buf := FrameData.toBytes w { frame := h, rawPixelData := 0 }, len := sizeofFrameData w }

/-- A queue handle of a decoder channel holds the frames `hs`, the next one to
deliver first. -/
def QueueHolds (w : Nat) (oq : Option msg_q) (hs : List Nat) : Prop :=
  ∃ q, oq = some q ∧ WF w q ∧ q.isDestroyed = 0 ∧ q.capacity = DECODER_QUEUE_DEPTH ∧
    q.maxMsgLength = sizeofFrameData w ∧ Rep q (hs.map (frameMsg w))

/-- The channel state `s` of stream `index` is the pool `p`. -/
def Sim (w : Nat) (index : Nat) (s : DecoderChannel) (p : Pool) : Prop :=
  s.decoderHeld = p.fillerHeld ∧ s.rendererHeld = p.drainerHeld ∧
    QueueHolds w (s.queues.FrameQueuesReturnedToDecoder index) p.free ∧
    QueueHolds w (s.queues.FrameQueuesDecoded index) p.filled ∧
    ∀ h ∈ p.handles, h < 256 ^ ptrSize w

/-! ## The loops of the renderer and of the decoder thread -/

/-- The polling loop of `RenderPipelineWithGL` (pipeline_proc_defish.c, lines
728 to 760) from `src_idx` on for `n` streams, as far as the queues go: the
upload of the texture and the drawing are not represented. -/
def renderPoll (w : Nat) (g : SrcQueues) (src_idx : Nat) : Nat → Outcome SrcQueues
  | 0 => Outcome.returned g
  | n + 1 =>
    match TryReceiveDecodedFrame w g { frame := 0, rawPixelData := 0 } src_idx with
    | Outcome.returned (ok, frameData, g1) =>
      if ok = true then
        match ReturnFrameToDecoderQueue w g1 frameData.frame src_idx with
        | Outcome.returned g2 => renderPoll w g2 (src_idx + 1) n
        | Outcome.blocked => Outcome.blocked
        | Outcome.undefined => Outcome.undefined
      else renderPoll w g1 (src_idx + 1) n
    | Outcome.blocked => Outcome.blocked
    | Outcome.undefined => Outcome.undefined

/-- The queue operations of one call of `RenderPipelineWithGL`
(pipeline_proc_defish.c, lines 709 to 784): the polling loop over the
`NUM_SRC_STREAMS` streams, then `DownloadFramebuffer` on the encoder queues;
the drawing and the frame rate counter are not represented. -/
def RenderPipelineWithGL (w : Nat) (g : SrcQueues) (s : SinkQueues) :
    Outcome (SrcQueues × SinkQueues) :=
  match renderPoll w g 0 NUM_SRC_STREAMS with
  | Outcome.returned g' =>
    match DownloadFramebuffer w s with
    | Outcome.returned s' => Outcome.returned (g', s')
    | Outcome.blocked => Outcome.blocked
    | Outcome.undefined => Outcome.undefined
  | Outcome.blocked => Outcome.blocked
  | Outcome.undefined => Outcome.undefined

/-- What the library calls of one iteration of the decoder loop give: the
value `av_read_frame` returns, whether the packet read is of the stream of
this decoder, and the value `avcodec_decode_video2` stores in `frame_done`. -/
structure PacketRead where
  av_read_frame : Int
  sameStream : Bool
  frame_done : Int

/-- One iteration of the `while (1)` loop of `DecoderThreadRoutine`
(pipeline_src.c, lines 228 to 287): the queues and `decodedFrameIndex` the next
iteration starts with, or `none` when the iteration ends in `goto done`. -/
def decoderIteration (w : Nat) (g : SrcQueues) (thisDecoderIndex decodedFrameIndex : Nat)
    (p : PacketRead) : Outcome (Option (SrcQueues × Nat)) :=
  let decodedFrameIndex := size_add w decodedFrameIndex 1
  if p.av_read_frame < 0 then Outcome.returned none
  else if p.sameStream = false then Outcome.returned (some (g, decodedFrameIndex))
  else
    match decoderReceiveFrame w g thisDecoderIndex with
    | Outcome.returned (none, g1) => Outcome.returned (some (g1, decodedFrameIndex))
    | Outcome.returned (some frame, g1) =>
      if p.frame_done = 0 ∧ decodedFrameIndex < 100 then
        match ReturnFrameToDecoderQueue w g1 frame thisDecoderIndex with
        | Outcome.returned g2 => Outcome.returned (some (g2, decodedFrameIndex))
        | Outcome.blocked => Outcome.blocked
        | Outcome.undefined => Outcome.undefined
      else
        match SubmitFrameFromDecoder w g1 frame thisDecoderIndex with
        | Outcome.returned g2 => Outcome.returned (some (g2, decodedFrameIndex))
        | Outcome.blocked => Outcome.blocked
        | Outcome.undefined => Outcome.undefined
    | Outcome.blocked => Outcome.blocked
    | Outcome.undefined => Outcome.undefined

/-- The `while (1)` loop of `DecoderThreadRoutine` over the packets the library
gives next: `true` when the loop was left through `done`, `false` when it is
still running after the last of the packets given. -/
def decoderMainLoop (w : Nat) (thisDecoderIndex : Nat) :
    SrcQueues → Nat → List PacketRead → Outcome (Bool × SrcQueues)
  | g, _, [] => Outcome.returned (false, g)
  | g, decodedFrameIndex, p :: ps =>
    match decoderIteration w g thisDecoderIndex decodedFrameIndex p with
    | Outcome.returned none => Outcome.returned (true, g)
    | Outcome.returned (some (g1, n)) => decoderMainLoop w thisDecoderIndex g1 n ps
    | Outcome.blocked => Outcome.blocked
    | Outcome.undefined => Outcome.undefined

/-- The `msgQDelete` calls of `WaitAndReleaseDecoders` (pipeline_src.c) from
`streamIndex` on for `n` streams; the `pthread_join` is not represented. -/
def deleteDecoderQueues (g : SrcQueues) (streamIndex : Nat) : Nat → SrcQueues
  | 0 => g
  | n + 1 =>
    deleteDecoderQueues
      { FrameQueuesDecoded :=
          Function.update g.FrameQueuesDecoded streamIndex
            (msgQDelete (g.FrameQueuesDecoded streamIndex)).2
        FrameQueuesReturnedToDecoder :=
          Function.update g.FrameQueuesReturnedToDecoder streamIndex
            (msgQDelete (g.FrameQueuesReturnedToDecoder streamIndex)).2 }
      (streamIndex + 1) n

/-- The queues after the `msgQDelete` calls of `WaitAndReleaseDecoders`. -/
def WaitAndReleaseDecoders (g : SrcQueues) : SrcQueues :=
  deleteDecoderQueues g 0 NUM_SRC_STREAMS

/-- The URGENT sends of a list of payloads, in order. -/
def urgentAll (ps : List Msg) : List Call :=
  ps.map (fun p => Call.send p.buf p.len MSG_Q_WAIT_FOREVER MSG_PRI_URGENT)

/-- A packet of the stream of the decoder, read and decoded to a frame. -/
def goodPacket : PacketRead := { av_read_frame := 0, sameStream := true, frame_done := 1 }

/-- The end of the input: `av_read_frame` fails. -/
def endOfInput : PacketRead := { av_read_frame := -1, sameStream := false, frame_done := 0 }

/-! ## The cases of `msgQSend`, `msgQReceive` and `msgQCreate` -/

theorem clamp_eq_min (n l : Nat) : (if n > l then l else n) = min n l := by
  split <;> omega

/-- A send on a live queue with a free slot. -/
theorem send_live_eq (w : Nat) (q : msg_q) (buffer : Nat → Nat) (nBytes : Nat)
    (timeout priority : Int) (hlive : q.isDestroyed = 0) (hlt : q.used < q.capacity) :
    msgQSend w (some q) buffer nBytes timeout priority =
      if size_mul w (sendIdx w q priority) q.maxMsgLength + min nBytes q.maxMsgLength
          ≤ q.data.size then
        Outcome.returned
          (to_int (min nBytes q.maxMsgLength : Nat),
           { q with
             head := sendHead w q priority
             used := size_add w q.used 1
             data :=
               { q.data with
                 bytes := memcpy q.data.bytes
                   (size_mul w (sendIdx w q priority) q.maxMsgLength) buffer 0
                   (min nBytes q.maxMsgLength) } })
      else Outcome.undefined := by
  have h1 : ¬ (q.capacity ≤ q.used) := by omega
  simp only [msgQSend, hlive, hlt, h1, ge_iff_le, and_false, not_true_eq_false, if_false,
    clamp_eq_min, sendIdx, sendHead, true_and]

/-- A send on a live queue without a free slot waits, whatever its timeout. -/
theorem send_full_eq (w : Nat) (q : msg_q) (buffer : Nat → Nat) (nBytes : Nat)
    (timeout priority : Int) (hlive : q.isDestroyed = 0) (hfull : q.capacity ≤ q.used) :
    msgQSend w (some q) buffer nBytes timeout priority = Outcome.blocked := by
  simp [msgQSend, hlive, hfull]

/-- A send on a destroyed queue. -/
theorem send_destroyed_eq (w : Nat) (q : msg_q) (buffer : Nat → Nat) (nBytes : Nat)
    (timeout priority : Int) (hd : q.isDestroyed ≠ 0) :
    msgQSend w (some q) buffer nBytes timeout priority = Outcome.returned (MSG_Q_ERROR, q) := by
  simp [msgQSend, hd]

/-- A receive on a live queue that holds a message. -/
theorem receive_live_eq (w : Nat) (q : msg_q) (buffer : Nat → Nat) (maxNBytes : Nat)
    (timeout : Int) (hlive : q.isDestroyed = 0) (hpos : 0 < q.used) :
    msgQReceive w (some q) buffer maxNBytes timeout =
      if size_mul w (q.head % q.capacity) q.maxMsgLength + min maxNBytes q.maxMsgLength
          ≤ q.data.size then
        Outcome.returned
          (to_int (min maxNBytes q.maxMsgLength : Nat),
           { q with
             head := size_add w q.head 1
             used := size_sub w q.used 1
             data :=
               { q.data with
                 bytes := memset q.data.bytes
                   (size_mul w (q.head % q.capacity) q.maxMsgLength) 0
                   (min maxNBytes q.maxMsgLength) } },
           memcpy buffer 0 q.data.bytes (size_mul w (q.head % q.capacity) q.maxMsgLength)
             (min maxNBytes q.maxMsgLength))
      else Outcome.undefined := by
  have h1 : ¬ (q.used = 0) := by omega
  simp [msgQReceive, hlive, hpos, h1, clamp_eq_min]

/-- A receive on a live queue that holds no message. -/
theorem receive_empty_eq (w : Nat) (q : msg_q) (buffer : Nat → Nat) (maxNBytes : Nat)
    (timeout : Int) (hlive : q.isDestroyed = 0) (hempty : q.used = 0) :
    msgQReceive w (some q) buffer maxNBytes timeout =
      if timeout = MSG_Q_WAIT_FOREVER then Outcome.blocked
      else Outcome.returned (MSG_Q_ERROR, q, buffer) := by
  simp [msgQReceive, hlive, hempty]

/-- A receive on a destroyed queue. -/
theorem receive_destroyed_eq (w : Nat) (q : msg_q) (buffer : Nat → Nat) (maxNBytes : Nat)
    (timeout : Int) (hd : q.isDestroyed ≠ 0) :
    msgQReceive w (some q) buffer maxNBytes timeout
      = Outcome.returned (MSG_Q_ERROR, q, buffer) := by
  simp [msgQReceive, hd]

/-- The fields a returning send can change. -/
theorem send_returned_fields (w : Nat) (q q' : msg_q) (buffer : Nat → Nat) (nBytes : Nat)
    (timeout priority rc : Int)
    (h : msgQSend w (some q) buffer nBytes timeout priority = Outcome.returned (rc, q')) :
    q'.capacity = q.capacity ∧ q'.maxMsgLength = q.maxMsgLength ∧
      q'.isDestroyed = q.isDestroyed ∧ q'.data.size = q.data.size ∧
      (q' = q ∨ (q.used < q.capacity ∧ q'.used = size_add w q.used 1)) := by
  by_cases hlive : q.isDestroyed = 0
  · by_cases hlt : q.used < q.capacity
    · rw [send_live_eq w q buffer nBytes timeout priority hlive hlt] at h
      split_ifs at h
      simp only [Outcome.returned.injEq, Prod.mk.injEq] at h
      obtain ⟨-, rfl⟩ := h
      exact ⟨rfl, rfl, rfl, rfl, Or.inr ⟨hlt, rfl⟩⟩
    · rw [send_full_eq w q buffer nBytes timeout priority hlive (by omega)] at h
      exact absurd h (by simp)
  · rw [send_destroyed_eq w q buffer nBytes timeout priority hlive] at h
    simp only [Outcome.returned.injEq, Prod.mk.injEq] at h
    obtain ⟨-, rfl⟩ := h
    exact ⟨rfl, rfl, rfl, rfl, Or.inl rfl⟩

/-- The fields a returning receive can change. -/
theorem receive_returned_fields (w : Nat) (q q' : msg_q) (buffer buffer' : Nat → Nat)
    (maxNBytes : Nat) (timeout rc : Int)
    (h : msgQReceive w (some q) buffer maxNBytes timeout = Outcome.returned (rc, q', buffer')) :
    q'.capacity = q.capacity ∧ q'.maxMsgLength = q.maxMsgLength ∧
      q'.isDestroyed = q.isDestroyed ∧ q'.data.size = q.data.size ∧
      (q' = q ∨ (0 < q.used ∧ q'.used = size_sub w q.used 1)) := by
  by_cases hlive : q.isDestroyed = 0
  · by_cases hpos : 0 < q.used
    · rw [receive_live_eq w q buffer maxNBytes timeout hlive hpos] at h
      split_ifs at h
      simp only [Outcome.returned.injEq, Prod.mk.injEq] at h
      obtain ⟨-, rfl, -⟩ := h
      exact ⟨rfl, rfl, rfl, rfl, Or.inr ⟨hpos, rfl⟩⟩
    · rw [receive_empty_eq w q buffer maxNBytes timeout hlive (by omega)] at h
      split_ifs at h
      simp only [Outcome.returned.injEq, Prod.mk.injEq] at h
      obtain ⟨-, rfl, -⟩ := h
      exact ⟨rfl, rfl, rfl, rfl, Or.inl rfl⟩
  · rw [receive_destroyed_eq w q buffer maxNBytes timeout hlive] at h
    simp only [Outcome.returned.injEq, Prod.mk.injEq] at h
    obtain ⟨-, rfl, -⟩ := h
    exact ⟨rfl, rfl, rfl, rfl, Or.inl rfl⟩

/-- The queue `msgQCreate` returns, when it returns one. -/
theorem create_fields (w : Nat) (maxMsgs maxMsgLength options : Int) (env : CreateEnv)
    (q : msg_q) (h : msgQCreate w maxMsgs maxMsgLength options env = some q) :
    0 < maxMsgs ∧ 0 < maxMsgLength ∧ q.capacity = int_to_size w maxMsgs ∧ q.used = 0 ∧
      q.maxMsgLength = int_to_size w maxMsgLength ∧ q.head = 0 ∧ q.isDestroyed = 0 ∧
      q.data.size = int_to_size w (to_int (maxMsgLength * maxMsgs)) := by
  unfold msgQCreate at h
  by_cases h1 : maxMsgs > 0
  · by_cases h2 : maxMsgLength > 0
    · by_cases h3 : env.mallocQ = false
      · simp [h1, h2, h3] at h
      · cases hm : env.mallocData (int_to_size w (to_int (maxMsgLength * maxMsgs))) with
        | none => simp [h1, h2, h3, hm] at h
        | some bytes =>
          by_cases h5 : env.mutexInit = 0
          · by_cases h6 : env.condInit = 0
            · simp [h1, h2, h3, hm, h5, h6] at h
              subst h
              exact ⟨h1, h2, rfl, rfl, rfl, rfl, rfl, rfl⟩
            · simp [h1, h2, h3, hm, h5, h6] at h
          · simp [h1, h2, h3, hm, h5] at h
    · simp [h1, h2] at h
  · simp [h1] at h

/-- The queue `msgQCreate` returns when all it asks for is granted. -/
theorem create_ok (w : Nat) (maxMsgs maxMsgLength options : Int) (env : CreateEnv)
    (bytes : Nat → Nat) (h1 : 0 < maxMsgs) (h2 : 0 < maxMsgLength) (h3 : env.mallocQ = true)
    (h4 : env.mallocData (int_to_size w (to_int (maxMsgLength * maxMsgs))) = some bytes)
    (h5 : env.mutexInit = 0) (h6 : env.condInit = 0) :
    msgQCreate w maxMsgs maxMsgLength options env = some
        { capacity := int_to_size w maxMsgs
          used := 0
          maxMsgLength := int_to_size w maxMsgLength
          data := { size := int_to_size w (to_int (maxMsgLength * maxMsgs)), bytes := bytes }
          head := 0
          isDestroyed := 0 } := by
  simp [msgQCreate, h1, h2, h3, h4, h5, h6]

/-- No queue is created for a count or a length that is not positive. -/
theorem create_nonpos (w : Nat) (maxMsgs maxMsgLength options : Int) (env : CreateEnv)
    (h : maxMsgs ≤ 0 ∨ maxMsgLength ≤ 0) :
    msgQCreate w maxMsgs maxMsgLength options env = none := by
  unfold msgQCreate
  by_cases h1 : maxMsgs > 0
  · have h2 : ¬ (maxMsgLength > 0) := by omega
    simp [h1, h2]
  · simp [h1]

/-! ## Machine arithmetic without wrap-around -/

theorem int_to_size_lt (w : Nat) (z : Int) : int_to_size w z < 2 ^ w := by
  unfold int_to_size
  have hpos : (0 : Int) < ((2 ^ w : Nat) : Int) := by positivity
  have h1 := Int.emod_lt_of_pos z hpos
  have h2 := Int.emod_nonneg z (ne_of_gt hpos)
  omega

theorem int_to_size_of_lt (w : Nat) (z : Int) (h0 : 0 ≤ z) (h1 : z < 2 ^ 31) (hw : 31 ≤ w) :
    (int_to_size w z : Int) = z := by
  unfold int_to_size
  have hp : (2 : Int) ^ 31 ≤ ((2 ^ w : Nat) : Int) := by
    have : (2 : Nat) ^ 31 ≤ 2 ^ w := Nat.pow_le_pow_right (by norm_num) hw
    exact_mod_cast this
  have hlt : z < ((2 ^ w : Nat) : Int) := lt_of_lt_of_le h1 hp
  rw [Int.emod_eq_of_lt h0 hlt]
  exact Int.toNat_of_nonneg h0

theorem size_add_one_of_lt (w a c : Nat) (h : a < c) (hc : c < 2 ^ w) :
    size_add w a 1 = a + 1 := by
  unfold size_add
  exact Nat.mod_eq_of_lt (by omega)

theorem size_sub_one_of_pos (w a c : Nat) (h : 0 < a) (hac : a ≤ c) (hc : c < 2 ^ w) :
    size_sub w a 1 = a - 1 := by
  unfold size_sub
  have h1 : a % 2 ^ w = a := Nat.mod_eq_of_lt (by omega)
  have h2 : 1 % 2 ^ w = 1 := Nat.mod_eq_of_lt (by omega)
  rw [h1, h2]
  have : a + 2 ^ w - 1 = (a - 1) + 2 ^ w := by omega
  rw [this, Nat.add_mod_right]
  exact Nat.mod_eq_of_lt (by omega)

/-! ## Invariants of sequences of calls -/

/-- Every call that returns keeps `used` within the capacity. -/
theorem next_used_le (w : Nat) (q q' : msg_q) (c : Call) (h : c.next w q = some q')
    (hu : q.used ≤ q.capacity) (hc : q.capacity < 2 ^ w) :
    q'.used ≤ q'.capacity ∧ q'.capacity < 2 ^ w := by
  cases c with
  | send b n t p =>
    simp only [Call.next] at h
    cases hs : msgQSend w (some q) b n t p with
    | returned a =>
      obtain ⟨rc, q1⟩ := a
      simp only [hs, Option.some.injEq] at h
      subst h
      obtain ⟨e1, -, -, -, e5⟩ := send_returned_fields w q q1 b n t p rc hs
      rcases e5 with rfl | ⟨hlt, hused⟩
      · exact ⟨hu, hc⟩
      · rw [e1, hused, size_add_one_of_lt w q.used q.capacity hlt hc]
        exact ⟨hlt, hc⟩
    | blocked => simp [hs] at h
    | undefined => simp [hs] at h
  | receive b n t =>
    simp only [Call.next] at h
    cases hs : msgQReceive w (some q) b n t with
    | returned a =>
      obtain ⟨rc, q1, b1⟩ := a
      simp only [hs, Option.some.injEq] at h
      subst h
      obtain ⟨e1, -, -, -, e5⟩ := receive_returned_fields w q q1 b b1 n t rc hs
      rcases e5 with rfl | ⟨hpos, hused⟩
      · exact ⟨hu, hc⟩
      · rw [e1, hused, size_sub_one_of_pos w q.used q.capacity hpos hu hc]
        exact ⟨by omega, hc⟩
    | blocked => simp [hs] at h
    | undefined => simp [hs] at h
  | delete =>
    simp [Call.next, msgQDelete] at h
    subst h
    exact ⟨hu, hc⟩

/-- Every sequence of calls that return keeps `used` within the capacity. -/
theorem run_used_le (w : Nat) (cs : List Call) : ∀ (q q' : msg_q), runCalls w q cs = some q' →
    q.used ≤ q.capacity → q.capacity < 2 ^ w → q'.used ≤ q'.capacity ∧ q'.capacity < 2 ^ w := by
  induction cs with
  | nil => intro q q' h hu hc; simp [runCalls] at h; subst h; exact ⟨hu, hc⟩
  | cons c cs ih =>
    intro q q' h hu hc
    simp only [runCalls] at h
    cases hn : c.next w q with
    | none => simp [hn] at h
    | some q1 =>
      simp only [hn] at h
      obtain ⟨a, b⟩ := next_used_le w q q1 c hn hu hc
      exact ih q1 q' h a b

/-- A call on a destroyed queue returns a destroyed queue with the same
counters and storage. -/
theorem next_destroyed (w : Nat) (q q' : msg_q) (hd : q.isDestroyed ≠ 0) (c : Call)
    (h : c.next w q = some q') :
    q'.isDestroyed ≠ 0 ∧ q'.capacity = q.capacity ∧ q'.maxMsgLength = q.maxMsgLength ∧
      q'.head = q.head ∧ q'.used = q.used ∧ q'.data = q.data := by
  cases c with
  | send b n t p =>
    simp [Call.next, send_destroyed_eq w q b n t p hd] at h
    subst h; simp [hd]
  | receive b n t =>
    simp [Call.next, receive_destroyed_eq w q b n t hd] at h
    subst h; simp [hd]
  | delete =>
    simp [Call.next, msgQDelete] at h
    subst h; simp

/-- A sequence of calls on a destroyed queue returns a destroyed queue with
the same counters and storage. -/
theorem run_destroyed (w : Nat) (cs : List Call) : ∀ (q q' : msg_q), q.isDestroyed ≠ 0 →
    runCalls w q cs = some q' →
    q'.isDestroyed ≠ 0 ∧ q'.capacity = q.capacity ∧ q'.maxMsgLength = q.maxMsgLength ∧
      q'.head = q.head ∧ q'.used = q.used ∧ q'.data = q.data := by
  induction cs with
  | nil => intro q q' hd h; simp [runCalls] at h; subst h; simp [hd]
  | cons c cs ih =>
    intro q q' hd h
    simp only [runCalls] at h
    cases hc : c.next w q with
    | none => simp [hc] at h
    | some q1 =>
      simp only [hc] at h
      obtain ⟨h1, h2, h3, h4, h5, h6⟩ := next_destroyed w q q1 hd c hc
      obtain ⟨k1, k2, k3, k4, k5, k6⟩ := ih q1 q' h1 h
      exact ⟨k1, k2.trans h2, k3.trans h3, k4.trans h4, k5.trans h5, k6.trans h6⟩

/-! ## Reaching a `head` counter of any value -/

/-- One round of a send and a receive on the empty three-slot queue advances
its `head` counter by one and changes nothing else. -/
theorem pump_round (w : Nat) (hw : 2 ≤ w) (h : Nat) :
    runCalls w (emptyQ3 h)
      [Call.send (bytesOf []) 1 MSG_Q_WAIT_FOREVER MSG_PRI_NORMAL,
       Call.receive (bytesOf []) 1 MSG_Q_NO_WAIT] = some (emptyQ3 (size_add w h 1)) := by
  have h4 : 4 ≤ 2 ^ w := by
    calc 4 = 2 ^ 2 := by norm_num
      _ ≤ 2 ^ w := Nat.pow_le_pow_right (by norm_num) hw
  have hm : ∀ i, i < 3 → size_mul w i 1 = i := by
    intro i hi
    unfold size_mul
    rw [Nat.mul_one]
    exact Nat.mod_eq_of_lt (by omega)
  have hs1 : size_add w 0 1 = 1 := by
    unfold size_add
    exact Nat.mod_eq_of_lt (by omega)
  have hs2 : size_sub w 1 1 = 0 := by
    unfold size_sub
    have : 1 % 2 ^ w = 1 := Nat.mod_eq_of_lt (by omega)
    rw [this]
    have : 1 + 2 ^ w - 1 = 2 ^ w := by omega
    rw [this, Nat.mod_self]
  have hi1 : size_add w h 0 % 3 < 3 := Nat.mod_lt _ (by norm_num)
  have hi2 : h % 3 < 3 := Nat.mod_lt _ (by norm_num)
  have e1 : msgQSend w (some (emptyQ3 h)) (bytesOf []) 1 MSG_Q_WAIT_FOREVER MSG_PRI_NORMAL
      = Outcome.returned (to_int 1,
          { emptyQ3 h with
            used := 1
            data :=
              { size := 3
                bytes := memcpy (fun _ => 0) (size_add w h 0 % 3) (bytesOf []) 0 1 } }) := by
    simp [msgQSend, emptyQ3, MSG_PRI_URGENT, MSG_PRI_NORMAL, hm _ hi1, hs1]
    omega
  simp only [runCalls, Call.next, e1]
  have e2 : msgQReceive w (some { emptyQ3 h with
            used := 1
            data :=
              { size := 3
                bytes := memcpy (fun _ => 0) (size_add w h 0 % 3) (bytesOf []) 0 1 } })
        (bytesOf []) 1 MSG_Q_NO_WAIT
      = Outcome.returned (to_int 1, emptyQ3 (size_add w h 1),
          memcpy (bytesOf []) 0
            (memcpy (fun _ => 0) (size_add w h 0 % 3) (bytesOf []) 0 1) (h % 3) 1) := by
    have hle : h % 3 ≤ 2 := by omega
    have hz : memset (memcpy (fun _ => 0) (size_add w h 0 % 3) (bytesOf []) 0 1) (h % 3) 0 1
        = fun _ => 0 := by
      funext i
      simp [memset, memcpy, bytesOf]
    simp [msgQReceive, emptyQ3, hm _ hi2, hs2, hle, hz]
  simp only [e2]

/-- After `n` rounds the `head` counter of the empty three-slot queue has
advanced by `n`, wrapping at `2 ^ w`. -/
theorem pump_run (w : Nat) (hw : 2 ≤ w) (n : Nat) : ∀ h : Nat, h < 2 ^ w →
    runCalls w (emptyQ3 h) (pump n) = some (emptyQ3 ((h + n) % 2 ^ w)) := by
  induction n with
  | zero => intro h hh; simp [pump, runCalls, Nat.mod_eq_of_lt hh]
  | succ n ih =>
    intro h hh
    have hr := pump_round w hw h
    simp only [runCalls, pump] at hr ⊢
    cases h1 : (Call.send (bytesOf []) 1 MSG_Q_WAIT_FOREVER MSG_PRI_NORMAL).next w
        (emptyQ3 h) with
    | none => simp [h1] at hr
    | some q1 =>
      simp only [h1] at hr ⊢
      cases h2 : (Call.receive (bytesOf []) 1 MSG_Q_NO_WAIT).next w q1 with
      | none => simp [h2] at hr
      | some q2 =>
        simp only [h2, Option.some.injEq] at hr ⊢
        subst hr
        rw [ih (size_add w h 1) (Nat.mod_lt _ (by positivity))]
        unfold size_add
        congr 2
        rw [Nat.mod_add_mod]
        congr 1
        omega

/-- The empty three-slot queue with `head = 2 ^ 64 - 1` is reached from the
queue `msgQCreate (3, 1)` returns by `2 ^ 64 - 1` rounds of a NORMAL send and
a receive, all of which return. -/
theorem emptyQ3_max_reachable : ∃ q0, msgQCreate 64 3 1 MSG_Q_FIFO zeroEnv = some q0 ∧
    runCalls 64 q0 (pump (2 ^ 64 - 1)) = some (emptyQ3 (2 ^ 64 - 1)) := by
  refine ⟨emptyQ3 0, rfl, ?_⟩
  rw [pump_run 64 (by norm_num) (2 ^ 64 - 1) 0 (by norm_num)]
  norm_num

/-! ## Behaviour while the counters do not wrap -/

theorem to_int_of_lt (n : Nat) (h : n < 2 ^ 31) : to_int (n : Int) = (n : Int) := by
  unfold to_int
  have h0 : (0 : Int) ≤ (n : Int) := Int.ofNat_nonneg n
  have h1 : (n : Int) < 4294967296 := by omega
  rw [Int.emod_eq_of_lt h0 h1]
  have h2 : (n : Int) < 2147483648 := by omega
  simp [h2]

theorem size_mul_of_slot (w : Nat) (q : msg_q) (hwf : WF w q) (i : Nat) (hi : i < q.capacity) :
    size_mul w i q.maxMsgLength = i * q.maxMsgLength := by
  obtain ⟨-, -, -, -, -, h6⟩ := hwf
  unfold size_mul
  apply Nat.mod_eq_of_lt
  calc i * q.maxMsgLength ≤ q.capacity * q.maxMsgLength :=
        Nat.mul_le_mul_right _ (le_of_lt hi)
    _ < 2 ^ w := h6

theorem slot_in_storage (w : Nat) (q : msg_q) (hwf : WF w q) (i n : Nat) (hi : i < q.capacity)
    (hn : n ≤ q.maxMsgLength) : i * q.maxMsgLength + n ≤ q.data.size := by
  obtain ⟨-, -, -, -, h5, -⟩ := hwf
  calc i * q.maxMsgLength + n ≤ i * q.maxMsgLength + q.maxMsgLength := by omega
    _ = (i + 1) * q.maxMsgLength := by ring
    _ ≤ q.capacity * q.maxMsgLength := Nat.mul_le_mul_right _ hi
    _ ≤ q.data.size := h5

/-- A NORMAL send on a live queue with a free slot, when `head + used` does
not wrap. -/
theorem send_normal_spec (w : Nat) (q : msg_q) (buffer : Nat → Nat) (nBytes : Nat)
    (timeout priority : Int) (hp : MSG_PRI_URGENT ≠ priority) (hwf : WF w q)
    (hlive : q.isDestroyed = 0) (hlt : q.used < q.capacity) (hnw : q.head + q.used < 2 ^ w) :
    msgQSend w (some q) buffer nBytes timeout priority =
      Outcome.returned
        (((min nBytes q.maxMsgLength : Nat) : Int),
         { q with
           used := q.used + 1
           data :=
             { q.data with
               bytes := memcpy q.data.bytes
                 ((q.head + q.used) % q.capacity * q.maxMsgLength) buffer 0
                 (min nBytes q.maxMsgLength) } }) := by
  have hidx : sendIdx w q priority = (q.head + q.used) % q.capacity := by
    simp [sendIdx, hp, size_add, Nat.mod_eq_of_lt hnw]
  have hhead : sendHead w q priority = q.head := by
    simp [sendHead, hp]
  have hcap : 0 < q.capacity := hwf.1
  have hi : (q.head + q.used) % q.capacity < q.capacity := Nat.mod_lt _ hcap
  have hmin : min nBytes q.maxMsgLength ≤ q.maxMsgLength := Nat.min_le_right _ _
  rw [send_live_eq w q buffer nBytes timeout priority hlive hlt, hidx, hhead,
    size_mul_of_slot w q hwf _ hi, if_pos (slot_in_storage w q hwf _ _ hi hmin),
    size_add_one_of_lt w q.used q.capacity hlt hwf.2.2.1,
    to_int_of_lt _ (lt_of_le_of_lt hmin hwf.2.2.2.1)]

/-- A receive on a live queue that holds a message, when `head + 1` does not
wrap. -/
theorem receive_spec (w : Nat) (q : msg_q) (buffer : Nat → Nat) (maxNBytes : Nat)
    (timeout : Int) (hwf : WF w q) (hlive : q.isDestroyed = 0) (hpos : 0 < q.used)
    (hnw : q.head + 1 < 2 ^ w) :
    msgQReceive w (some q) buffer maxNBytes timeout =
      Outcome.returned
        (((min maxNBytes q.maxMsgLength : Nat) : Int),
         { q with
           head := q.head + 1
           used := q.used - 1
           data :=
             { q.data with
               bytes := memset q.data.bytes (q.head % q.capacity * q.maxMsgLength) 0
                 (min maxNBytes q.maxMsgLength) } },
         memcpy buffer 0 q.data.bytes (q.head % q.capacity * q.maxMsgLength)
           (min maxNBytes q.maxMsgLength)) := by
  have hcap : 0 < q.capacity := hwf.1
  have hi : q.head % q.capacity < q.capacity := Nat.mod_lt _ hcap
  have hmin : min maxNBytes q.maxMsgLength ≤ q.maxMsgLength := Nat.min_le_right _ _
  have hadd : size_add w q.head 1 = q.head + 1 := by
    unfold size_add
    exact Nat.mod_eq_of_lt hnw
  rw [receive_live_eq w q buffer maxNBytes timeout hlive hpos,
    size_mul_of_slot w q hwf _ hi, if_pos (slot_in_storage w q hwf _ _ hi hmin),
    size_sub_one_of_pos w q.used q.capacity hpos hwf.2.1 hwf.2.2.1, hadd,
    to_int_of_lt _ (lt_of_le_of_lt hmin hwf.2.2.2.1)]

/-- An URGENT send on a live queue with a free slot, when `capacity + head`
does not wrap. -/
theorem send_urgent_spec (w : Nat) (q : msg_q) (buffer : Nat → Nat) (nBytes : Nat)
    (timeout priority : Int) (hp : MSG_PRI_URGENT = priority) (hwf : WF w q)
    (hlive : q.isDestroyed = 0) (hlt : q.used < q.capacity)
    (hnw : q.capacity + q.head < 2 ^ w) :
    msgQSend w (some q) buffer nBytes timeout priority =
      Outcome.returned
        (((min nBytes q.maxMsgLength : Nat) : Int),
         { q with
           head := (q.capacity + q.head - 1) % q.capacity
           used := q.used + 1
           data :=
             { q.data with
               bytes := memcpy q.data.bytes
                 ((q.capacity + q.head - 1) % q.capacity * q.maxMsgLength) buffer 0
                 (min nBytes q.maxMsgLength) } }) := by
  have hcap : 0 < q.capacity := hwf.1
  have hsub : size_sub w (size_add w q.capacity q.head) 1 = q.capacity + q.head - 1 := by
    have h1 : size_add w q.capacity q.head = q.capacity + q.head := by
      unfold size_add
      exact Nat.mod_eq_of_lt hnw
    rw [h1]
    exact size_sub_one_of_pos w (q.capacity + q.head) (q.capacity + q.head) (by omega)
      (le_refl _) hnw
  have hhead : sendHead w q priority = (q.capacity + q.head - 1) % q.capacity := by
    simp [sendHead, hp, hsub]
  have hidx : sendIdx w q priority = (q.capacity + q.head - 1) % q.capacity := by
    simp [sendIdx, hp, hhead, Nat.mod_mod]
  have hi : (q.capacity + q.head - 1) % q.capacity < q.capacity := Nat.mod_lt _ hcap
  have hmin : min nBytes q.maxMsgLength ≤ q.maxMsgLength := Nat.min_le_right _ _
  rw [send_live_eq w q buffer nBytes timeout priority hlive hlt, hidx, hhead,
    size_mul_of_slot w q hwf _ hi, if_pos (slot_in_storage w q hwf _ _ hi hmin),
    size_add_one_of_lt w q.used q.capacity hlt hwf.2.2.1,
    to_int_of_lt _ (lt_of_le_of_lt hmin hwf.2.2.2.1)]

theorem slot_disjoint (i t l j n : Nat) (hne : i ≠ t) (hj : j < l) (hn : n ≤ l) :
    ¬ (t * l ≤ i * l + j ∧ i * l + j < t * l + n) := by
  intro ⟨h1, h2⟩
  rcases Nat.lt_or_gt_of_ne hne with h | h
  · have : (i + 1) * l ≤ t * l := Nat.mul_le_mul_right _ h
    have e : (i + 1) * l = i * l + l := by ring
    omega
  · have : (t + 1) * l ≤ i * l := Nat.mul_le_mul_right _ h
    have e : (t + 1) * l = t * l + l := by ring
    omega

theorem mod_add_ne (h k u c : Nat) (hk : k < u) (hu : u < c) :
    (h + k) % c ≠ (h + u) % c := by
  intro e
  have e1 : (h + k) % c = (h + k + (u - k)) % c := by
    rw [e]; congr 1; omega
  have hd : u - k < c := by omega
  have hpos : 0 < u - k := by omega
  have h2 : (h + k + (u - k)) % c = ((h + k) % c + (u - k)) % c := by
    rw [Nat.add_mod, Nat.mod_eq_of_lt hd]
  rw [h2] at e1
  have hr : (h + k) % c < c := Nat.mod_lt _ (by omega)
  by_cases hlt : (h + k) % c + (u - k) < c
  · rw [Nat.mod_eq_of_lt hlt] at e1
    omega
  · have : ((h + k) % c + (u - k)) % c = (h + k) % c + (u - k) - c := by
      rw [Nat.mod_eq_sub_mod (by omega)]
      exact Nat.mod_eq_of_lt (by omega)
    rw [this] at e1
    omega

theorem memcpy_outside (dst src : Nat → Nat) (doff soff n i : Nat)
    (h : ¬ (doff ≤ i ∧ i < doff + n)) : memcpy dst doff src soff n i = dst i := by
  simp only [memcpy, if_neg h]

theorem memcpy_inside (dst src : Nat → Nat) (doff soff n i : Nat)
    (h : doff ≤ i ∧ i < doff + n) : memcpy dst doff src soff n i = src (soff + (i - doff)) := by
  simp only [memcpy, if_pos h]

theorem memset_outside (dst : Nat → Nat) (doff c n i : Nat)
    (h : ¬ (doff ≤ i ∧ i < doff + n)) : memset dst doff c n i = dst i := by
  simp only [memset, if_neg h]

/-- A message stays in its slot when another slot is written and `head`
moves so that the slot keeps its place in the order. -/
theorem holds_of_other_slot (q q' : msg_q) (k k' t n : Nat) (m : Msg)
    (hcap : q'.capacity = q.capacity) (hlen : q'.maxMsgLength = q.maxMsgLength)
    (hslot : (q'.head + k') % q.capacity = (q.head + k) % q.capacity)
    (hbytes : ∀ i, ¬ (t * q.maxMsgLength ≤ i ∧ i < t * q.maxMsgLength + n) →
      q'.data.bytes i = q.data.bytes i)
    (hn : n ≤ q.maxMsgLength) (hne : (q.head + k) % q.capacity ≠ t) (h : Holds q k m) :
    Holds q' k' m := by
  obtain ⟨h1, h2⟩ := h
  refine ⟨by rw [hlen]; exact h1, fun j hj => ?_⟩
  rw [← h2 j hj]
  unfold slotByte
  rw [hcap, hlen, hslot]
  exact hbytes _ (slot_disjoint _ _ _ _ _ hne (by omega) hn)

theorem holdsFrom_of_other_slot (q q' : msg_q) (t n : Nat)
    (hcap : q'.capacity = q.capacity) (hlen : q'.maxMsgLength = q.maxMsgLength)
    (hbytes : ∀ i, ¬ (t * q.maxMsgLength ≤ i ∧ i < t * q.maxMsgLength + n) →
      q'.data.bytes i = q.data.bytes i)
    (hn : n ≤ q.maxMsgLength) (ms : List Msg) : ∀ (k k' : Nat),
    (∀ e, (q'.head + (k' + e)) % q.capacity = (q.head + (k + e)) % q.capacity) →
    (∀ e, e < ms.length → (q.head + (k + e)) % q.capacity ≠ t) →
    HoldsFrom q k ms → HoldsFrom q' k' ms := by
  induction ms with
  | nil => intro _ _ _ _ _; trivial
  | cons m ms ih =>
    intro k k' hslot hne h
    obtain ⟨h1, h2⟩ := h
    refine ⟨holds_of_other_slot q q' k k' t n m hcap hlen ?_ hbytes hn ?_ h1, ?_⟩
    · simpa using hslot 0
    · simpa using hne 0 (by simp)
    · apply ih (k + 1) (k' + 1)
      · intro e
        have := hslot (e + 1)
        rw [show k' + (e + 1) = k' + 1 + e by omega, show k + (e + 1) = k + 1 + e by omega]
          at this
        exact this
      · intro e he
        have := hne (e + 1) (by simp; omega)
        rw [show k + (e + 1) = k + 1 + e by omega] at this
        exact this
      · exact h2

theorem holdsFrom_append (q : msg_q) (m : Msg) (ms : List Msg) : ∀ k,
    HoldsFrom q k ms → Holds q (k + ms.length) m → HoldsFrom q k (ms ++ [m]) := by
  induction ms with
  | nil => intro k _ h; exact ⟨by simpa using h, trivial⟩
  | cons a ms ih =>
    intro k h hm
    obtain ⟨h1, h2⟩ := h
    refine ⟨h1, ih (k + 1) h2 ?_⟩
    rw [show k + 1 + ms.length = k + (a :: ms).length by simp; omega]
    exact hm

theorem urgent_slot (c h k : Nat) (hc : 0 < c) :
    ((c + h - 1) % c + (k + 1)) % c = (h + k) % c := by
  rw [Nat.mod_add_mod]
  have : c + h - 1 + (k + 1) = h + k + c := by omega
  rw [this, Nat.add_mod_right]

/-- The messages a queue holds after a NORMAL send. -/
theorem rep_send_normal (q q' : msg_q) (buffer : Nat → Nat) (n : Nat)
    (ms : List Msg) (hlt : q.used < q.capacity) (hrep : Rep q ms)
    (hcap : q'.capacity = q.capacity) (hlen : q'.maxMsgLength = q.maxMsgLength)
    (hhead : q'.head = q.head) (hused : q'.used = q.used + 1)
    (hbytes : q'.data.bytes = memcpy q.data.bytes
      ((q.head + q.used) % q.capacity * q.maxMsgLength) buffer 0 n)
    (hn : n ≤ q.maxMsgLength) :
    Rep q' (ms ++ [{ buf := buffer, len := n }]) := by
  obtain ⟨hl, hh⟩ := hrep
  refine ⟨by simp [hl, hused], holdsFrom_append _ _ _ 0 ?_ ?_⟩
  · apply holdsFrom_of_other_slot q q' ((q.head + q.used) % q.capacity) n hcap hlen
      (fun i hi => by rw [hbytes]; exact memcpy_outside _ _ _ _ _ _ hi) hn ms 0 0
      (fun e => by rw [hhead]) ?_ hh
    intro e he
    rw [Nat.zero_add]
    exact mod_add_ne q.head e q.used q.capacity (by omega) hlt
  · refine ⟨by rw [hlen]; exact hn, fun j hj => ?_⟩
    simp only [slotByte, Nat.zero_add, hl, hbytes, hcap, hlen, hhead]
    rw [memcpy_inside _ _ _ _ _ _ ⟨by omega, by simp only at hj; omega⟩]
    congr 1
    omega

/-- The messages a queue holds after a receive, and the bytes delivered. -/
theorem rep_receive (q q' : msg_q) (buffer buffer' : Nat → Nat) (n : Nat)
    (m : Msg) (ms : List Msg) (hu : q.used ≤ q.capacity) (hrep : Rep q (m :: ms))
    (hcap : q'.capacity = q.capacity) (hlen : q'.maxMsgLength = q.maxMsgLength)
    (hhead : q'.head = q.head + 1) (hused : q'.used = q.used - 1)
    (hbytes : q'.data.bytes = memset q.data.bytes
      (q.head % q.capacity * q.maxMsgLength) 0 n)
    (hbuf : buffer' = memcpy buffer 0 q.data.bytes (q.head % q.capacity * q.maxMsgLength) n)
    (hn : n ≤ q.maxMsgLength) :
    Rep q' ms ∧ ∀ j, j < m.len → j < n → buffer' j = m.buf j := by
  obtain ⟨hl, ⟨hm1, hm2⟩, hh⟩ := hrep
  simp only [List.length_cons] at hl
  refine ⟨⟨by rw [hused]; omega, ?_⟩, fun j hj hj2 => ?_⟩
  · apply holdsFrom_of_other_slot q q' (q.head % q.capacity) n hcap hlen
      (fun i hi => by rw [hbytes]; exact memset_outside _ _ _ _ _ hi) hn ms 1 0
      (fun e => by rw [hhead]; congr 1; omega) ?_ hh
    intro e he
    have := mod_add_ne q.head 0 (1 + e) q.capacity (by omega) (by omega)
    rw [Nat.add_zero] at this
    exact fun h => this h.symm
  · rw [hbuf, memcpy_inside _ _ _ _ _ _ ⟨by omega, by omega⟩]
    have := hm2 j hj
    simp only [slotByte, Nat.add_zero] at this
    rw [← this]
    congr 1

/-- The messages a queue holds after an URGENT send. -/
theorem rep_send_urgent (q q' : msg_q) (buffer : Nat → Nat) (n : Nat)
    (ms : List Msg) (hpos : 0 < q.capacity) (hlt : q.used < q.capacity) (hrep : Rep q ms)
    (hcap : q'.capacity = q.capacity) (hlen : q'.maxMsgLength = q.maxMsgLength)
    (hhead : q'.head = (q.capacity + q.head - 1) % q.capacity) (hused : q'.used = q.used + 1)
    (hbytes : q'.data.bytes = memcpy q.data.bytes
      ((q.capacity + q.head - 1) % q.capacity * q.maxMsgLength) buffer 0 n)
    (hn : n ≤ q.maxMsgLength) :
    Rep q' ({ buf := buffer, len := n } :: ms) := by
  obtain ⟨hl, hh⟩ := hrep
  refine ⟨by simp [hl, hused], ⟨by rw [hlen]; exact hn, fun j hj => ?_⟩, ?_⟩
  · simp only [slotByte, Nat.add_zero, Nat.mod_mod, hbytes, hcap, hlen, hhead]
    rw [memcpy_inside _ _ _ _ _ _ ⟨by omega, by simp only at hj; omega⟩]
    congr 1
    omega
  · apply holdsFrom_of_other_slot q q' ((q.capacity + q.head - 1) % q.capacity) n hcap hlen
      (fun i hi => by rw [hbytes]; exact memcpy_outside _ _ _ _ _ _ hi) hn ms 0 1
      (fun e => by
        rw [hhead, Nat.zero_add, show 1 + e = e + 1 by omega]
        exact urgent_slot q.capacity q.head e hpos) ?_ hh
    intro e he
    rw [Nat.zero_add]
    have h1 : (q.capacity + q.head - 1) % q.capacity
        = (q.head + (q.capacity - 1)) % q.capacity := by
      congr 1; omega
    rw [h1]
    exact mod_add_ne q.head e (q.capacity - 1) q.capacity (by omega) (by omega)

/-- The queue after a NORMAL send that finds a free slot, field by field. -/
theorem send_normal_step (w : Nat) (q : msg_q) (buffer : Nat → Nat) (nBytes : Nat)
    (timeout priority : Int) (hp : MSG_PRI_URGENT ≠ priority) (hwf : WF w q)
    (hlive : q.isDestroyed = 0) (hlt : q.used < q.capacity) (hnw : q.head + q.used < 2 ^ w) :
    ∃ q', msgQSend w (some q) buffer nBytes timeout priority
        = Outcome.returned (((min nBytes q.maxMsgLength : Nat) : Int), q') ∧
      q'.capacity = q.capacity ∧ q'.maxMsgLength = q.maxMsgLength ∧ q'.head = q.head ∧
      q'.used = q.used + 1 ∧ q'.isDestroyed = q.isDestroyed ∧ q'.data.size = q.data.size ∧
      q'.data.bytes = memcpy q.data.bytes
        ((q.head + q.used) % q.capacity * q.maxMsgLength) buffer 0
        (min nBytes q.maxMsgLength) :=
  ⟨_, send_normal_spec w q buffer nBytes timeout priority hp hwf hlive hlt hnw,
    rfl, rfl, rfl, rfl, rfl, rfl, rfl⟩

/-- The queue after an URGENT send that finds a free slot, field by field. -/
theorem send_urgent_step (w : Nat) (q : msg_q) (buffer : Nat → Nat) (nBytes : Nat)
    (timeout priority : Int) (hp : MSG_PRI_URGENT = priority) (hwf : WF w q)
    (hlive : q.isDestroyed = 0) (hlt : q.used < q.capacity)
    (hnw : q.capacity + q.head < 2 ^ w) :
    ∃ q', msgQSend w (some q) buffer nBytes timeout priority
        = Outcome.returned (((min nBytes q.maxMsgLength : Nat) : Int), q') ∧
      q'.capacity = q.capacity ∧ q'.maxMsgLength = q.maxMsgLength ∧
      q'.head = (q.capacity + q.head - 1) % q.capacity ∧
      q'.used = q.used + 1 ∧ q'.isDestroyed = q.isDestroyed ∧ q'.data.size = q.data.size ∧
      q'.data.bytes = memcpy q.data.bytes
        ((q.capacity + q.head - 1) % q.capacity * q.maxMsgLength) buffer 0
        (min nBytes q.maxMsgLength) :=
  ⟨_, send_urgent_spec w q buffer nBytes timeout priority hp hwf hlive hlt hnw,
    rfl, rfl, rfl, rfl, rfl, rfl, rfl⟩

/-- The queue and the caller's buffer after a receive that finds a message,
field by field. -/
theorem receive_step (w : Nat) (q : msg_q) (buffer : Nat → Nat) (maxNBytes : Nat)
    (timeout : Int) (hwf : WF w q) (hlive : q.isDestroyed = 0) (hpos : 0 < q.used)
    (hnw : q.head + 1 < 2 ^ w) :
    ∃ q' buffer', msgQReceive w (some q) buffer maxNBytes timeout
        = Outcome.returned (((min maxNBytes q.maxMsgLength : Nat) : Int), q', buffer') ∧
      q'.capacity = q.capacity ∧ q'.maxMsgLength = q.maxMsgLength ∧ q'.head = q.head + 1 ∧
      q'.used = q.used - 1 ∧ q'.isDestroyed = q.isDestroyed ∧ q'.data.size = q.data.size ∧
      q'.data.bytes = memset q.data.bytes (q.head % q.capacity * q.maxMsgLength) 0
        (min maxNBytes q.maxMsgLength) ∧
      buffer' = memcpy buffer 0 q.data.bytes (q.head % q.capacity * q.maxMsgLength)
        (min maxNBytes q.maxMsgLength) :=
  ⟨_, _, receive_spec w q buffer maxNBytes timeout hwf hlive hpos hnw,
    rfl, rfl, rfl, rfl, rfl, rfl, rfl, rfl⟩

/-- As long as the counters do not reach the `size_t` limit, the queue
delivers what the list of the specification delivers, in the same order. -/
theorem run_refines_spec (w : Nat) (cs : List Call) : ∀ (q : msg_q) (ms : List Msg),
    WF w q → q.isDestroyed = 0 → Rep q ms → Admissible q.capacity q.used cs →
    max q.head q.capacity + q.capacity + cs.length < 2 ^ w →
    ∃ q' out, runTrace w q cs = some (q', out) ∧ WF w q' ∧ q'.isDestroyed = 0 ∧
      q'.capacity = q.capacity ∧ q'.maxMsgLength = q.maxMsgLength ∧
      Rep q' (specRun q.maxMsgLength ms cs).1 ∧
      List.Forall₂ Delivered out (specRun q.maxMsgLength ms cs).2 := by
  induction cs with
  | nil =>
    intro q ms hwf hlive hrep _ _
    exact ⟨q, [], rfl, hwf, hlive, rfl, rfl, hrep, List.Forall₂.nil⟩
  | cons c cs ih =>
    intro q ms hwf hlive hrep hadm hbud
    obtain ⟨hcap, hu, hcw, hl31, hst, hsw⟩ := hwf
    have hwf : WF w q := ⟨hcap, hu, hcw, hl31, hst, hsw⟩
    simp only [List.length_cons] at hbud
    cases c with
    | send b n t p =>
      obtain ⟨hlt, hadm'⟩ := hadm
      by_cases hp : MSG_PRI_URGENT = p
      · obtain ⟨q1, hs, e1, e2, e3, e4, e5, e6, e7⟩ :=
          send_urgent_step w q b n t p hp hwf hlive hlt (by omega)
        have hmod : (q.capacity + q.head - 1) % q.capacity < q.capacity := Nat.mod_lt _ hcap
        obtain ⟨q', out, h1, h2, h3, h4, h5, h6, h7⟩ := ih q1
          ({ buf := b, len := min n q.maxMsgLength } :: ms)
          ⟨by rw [e1]; exact hcap, by rw [e1, e4]; omega, by rw [e1]; exact hcw,
            by rw [e2]; exact hl31, by rw [e1, e2, e6]; exact hst, by rw [e1, e2]; exact hsw⟩
          (by rw [e5]; exact hlive)
          (rep_send_urgent q q1 b _ ms hcap hlt hrep e1 e2 e3 e4 e7 (Nat.min_le_right _ _))
          (by rw [e1, e4]; exact hadm') (by rw [e1, e3]; omega)
        refine ⟨q', out, ?_, h2, h3, h4.trans e1, h5.trans e2, ?_, ?_⟩
        · simp only [runTrace, hs]; exact h1
        · simp only [specRun, if_pos hp]; rw [e2] at h6; exact h6
        · simp only [specRun, if_pos hp]; rw [e2] at h7; exact h7
      · obtain ⟨q1, hs, e1, e2, e3, e4, e5, e6, e7⟩ :=
          send_normal_step w q b n t p hp hwf hlive hlt (by omega)
        obtain ⟨q', out, h1, h2, h3, h4, h5, h6, h7⟩ := ih q1
          (ms ++ [{ buf := b, len := min n q.maxMsgLength }])
          ⟨by rw [e1]; exact hcap, by rw [e1, e4]; omega, by rw [e1]; exact hcw,
            by rw [e2]; exact hl31, by rw [e1, e2, e6]; exact hst, by rw [e1, e2]; exact hsw⟩
          (by rw [e5]; exact hlive)
          (rep_send_normal q q1 b _ ms hlt hrep e1 e2 e3 e4 e7 (Nat.min_le_right _ _))
          (by rw [e1, e4]; exact hadm') (by rw [e1, e3]; omega)
        refine ⟨q', out, ?_, h2, h3, h4.trans e1, h5.trans e2, ?_, ?_⟩
        · simp only [runTrace, hs]; exact h1
        · simp only [specRun, if_neg hp]; rw [e2] at h6; exact h6
        · simp only [specRun, if_neg hp]; rw [e2] at h7; exact h7
    | receive b n t =>
      obtain ⟨hpos, hadm'⟩ := hadm
      obtain ⟨q1, b1, hs, e1, e2, e3, e4, e5, e6, e7, e8⟩ :=
        receive_step w q b n t hwf hlive hpos (by omega)
      cases ms with
      | nil =>
        have := hrep.1
        simp at this
        omega
      | cons m rest =>
        obtain ⟨hr1, hr2⟩ := rep_receive q q1 b b1 (min n q.maxMsgLength) m rest hu hrep
          e1 e2 e3 e4 e7 e8 (Nat.min_le_right _ _)
        obtain ⟨q', out, h1, h2, h3, h4, h5, h6, h7⟩ := ih q1 rest
          ⟨by rw [e1]; exact hcap, by rw [e1, e4]; omega, by rw [e1]; exact hcw,
            by rw [e2]; exact hl31, by rw [e1, e2, e6]; exact hst, by rw [e1, e2]; exact hsw⟩
          (by rw [e5]; exact hlive) hr1
          (by rw [e1, e4]; exact hadm') (by rw [e1, e3]; omega)
        refine ⟨q', (((min n q.maxMsgLength : Nat) : Int), b1) :: out, ?_, h2, h3,
          h4.trans e1, h5.trans e2, ?_, ?_⟩
        · simp only [runTrace, hs, h1]
        · simp only [specRun]; rw [e2] at h6; exact h6
        · simp only [specRun]
          refine List.Forall₂.cons ⟨rfl, hr2⟩ ?_
          rw [e2] at h7; exact h7
    | delete => exact absurd hadm (by simp [Admissible])

theorem admissible_sendAll (capacity : Nat) (rest : List Call) (ps : List Msg) : ∀ used,
    used + ps.length ≤ capacity → Admissible capacity (used + ps.length) rest →
    Admissible capacity used (sendAll ps ++ rest) := by
  induction ps with
  | nil => intro used _ h; simpa [sendAll] using h
  | cons p ps ih =>
    intro used hle h
    simp only [List.length_cons] at hle h
    refine ⟨by omega, ?_⟩
    apply ih (used + 1) (by omega)
    rw [show used + 1 + ps.length = used + (ps.length + 1) by omega]
    exact h

theorem admissible_receiveN (capacity maxNBytes : Nat) (n : Nat) : ∀ used, n ≤ used →
    Admissible capacity used (receiveN n maxNBytes) := by
  induction n with
  | zero => intro _ _; trivial
  | succ n ih =>
    intro used h
    exact ⟨by omega, ih (used - 1) (by omega)⟩

theorem specRun_sendAll (slotSize : Nat) (rest : List Call) (ps : List Msg) :
    ∀ ms, (∀ p ∈ ps, p.len ≤ slotSize) →
    specRun slotSize ms (sendAll ps ++ rest) = specRun slotSize (ms ++ ps) rest := by
  induction ps with
  | nil => intro ms _; simp [sendAll]
  | cons p ps ih =>
    intro ms h
    have hp : min p.len slotSize = p.len := Nat.min_eq_left (h p (by simp))
    have hne : ¬ (MSG_PRI_URGENT = MSG_PRI_NORMAL) := by decide
    have := ih (ms ++ [p]) (fun x hx => h x (by simp [hx]))
    simp only [sendAll, List.append_assoc, List.singleton_append] at this
    simp only [sendAll, List.map_cons, List.cons_append, specRun, if_neg hne, hp]
    exact this

theorem specRun_receiveN (slotSize maxNBytes : Nat) (ms : List Msg) :
    specRun slotSize ms (receiveN ms.length maxNBytes)
      = ([], ms.map (fun m => (m, min maxNBytes slotSize))) := by
  induction ms with
  | nil => rfl
  | cons m ms ih =>
    simp only [receiveN, List.length_cons, List.replicate_succ, specRun, List.map_cons]
    simp only [receiveN] at ih
    rw [ih]

theorem forall₂_imp_of_mem {α β : Type} {R S : α → β → Prop} {l₁ : List α} {l₂ : List β}
    (h : List.Forall₂ R l₁ l₂) (himp : ∀ a b, b ∈ l₂ → R a b → S a b) :
    List.Forall₂ S l₁ l₂ := by
  induction h with
  | nil => exact List.Forall₂.nil
  | cons hab _ ih =>
    exact List.Forall₂.cons (himp _ _ (by simp) hab)
      (ih (fun a b hb hr => himp a b (by simp [hb]) hr))

/-- A queue returned by `msgQCreate` for a size product within `int` satisfies
the representation invariant and holds no message. -/
theorem create_wf (w : Nat) (maxMsgs maxMsgLength options : Int) (env : CreateEnv) (q : msg_q)
    (hw : 31 ≤ w) (h1 : maxMsgs < 2 ^ 31) (h2 : maxMsgLength < 2 ^ 31)
    (hprod : maxMsgLength * maxMsgs < 2 ^ 31)
    (h : msgQCreate w maxMsgs maxMsgLength options env = some q) :
    WF w q ∧ Rep q [] ∧ q.isDestroyed = 0 ∧ q.head = 0 ∧ q.used = 0 ∧
      (q.capacity : Int) = maxMsgs ∧ (q.maxMsgLength : Int) = maxMsgLength := by
  obtain ⟨p1, p2, e1, e2, e3, e4, e5, e6⟩ :=
    create_fields w maxMsgs maxMsgLength options env q h
  have c1 := int_to_size_of_lt w maxMsgs (le_of_lt p1) h1 hw
  have c2 := int_to_size_of_lt w maxMsgLength (le_of_lt p2) h2 hw
  have hpos : 0 ≤ maxMsgLength * maxMsgs := le_of_lt (Int.mul_pos p2 p1)
  have c3 : to_int (maxMsgLength * maxMsgs) = maxMsgLength * maxMsgs := by
    have := to_int_of_lt (maxMsgLength * maxMsgs).toNat (by omega)
    rwa [Int.toNat_of_nonneg hpos] at this
  have c4 := int_to_size_of_lt w (maxMsgLength * maxMsgs) hpos hprod hw
  rw [← e1] at c1
  rw [← e3] at c2
  rw [← c3, ← e6] at c4
  have hp31 : (2 : Nat) ^ 31 ≤ 2 ^ w := Nat.pow_le_pow_right (by norm_num) hw
  have hsz : q.capacity * q.maxMsgLength = q.data.size := by
    have : ((q.capacity * q.maxMsgLength : Nat) : Int) = (q.data.size : Int) := by
      push_cast
      rw [c1, c2, c4, c3, mul_comm]
    exact_mod_cast this
  have hsz31 : q.data.size < 2 ^ 31 := by
    have : (q.data.size : Int) < 2 ^ 31 := by rw [c4, c3]; exact hprod
    exact_mod_cast this
  refine ⟨⟨?_, by omega, ?_, ?_, by omega, by omega⟩, ⟨by simp [e2], trivial⟩, e5, e4, e2,
    c1, c2⟩
  · have : (0 : Int) < (q.capacity : Int) := by rw [c1]; exact p1
    exact_mod_cast this
  · have : (q.capacity : Int) < 2 ^ 31 := by rw [c1]; exact h1
    have : q.capacity < 2 ^ 31 := by exact_mod_cast this
    omega
  · have : (q.maxMsgLength : Int) < 2 ^ 31 := by rw [c2]; exact h2
    exact_mod_cast this

/-- Round trip on a queue whose size product is within `int`: after
`msgQCreate (C, L)`, the `C` NORMAL sends of payloads of at most `L` bytes
all return, the `C` receives of `L` bytes that follow all return `L` and
deliver the payloads in send order, and the queue is empty again. -/
theorem round_trip_of_size_in_int (w : Nat) (maxMsgs maxMsgLength options : Int)
    (env : CreateEnv) (q0 : msg_q) (ps : List Msg) (hw : 33 ≤ w)
    (h1 : maxMsgs < 2 ^ 31) (h2 : maxMsgLength < 2 ^ 31)
    (hprod : maxMsgLength * maxMsgs < 2 ^ 31)
    (hcreate : msgQCreate w maxMsgs maxMsgLength options env = some q0)
    (hcount : ps.length = q0.capacity) (hlen : ∀ p ∈ ps, p.len ≤ q0.maxMsgLength) :
    ∃ q' out,
      runTrace w q0 (sendAll ps ++ receiveN ps.length q0.maxMsgLength) = some (q', out) ∧
      q'.used = 0 ∧ q'.isDestroyed = 0 ∧
      List.Forall₂ (fun r p => r.1 = (q0.maxMsgLength : Int) ∧ ∀ j, j < p.len → r.2 j = p.buf j)
        out ps := by
  obtain ⟨hwf, hrep, hlive, hhead, hused, hc, -⟩ :=
    create_wf w maxMsgs maxMsgLength options env q0 (by omega) h1 h2 hprod hcreate
  have hcap31 : q0.capacity < 2 ^ 31 := by
    have : (q0.capacity : Int) < 2 ^ 31 := by rw [hc]; exact h1
    exact_mod_cast this
  have hp : (2 : Nat) ^ 33 ≤ 2 ^ w := Nat.pow_le_pow_right (by norm_num) hw
  obtain ⟨q', out, r1, r2, r3, r4, r5, r6, r7⟩ :=
    run_refines_spec w (sendAll ps ++ receiveN ps.length q0.maxMsgLength) q0 [] hwf hlive hrep
      (by
        rw [hused]
        apply admissible_sendAll _ _ _ 0 (by omega)
        exact admissible_receiveN _ _ _ _ (by omega))
      (by
        simp only [List.length_append, sendAll, receiveN, List.length_map,
          List.length_replicate, hhead]
        have : max 0 q0.capacity = q0.capacity := Nat.max_eq_right (Nat.zero_le _)
        omega)
  rw [specRun_sendAll _ _ _ _ hlen, List.nil_append, specRun_receiveN] at r6 r7
  refine ⟨q', out, r1, by rw [← r6.1]; rfl, r3, ?_⟩
  simp only [Nat.min_self] at r7
  rw [List.forall₂_map_right_iff] at r7
  refine forall₂_imp_of_mem r7 ?_
  intro r p hmem ⟨d1, d2⟩
  exact ⟨d1, fun j hj => d2 j hj (lt_of_lt_of_le hj (hlen p hmem))⟩

/-- What a NORMAL send does slot by slot, when `head + used` does not wrap:
the slot at the logical tail starts with the bytes copied and every other
slot is as before. -/
theorem send_normal_slots (w : Nat) (q : msg_q) (buffer : Nat → Nat) (nBytes : Nat)
    (timeout : Int) (hwf : WF w q) (hlive : q.isDestroyed = 0) (hlt : q.used < q.capacity)
    (hnw : q.head + q.used < 2 ^ w) :
    ∃ q', msgQSend w (some q) buffer nBytes timeout MSG_PRI_NORMAL
        = Outcome.returned (((min nBytes q.maxMsgLength : Nat) : Int), q') ∧
      q'.head = q.head ∧ q'.used = q.used + 1 ∧ q'.capacity = q.capacity ∧
      q'.maxMsgLength = q.maxMsgLength ∧ q'.isDestroyed = 0 ∧
      (∀ j, j < min nBytes q.maxMsgLength →
        slotByte q' ((q.head + q.used) % q.capacity) j = buffer j) ∧
      (∀ i j, i ≠ (q.head + q.used) % q.capacity → j < q.maxMsgLength →
        slotByte q' i j = slotByte q i j) := by
  obtain ⟨q', hs, e1, e2, e3, e4, e5, -, e7⟩ :=
    send_normal_step w q buffer nBytes timeout MSG_PRI_NORMAL (by decide) hwf hlive hlt hnw
  refine ⟨q', hs, e3, e4, e1, e2, by rw [e5]; exact hlive, fun j hj => ?_, fun i j hi hj => ?_⟩
  · simp only [slotByte, e2, e7]
    rw [memcpy_inside _ _ _ _ _ _ ⟨by omega, by omega⟩]
    congr 1
    omega
  · simp only [slotByte, e2, e7]
    exact memcpy_outside _ _ _ _ _ _
      (slot_disjoint _ _ _ _ _ hi hj (Nat.min_le_right _ _))

/-- Priority short-circuit when the counters do not reach the `size_t`
limit: after an URGENT send on a live queue that holds the messages `ms` and
has a free slot, the receives that follow deliver the urgent message first and
then the messages of `ms` in their order. -/
theorem urgent_first_of_no_wrap (w : Nat) (q : msg_q) (ms : List Msg) (buffer : Nat → Nat)
    (nBytes maxNBytes : Nat) (timeout : Int) (hwf : WF w q) (hlive : q.isDestroyed = 0)
    (hrep : Rep q ms) (hlt : q.used < q.capacity)
    (hnw : max q.head q.capacity + 2 * q.capacity + 2 < 2 ^ w) :
    ∃ q' out,
      runTrace w q
        (Call.send buffer nBytes timeout MSG_PRI_URGENT :: receiveN (ms.length + 1) maxNBytes)
        = some (q', out) ∧
      q'.used = 0 ∧
      List.Forall₂ Delivered out
        (({ buf := buffer, len := min nBytes q.maxMsgLength } :: ms).map
          (fun m => (m, min maxNBytes q.maxMsgLength))) := by
  have hl : ms.length = q.used := hrep.1
  obtain ⟨q', out, r1, -, -, -, -, r6, r7⟩ :=
    run_refines_spec w
      (Call.send buffer nBytes timeout MSG_PRI_URGENT :: receiveN (ms.length + 1) maxNBytes)
      q ms hwf hlive hrep
      ⟨hlt, admissible_receiveN _ _ _ _ (by omega)⟩
      (by
        simp only [List.length_cons, receiveN, List.length_replicate]
        omega)
  have hs : specRun q.maxMsgLength ms
      (Call.send buffer nBytes timeout MSG_PRI_URGENT :: receiveN (ms.length + 1) maxNBytes)
      = ([], ({ buf := buffer, len := min nBytes q.maxMsgLength } :: ms).map
          (fun m => (m, min maxNBytes q.maxMsgLength))) := by
    have := specRun_receiveN q.maxMsgLength maxNBytes
      ({ buf := buffer, len := min nBytes q.maxMsgLength } :: ms)
    simp only [List.length_cons] at this
    simp only [specRun, if_true]
    exact this
  rw [hs] at r6 r7
  exact ⟨q', out, r1, by rw [← r6.1]; rfl, r7⟩

/-! ## The theorems above at concrete inputs -/

/-- The round trip on a queue of two slots of sixteen bytes. -/
theorem round_trip_of_size_in_int_example :
    ∃ q0, msgQCreate 64 2 16 MSG_Q_FIFO zeroEnv = some q0 ∧
      ∃ q' out,
        runTrace 64 q0
          (sendAll [{ buf := bytesOf [65], len := 1 }, { buf := bytesOf [66, 67], len := 2 }]
            ++ receiveN 2 q0.maxMsgLength) = some (q', out) ∧
        q'.used = 0 ∧ q'.isDestroyed = 0 ∧
        List.Forall₂
          (fun (r : Int × (Nat → Nat)) (p : Msg) =>
            r.1 = (q0.maxMsgLength : Int) ∧ ∀ j, j < p.len → r.2 j = p.buf j)
          out [{ buf := bytesOf [65], len := 1 }, { buf := bytesOf [66, 67], len := 2 }] :=
  ⟨_, rfl,
    round_trip_of_size_in_int 64 2 16 MSG_Q_FIFO zeroEnv _
      [{ buf := bytesOf [65], len := 1 }, { buf := bytesOf [66, 67], len := 2 }]
      (by norm_num) (by norm_num) (by norm_num) (by norm_num) rfl rfl
      (by
        intro p hp
        simp only [List.mem_cons, List.mem_singleton, List.not_mem_nil, or_false] at hp
        rcases hp with rfl | rfl <;> decide)⟩

/-- An URGENT send on the empty three-slot queue is delivered by the next
receive. -/
theorem urgent_first_of_no_wrap_example :
    ∃ q' out,
      runTrace 64 (emptyQ3 0)
        (Call.send (bytesOf [85]) 1 MSG_Q_WAIT_FOREVER MSG_PRI_URGENT :: receiveN 1 1)
        = some (q', out) ∧
      q'.used = 0 ∧
      List.Forall₂ Delivered out [({ buf := bytesOf [85], len := 1 }, 1)] :=
  urgent_first_of_no_wrap 64 (emptyQ3 0) [] (bytesOf [85]) 1 1 MSG_Q_WAIT_FOREVER
    (by decide) rfl ⟨rfl, trivial⟩ (by decide) (by decide)

/-- On a 32-bit `size_t` the order of two queued messages is lost in the same
way once `head` has reached `2 ^ 32 - 1`. -/
theorem fifo_fails_when_head_wraps_32 :
    ∃ q0 qA qAB q1 b1,
      msgQCreate 32 3 1 MSG_Q_FIFO zeroEnv = some q0 ∧
      runCalls 32 q0 (pump (2 ^ 32 - 1)) = some (emptyQ3 (2 ^ 32 - 1)) ∧
      msgQSend 32 (some (emptyQ3 (2 ^ 32 - 1))) (bytesOf [65]) 1 MSG_Q_WAIT_FOREVER
        MSG_PRI_NORMAL = Outcome.returned (1, qA) ∧
      msgQSend 32 (some qA) (bytesOf [66]) 1 MSG_Q_WAIT_FOREVER MSG_PRI_NORMAL
        = Outcome.returned (1, qAB) ∧
      msgQReceive 32 (some qAB) (bytesOf []) 1 MSG_Q_NO_WAIT = Outcome.returned (1, q1, b1) ∧
      b1 0 = 66 := by
  refine ⟨emptyQ3 0, _, _, _, _, rfl, ?_, rfl, rfl, rfl, rfl⟩
  rw [pump_run 32 (by norm_num) (2 ^ 32 - 1) 0 (by norm_num)]
  norm_num

/-- On a 32-bit `size_t` an URGENT send misplaces the head in the same way
once `head` has reached `2 ^ 32 - 1`: the receive after the urgent message
delivers the zero byte of an empty slot, not the queued message `77`. -/
theorem urgent_loses_message_when_head_wraps_32 :
    ∃ q0 qM qU q1 b1 q2 b2,
      msgQCreate 32 3 1 MSG_Q_FIFO zeroEnv = some q0 ∧
      runCalls 32 q0 (pump (2 ^ 32 - 1)) = some (emptyQ3 (2 ^ 32 - 1)) ∧
      msgQSend 32 (some (emptyQ3 (2 ^ 32 - 1))) (bytesOf [77]) 1 MSG_Q_WAIT_FOREVER
        MSG_PRI_NORMAL = Outcome.returned (1, qM) ∧
      msgQSend 32 (some qM) (bytesOf [85]) 1 MSG_Q_WAIT_FOREVER MSG_PRI_URGENT
        = Outcome.returned (1, qU) ∧
      msgQReceive 32 (some qU) (bytesOf []) 1 MSG_Q_NO_WAIT = Outcome.returned (1, q1, b1) ∧
      b1 0 = 85 ∧
      msgQReceive 32 (some q1) (bytesOf []) 1 MSG_Q_NO_WAIT = Outcome.returned (1, q2, b2) ∧
      b2 0 = 0 := by
  refine ⟨emptyQ3 0, _, _, _, _, _, _, rfl, ?_, rfl, rfl, rfl, rfl, rfl, rfl⟩
  rw [pump_run 32 (by norm_num) (2 ^ 32 - 1) 0 (by norm_num)]
  norm_num

/-- On a 32-bit `size_t` a NORMAL send writes over the queued message in the
same way once `head` has reached `2 ^ 32 - 1`. -/
theorem normal_send_writes_wrong_slot_when_head_wraps_32 :
    ∃ q0 qM q',
      msgQCreate 32 3 1 MSG_Q_FIFO zeroEnv = some q0 ∧
      runCalls 32 q0 (pump (2 ^ 32 - 1)) = some (emptyQ3 (2 ^ 32 - 1)) ∧
      msgQSend 32 (some (emptyQ3 (2 ^ 32 - 1))) (bytesOf [77]) 1 MSG_Q_WAIT_FOREVER
        MSG_PRI_NORMAL = Outcome.returned (1, qM) ∧
      (qM.head + qM.used) % qM.capacity = 1 ∧
      qM.data.bytes (0 * qM.maxMsgLength) = 77 ∧
      msgQSend 32 (some qM) (bytesOf [66]) 1 MSG_Q_WAIT_FOREVER MSG_PRI_NORMAL
        = Outcome.returned (1, q') ∧
      q'.data.bytes (1 * q'.maxMsgLength) = 0 ∧
      q'.data.bytes (0 * q'.maxMsgLength) = 66 := by
  refine ⟨emptyQ3 0, _, _, rfl, ?_, rfl, by decide, rfl, rfl, rfl, rfl⟩
  rw [pump_run 32 (by norm_num) (2 ^ 32 - 1) 0 (by norm_num)]
  norm_num

/-! ## The count of queued messages, and what a receive does to a slot -/

/-- What a returning send reports and does to `used`, for a slot size within
`int`. -/
theorem send_returned_count (w : Nat) (q q' : msg_q) (buffer : Nat → Nat) (nBytes : Nat)
    (timeout priority rc : Int) (hc : q.capacity < 2 ^ w) (hl : q.maxMsgLength < 2 ^ 31)
    (h : msgQSend w (some q) buffer nBytes timeout priority = Outcome.returned (rc, q')) :
    (rc = MSG_Q_ERROR ∧ q' = q) ∨ (rc ≠ MSG_Q_ERROR ∧ q'.used = q.used + 1) := by
  by_cases hlive : q.isDestroyed = 0
  · by_cases hlt : q.used < q.capacity
    · rw [send_live_eq w q buffer nBytes timeout priority hlive hlt] at h
      split_ifs at h
      simp only [Outcome.returned.injEq, Prod.mk.injEq] at h
      obtain ⟨h1, rfl⟩ := h
      right
      have hm : min nBytes q.maxMsgLength < 2 ^ 31 :=
        lt_of_le_of_lt (Nat.min_le_right _ _) hl
      rw [to_int_of_lt _ hm] at h1
      refine ⟨?_, size_add_one_of_lt w q.used q.capacity hlt hc⟩
      rw [← h1]
      simp only [MSG_Q_ERROR]
      omega
    · rw [send_full_eq w q buffer nBytes timeout priority hlive (by omega)] at h
      exact absurd h (by simp)
  · rw [send_destroyed_eq w q buffer nBytes timeout priority hlive] at h
    simp only [Outcome.returned.injEq, Prod.mk.injEq] at h
    obtain ⟨h1, rfl⟩ := h
    exact Or.inl ⟨h1.symm, rfl⟩

/-- What a returning receive reports and does to `used`, for a slot size
within `int`. -/
theorem receive_returned_count (w : Nat) (q q' : msg_q) (buffer buffer' : Nat → Nat)
    (maxNBytes : Nat) (timeout rc : Int) (hu : q.used ≤ q.capacity) (hc : q.capacity < 2 ^ w)
    (hl : q.maxMsgLength < 2 ^ 31)
    (h : msgQReceive w (some q) buffer maxNBytes timeout = Outcome.returned (rc, q', buffer')) :
    (rc = MSG_Q_ERROR ∧ q' = q) ∨ (rc ≠ MSG_Q_ERROR ∧ 0 < q.used ∧ q'.used = q.used - 1) := by
  by_cases hlive : q.isDestroyed = 0
  · by_cases hpos : 0 < q.used
    · rw [receive_live_eq w q buffer maxNBytes timeout hlive hpos] at h
      split_ifs at h
      simp only [Outcome.returned.injEq, Prod.mk.injEq] at h
      obtain ⟨h1, rfl, -⟩ := h
      right
      have hm : min maxNBytes q.maxMsgLength < 2 ^ 31 :=
        lt_of_le_of_lt (Nat.min_le_right _ _) hl
      rw [to_int_of_lt _ hm] at h1
      refine ⟨?_, hpos, size_sub_one_of_pos w q.used q.capacity hpos hu hc⟩
      rw [← h1]
      simp only [MSG_Q_ERROR]
      omega
    · rw [receive_empty_eq w q buffer maxNBytes timeout hlive (by omega)] at h
      split_ifs at h
      simp only [Outcome.returned.injEq, Prod.mk.injEq] at h
      obtain ⟨h1, rfl, -⟩ := h
      exact Or.inl ⟨h1.symm, rfl⟩
  · rw [receive_destroyed_eq w q buffer maxNBytes timeout hlive] at h
    simp only [Outcome.returned.injEq, Prod.mk.injEq] at h
    obtain ⟨h1, rfl, -⟩ := h
    exact Or.inl ⟨h1.symm, rfl⟩

/-- Along every sequence of calls that return, `used` changes by the net
count of the sequence. -/
theorem run_used_eq_netCount (w : Nat) (cs : List Call) : ∀ (q q' : msg_q),
    runCalls w q cs = some q' → q.used ≤ q.capacity → q.capacity < 2 ^ w →
    q.maxMsgLength < 2 ^ 31 → (q'.used : Int) = (q.used : Int) + netCount w q cs := by
  induction cs with
  | nil =>
    intro q q' h _ _ _
    simp only [runCalls, Option.some.injEq] at h
    subst h
    simp [netCount]
  | cons c cs ih =>
    intro q q' h hu hc hl
    simp only [runCalls] at h
    cases hn : c.next w q with
    | none => simp [hn] at h
    | some q1 =>
      simp only [hn] at h
      obtain ⟨hu1, hc1⟩ := next_used_le w q q1 c hn hu hc
      cases c with
      | send b n t p =>
        simp only [Call.next] at hn
        cases hs : msgQSend w (some q) b n t p with
        | returned a =>
          obtain ⟨rc, q2⟩ := a
          simp only [hs, Option.some.injEq] at hn
          subst hn
          have hl1 : q2.maxMsgLength < 2 ^ 31 := by
            rw [(send_returned_fields w q q2 b n t p rc hs).2.1]; exact hl
          have := ih q2 q' h hu1 hc1 hl1
          simp only [netCount, hs]
          rcases send_returned_count w q q2 b n t p rc hc hl hs with ⟨e1, e2⟩ | ⟨e1, e2⟩
          · rw [if_pos e1, this, e2]; ring
          · rw [if_neg e1, this, e2]; push_cast; ring
        | blocked => simp [hs] at hn
        | undefined => simp [hs] at hn
      | receive b n t =>
        simp only [Call.next] at hn
        cases hs : msgQReceive w (some q) b n t with
        | returned a =>
          obtain ⟨rc, q2, b2⟩ := a
          simp only [hs, Option.some.injEq] at hn
          subst hn
          have hl1 : q2.maxMsgLength < 2 ^ 31 := by
            rw [(receive_returned_fields w q q2 b b2 n t rc hs).2.1]; exact hl
          have := ih q2 q' h hu1 hc1 hl1
          simp only [netCount, hs]
          rcases receive_returned_count w q q2 b b2 n t rc hu hc hl hs with
            ⟨e1, e2⟩ | ⟨e1, e2, e3⟩
          · rw [if_pos e1, this, e2]; ring
          · rw [if_neg e1, this, e3]
            have : ((q.used - 1 : Nat) : Int) = (q.used : Int) - 1 := by omega
            rw [this]; ring
        | blocked => simp [hs] at hn
        | undefined => simp [hs] at hn
      | delete =>
        simp only [Call.next, msgQDelete, Option.some.injEq] at hn
        subst hn
        have := ih _ q' h hu hc hl
        simp only [netCount, msgQDelete]
        exact this

/-- Every call that returns leaves capacity, slot size and storage size as
they were. -/
theorem next_shape (w : Nat) (q q' : msg_q) (c : Call) (h : c.next w q = some q') :
    q'.capacity = q.capacity ∧ q'.maxMsgLength = q.maxMsgLength ∧
      q'.data.size = q.data.size := by
  cases c with
  | send b n t p =>
    simp only [Call.next] at h
    cases hs : msgQSend w (some q) b n t p with
    | returned a =>
      obtain ⟨rc, q1⟩ := a
      simp only [hs, Option.some.injEq] at h
      subst h
      obtain ⟨e1, e2, -, e4, -⟩ := send_returned_fields w q q1 b n t p rc hs
      exact ⟨e1, e2, e4⟩
    | blocked => simp [hs] at h
    | undefined => simp [hs] at h
  | receive b n t =>
    simp only [Call.next] at h
    cases hs : msgQReceive w (some q) b n t with
    | returned a =>
      obtain ⟨rc, q1, b1⟩ := a
      simp only [hs, Option.some.injEq] at h
      subst h
      obtain ⟨e1, e2, -, e4, -⟩ := receive_returned_fields w q q1 b b1 n t rc hs
      exact ⟨e1, e2, e4⟩
    | blocked => simp [hs] at h
    | undefined => simp [hs] at h
  | delete =>
    simp only [Call.next, msgQDelete, Option.some.injEq] at h
    subst h
    exact ⟨rfl, rfl, rfl⟩

/-- Every sequence of calls that return leaves capacity, slot size and
storage size as they were. -/
theorem run_shape (w : Nat) (cs : List Call) : ∀ (q q' : msg_q), runCalls w q cs = some q' →
    q'.capacity = q.capacity ∧ q'.maxMsgLength = q.maxMsgLength ∧
      q'.data.size = q.data.size := by
  induction cs with
  | nil =>
    intro q q' h
    simp only [runCalls, Option.some.injEq] at h
    subst h
    exact ⟨rfl, rfl, rfl⟩
  | cons c cs ih =>
    intro q q' h
    simp only [runCalls] at h
    cases hn : c.next w q with
    | none => simp [hn] at h
    | some q1 =>
      simp only [hn] at h
      obtain ⟨a1, a2, a3⟩ := next_shape w q q1 c hn
      obtain ⟨b1, b2, b3⟩ := ih q1 q' h
      exact ⟨b1.trans a1, b2.trans a2, b3.trans a3⟩

/-- In the list queue of the specification nothing is lost or made up: the
messages taken by receives together with those left are the messages held at
the start together with those sent. -/
theorem specRun_perm (slotSize : Nat) (cs : List Call) : ∀ ms : List Msg,
    List.Perm ((specRun slotSize ms cs).2.map Prod.fst ++ (specRun slotSize ms cs).1)
      (ms ++ sentMsgs slotSize cs) := by
  induction cs with
  | nil => intro ms; simp [specRun, sentMsgs]
  | cons c cs ih =>
    intro ms
    cases c with
    | send b n t p =>
      by_cases hp : MSG_PRI_URGENT = p
      · simp only [specRun, if_pos hp, sentMsgs]
        refine (ih _).trans ?_
        rw [← List.singleton_append]
        simp only [List.append_assoc]
        have : List.Perm ([{ buf := b, len := min n slotSize }] ++ ms)
            (ms ++ [{ buf := b, len := min n slotSize }]) := List.perm_append_comm
        have h2 := List.Perm.append_right (sentMsgs slotSize cs) this
        simpa [List.append_assoc] using h2
      · simp only [specRun, if_neg hp, sentMsgs]
        refine (ih _).trans ?_
        simp [List.append_assoc]
    | receive b n t =>
      cases ms with
      | nil => simpa only [specRun, sentMsgs] using ih []
      | cons m rest =>
        simp only [specRun, sentMsgs, List.map_cons, List.cons_append]
        exact List.Perm.cons m (ih rest)
    | delete => simpa only [specRun, sentMsgs] using ih ms

/-- No loss and no duplication while the counters do not reach the `size_t`
limit: when a run of sends of either priority and receives, none issued on a
full or empty queue, starts and ends with an empty live queue, the receives
deliver, up to order, exactly the messages sent. -/
theorem no_loss_of_no_wrap (w : Nat) (q : msg_q) (cs : List Call) (hwf : WF w q)
    (hlive : q.isDestroyed = 0) (hempty : q.used = 0)
    (hadm : Admissible q.capacity q.used cs)
    (hnw : max q.head q.capacity + q.capacity + cs.length < 2 ^ w)
    (hdrained : ∀ q' out, runTrace w q cs = some (q', out) → q'.used = 0) :
    ∃ q' out delivered, runTrace w q cs = some (q', out) ∧
      List.Forall₂ Delivered out delivered ∧
      List.Perm (delivered.map Prod.fst) (sentMsgs q.maxMsgLength cs) := by
  obtain ⟨q', out, r1, -, -, -, -, r6, r7⟩ :=
    run_refines_spec w cs q [] hwf hlive ⟨by simp [hempty], trivial⟩ hadm hnw
  refine ⟨q', out, (specRun q.maxMsgLength [] cs).2, r1, r7, ?_⟩
  have hlen : (specRun q.maxMsgLength [] cs).1.length = 0 := by
    rw [r6.1]; exact hdrained q' out r1
  have hnil : (specRun q.maxMsgLength [] cs).1 = [] := List.length_eq_zero.mp hlen
  have := specRun_perm q.maxMsgLength cs []
  rw [hnil] at this
  simpa using this

/-- What a receive does while `head + 1` does not wrap: it copies the first
`min(maxNBytes, maxMsgLength)` bytes of the slot at `head mod capacity` to the
caller's buffer and leaves the rest of the buffer, returns that count, takes one
from `used`, moves `head mod capacity` one slot on, sets the bytes it copied to
zero and leaves every other byte of the storage. -/
theorem receive_slots (w : Nat) (q : msg_q) (buffer : Nat → Nat) (maxNBytes : Nat)
    (timeout : Int) (hwf : WF w q) (hlive : q.isDestroyed = 0) (hpos : 0 < q.used)
    (hnw : q.head + 1 < 2 ^ w) :
    ∃ q' buffer', msgQReceive w (some q) buffer maxNBytes timeout
        = Outcome.returned (((min maxNBytes q.maxMsgLength : Nat) : Int), q', buffer') ∧
      (∀ j, j < min maxNBytes q.maxMsgLength →
        buffer' j = slotByte q (q.head % q.capacity) j) ∧
      (∀ j, min maxNBytes q.maxMsgLength ≤ j → buffer' j = buffer j) ∧
      q'.used + 1 = q.used ∧
      q'.head % q'.capacity = (q.head % q.capacity + 1) % q.capacity ∧
      q'.capacity = q.capacity ∧ q'.maxMsgLength = q.maxMsgLength ∧ q'.isDestroyed = 0 ∧
      (∀ j, j < min maxNBytes q.maxMsgLength → slotByte q' (q.head % q.capacity) j = 0) ∧
      (∀ j, min maxNBytes q.maxMsgLength ≤ j → j < q.maxMsgLength →
        slotByte q' (q.head % q.capacity) j = slotByte q (q.head % q.capacity) j) ∧
      (∀ i j, i ≠ q.head % q.capacity → j < q.maxMsgLength →
        slotByte q' i j = slotByte q i j) := by
  obtain ⟨q', b', hs, e1, e2, e3, e4, e5, -, e7, e8⟩ :=
    receive_step w q buffer maxNBytes timeout hwf hlive hpos hnw
  refine ⟨q', b', hs, fun j hj => ?_, fun j hj => ?_, by omega, ?_, e1, e2,
    by rw [e5]; exact hlive, fun j hj => ?_, fun j hj hj2 => ?_, fun i j hi hj => ?_⟩
  · rw [e8, memcpy_inside _ _ _ _ _ _ ⟨by omega, by omega⟩]
    simp only [slotByte, Nat.zero_add, Nat.sub_zero]
  · rw [e8]
    exact memcpy_outside _ _ _ _ _ _ (by omega)
  · rw [e1, e3, Nat.add_mod, Nat.add_mod (q.head % q.capacity) 1, Nat.mod_mod]
  · simp only [slotByte, e2, e7, memset]
    rw [if_pos ⟨by omega, by omega⟩]
  · simp only [slotByte, e2, e7]
    exact memset_outside _ _ _ _ _ (by omega)
  · simp only [slotByte, e2, e7]
    exact memset_outside _ _ _ _ _
      (slot_disjoint _ _ _ _ _ hi hj (Nat.min_le_right _ _))

/-! ## Records in memory -/

theorem ptrOfBytes_eq (p : Nat) (b : Nat → Nat) (n : Nat) : ∀ (off k : Nat),
    (∀ i, i < n → b (off + i) = ptrByte p (k + i)) →
    ptrOfBytes b off n = p / 256 ^ k % 256 ^ n := by
  induction n with
  | zero => intro off k _; simp [ptrOfBytes, Nat.mod_one]
  | succ n ih =>
    intro off k h
    have h0 := h 0 (by omega)
    simp only [Nat.add_zero] at h0
    have hrest := ih (off + 1) (k + 1) (fun i hi => by
      have := h (i + 1) (by omega)
      rw [show off + (i + 1) = off + 1 + i by omega, show k + (i + 1) = k + 1 + i by omega]
        at this
      exact this)
    simp only [ptrOfBytes, h0, hrest, ptrByte]
    rw [pow_succ 256 n, mul_comm (256 ^ n) 256, Nat.mod_mul, pow_succ 256 k,
      Nat.div_div_eq_div_mul]

/-- Reading back the bytes of a record gives the record. -/
theorem ofBytes_of_toBytes (w : Nat) (fd : FrameData) (b : Nat → Nat)
    (hf : fd.frame < 256 ^ ptrSize w) (hr : fd.rawPixelData < 256 ^ ptrSize w)
    (hb : ∀ i, i < sizeofFrameData w → b i = FrameData.toBytes w fd i) :
    FrameData.ofBytes w b = fd := by
  have h1 : ptrOfBytes b 0 (ptrSize w) = fd.frame := by
    rw [ptrOfBytes_eq fd.frame b (ptrSize w) 0 0 (fun i hi => by
      rw [Nat.zero_add, hb i (by unfold sizeofFrameData; omega)]
      simp [FrameData.toBytes, hi])]
    simp [Nat.mod_eq_of_lt hf]
  have h2 : ptrOfBytes b (ptrSize w) (ptrSize w) = fd.rawPixelData := by
    rw [ptrOfBytes_eq fd.rawPixelData b (ptrSize w) (ptrSize w) 0 (fun i hi => by
      rw [hb _ (by unfold sizeofFrameData; omega)]
      simp [FrameData.toBytes])]
    simp [Nat.mod_eq_of_lt hr]
  cases fd
  simp only [FrameData.ofBytes] at *
  rw [h1, h2]

/-! ## The queue when its capacity divides `2 ^ w` -/

theorem mod_mod_of_dvd_pow (w c x : Nat) (hd : c ∣ 2 ^ w) : x % 2 ^ w % c = x % c :=
  Nat.mod_mod_of_dvd x hd

/-- A send that is not URGENT on a live queue with a free slot, when the
capacity divides `2 ^ w`, field by field. -/
theorem send_normal_step_dvd (w : Nat) (q : msg_q) (buffer : Nat → Nat) (nBytes : Nat)
    (timeout priority : Int) (hp : MSG_PRI_URGENT ≠ priority) (hwf : WF w q)
    (hlive : q.isDestroyed = 0) (hlt : q.used < q.capacity) (hd : q.capacity ∣ 2 ^ w) :
    ∃ q', msgQSend w (some q) buffer nBytes timeout priority
        = Outcome.returned (((min nBytes q.maxMsgLength : Nat) : Int), q') ∧
      q'.capacity = q.capacity ∧ q'.maxMsgLength = q.maxMsgLength ∧ q'.head = q.head ∧
      q'.used = q.used + 1 ∧ q'.isDestroyed = q.isDestroyed ∧ q'.data.size = q.data.size ∧
      q'.data.bytes = memcpy q.data.bytes
        ((q.head + q.used) % q.capacity * q.maxMsgLength) buffer 0
        (min nBytes q.maxMsgLength) := by
  have hidx : sendIdx w q priority = (q.head + q.used) % q.capacity := by
    simp [sendIdx, hp, size_add, mod_mod_of_dvd_pow w q.capacity _ hd]
  have hhead : sendHead w q priority = q.head := by
    simp [sendHead, hp]
  have hcap : 0 < q.capacity := hwf.1
  have hi : (q.head + q.used) % q.capacity < q.capacity := Nat.mod_lt _ hcap
  have hmin : min nBytes q.maxMsgLength ≤ q.maxMsgLength := Nat.min_le_right _ _
  have hs : msgQSend w (some q) buffer nBytes timeout priority
      = Outcome.returned (((min nBytes q.maxMsgLength : Nat) : Int),
          { q with
            used := q.used + 1
            data :=
              { q.data with
                bytes := memcpy q.data.bytes
                  ((q.head + q.used) % q.capacity * q.maxMsgLength) buffer 0
                  (min nBytes q.maxMsgLength) } }) := by
    rw [send_live_eq w q buffer nBytes timeout priority hlive hlt, hidx, hhead,
      size_mul_of_slot w q hwf _ hi, if_pos (slot_in_storage w q hwf _ _ hi hmin),
      size_add_one_of_lt w q.used q.capacity hlt hwf.2.2.1,
      to_int_of_lt _ (lt_of_le_of_lt hmin hwf.2.2.2.1)]
  exact ⟨_, hs, rfl, rfl, rfl, rfl, rfl, rfl, rfl⟩

/-- A receive on a live queue that holds a message, field by field; `head`
is incremented modulo `2 ^ w`. -/
theorem receive_step_wrap (w : Nat) (q : msg_q) (buffer : Nat → Nat) (maxNBytes : Nat)
    (timeout : Int) (hwf : WF w q) (hlive : q.isDestroyed = 0) (hpos : 0 < q.used) :
    ∃ q' buffer', msgQReceive w (some q) buffer maxNBytes timeout
        = Outcome.returned (((min maxNBytes q.maxMsgLength : Nat) : Int), q', buffer') ∧
      q'.capacity = q.capacity ∧ q'.maxMsgLength = q.maxMsgLength ∧
      q'.head = (q.head + 1) % 2 ^ w ∧
      q'.used = q.used - 1 ∧ q'.isDestroyed = q.isDestroyed ∧ q'.data.size = q.data.size ∧
      q'.data.bytes = memset q.data.bytes (q.head % q.capacity * q.maxMsgLength) 0
        (min maxNBytes q.maxMsgLength) ∧
      buffer' = memcpy buffer 0 q.data.bytes (q.head % q.capacity * q.maxMsgLength)
        (min maxNBytes q.maxMsgLength) := by
  have hcap : 0 < q.capacity := hwf.1
  have hi : q.head % q.capacity < q.capacity := Nat.mod_lt _ hcap
  have hmin : min maxNBytes q.maxMsgLength ≤ q.maxMsgLength := Nat.min_le_right _ _
  have hs : msgQReceive w (some q) buffer maxNBytes timeout
      = Outcome.returned (((min maxNBytes q.maxMsgLength : Nat) : Int),
          { q with
            head := (q.head + 1) % 2 ^ w
            used := q.used - 1
            data :=
              { q.data with
                bytes := memset q.data.bytes (q.head % q.capacity * q.maxMsgLength) 0
                  (min maxNBytes q.maxMsgLength) } },
          memcpy buffer 0 q.data.bytes (q.head % q.capacity * q.maxMsgLength)
            (min maxNBytes q.maxMsgLength)) := by
    rw [receive_live_eq w q buffer maxNBytes timeout hlive hpos,
      size_mul_of_slot w q hwf _ hi, if_pos (slot_in_storage w q hwf _ _ hi hmin),
      size_sub_one_of_pos w q.used q.capacity hpos hwf.2.1 hwf.2.2.1,
      to_int_of_lt _ (lt_of_le_of_lt hmin hwf.2.2.2.1)]
    rfl
  exact ⟨_, _, hs, rfl, rfl, rfl, rfl, rfl, rfl, rfl, rfl⟩

/-- The messages a queue holds after a receive, and the bytes delivered, when
`head` moves one slot on modulo the capacity. -/
theorem rep_receive_mod (q q' : msg_q) (buffer buffer' : Nat → Nat) (n : Nat)
    (m : Msg) (ms : List Msg) (hu : q.used ≤ q.capacity) (hrep : Rep q (m :: ms))
    (hcap : q'.capacity = q.capacity) (hlen : q'.maxMsgLength = q.maxMsgLength)
    (hhead : q'.head % q.capacity = (q.head + 1) % q.capacity) (hused : q'.used = q.used - 1)
    (hbytes : q'.data.bytes = memset q.data.bytes
      (q.head % q.capacity * q.maxMsgLength) 0 n)
    (hbuf : buffer' = memcpy buffer 0 q.data.bytes (q.head % q.capacity * q.maxMsgLength) n)
    (hn : n ≤ q.maxMsgLength) :
    Rep q' ms ∧ ∀ j, j < m.len → j < n → buffer' j = m.buf j := by
  obtain ⟨hl, ⟨hm1, hm2⟩, hh⟩ := hrep
  simp only [List.length_cons] at hl
  refine ⟨⟨by rw [hused]; omega, ?_⟩, fun j hj hj2 => ?_⟩
  · apply holdsFrom_of_other_slot q q' (q.head % q.capacity) n hcap hlen
      (fun i hi => by rw [hbytes]; exact memset_outside _ _ _ _ _ hi) hn ms 1 0
      (fun e => by
        rw [Nat.zero_add, Nat.add_mod, hhead, ← Nat.add_mod]
        congr 1; omega) ?_ hh
    intro e he
    have := mod_add_ne q.head 0 (1 + e) q.capacity (by omega) (by omega)
    rw [Nat.add_zero] at this
    exact fun h => this h.symm
  · rw [hbuf, memcpy_inside _ _ _ _ _ _ ⟨by omega, by omega⟩]
    have := hm2 j hj
    simp only [slotByte, Nat.add_zero] at this
    rw [← this]
    congr 1

/-! ## The queues of a decoder channel -/

theorem wf_of_fields (w : Nat) (q q' : msg_q) (hwf : WF w q) (e1 : q'.capacity = q.capacity)
    (e2 : q'.maxMsgLength = q.maxMsgLength) (e3 : q'.data.size = q.data.size)
    (hu : q'.used ≤ q.capacity) : WF w q' := by
  obtain ⟨h1, -, h3, h4, h5, h6⟩ := hwf
  exact ⟨by rw [e1]; exact h1, by rw [e1]; exact hu, by rw [e1]; exact h3,
    by rw [e2]; exact h4, by rw [e1, e2, e3]; exact h5, by rw [e1, e2]; exact h6⟩

/-- Sending a frame to a queue of a decoder channel that has a free slot. -/
theorem queueHolds_send (w : Nat) (oq : Option msg_q) (hs : List Nat) (h : Nat)
    (hd : DECODER_QUEUE_DEPTH ∣ 2 ^ w) (hq : QueueHolds w oq hs)
    (hlt : hs.length < DECODER_QUEUE_DEPTH) :
    ∃ rc q', msgQSend w oq (FrameData.toBytes w { frame := h, rawPixelData := 0 })
        (sizeofFrameData w) MSG_Q_WAIT_FOREVER MSG_PRI_NORMAL = Outcome.returned (rc, q') ∧
      QueueHolds w (some q') (hs ++ [h]) := by
  obtain ⟨q, rfl, hwf, hlive, hcap, hlen, hrep⟩ := hq
  have hused : q.used = hs.length := by rw [← hrep.1]; simp
  have hlt' : q.used < q.capacity := by rw [hused, hcap]; exact hlt
  obtain ⟨q', hs', e1, e2, e3, e4, e5, e6, e7⟩ :=
    send_normal_step_dvd w q (FrameData.toBytes w { frame := h, rawPixelData := 0 })
      (sizeofFrameData w) MSG_Q_WAIT_FOREVER MSG_PRI_NORMAL (by decide) hwf hlive hlt'
      (by rw [hcap]; exact hd)
  have hmin : min (sizeofFrameData w) q.maxMsgLength = sizeofFrameData w := by
    rw [hlen]; exact Nat.min_self _
  rw [hmin] at hs' e7
  refine ⟨_, q', hs', q', rfl, wf_of_fields w q q' hwf e1 e2 e6 (by omega),
    by rw [e5]; exact hlive, e1.trans hcap, e2.trans hlen, ?_⟩
  have := rep_send_normal q q' (FrameData.toBytes w { frame := h, rawPixelData := 0 })
    (sizeofFrameData w) (hs.map (frameMsg w)) hlt' hrep e1 e2 e3 e4 e7 (by rw [hlen])
  simpa [frameMsg] using this

/-- Sending to a full queue of a decoder channel does not return. -/
theorem queueHolds_send_full (w : Nat) (oq : Option msg_q) (hs : List Nat)
    (buffer : Nat → Nat) (nBytes : Nat) (timeout priority : Int) (hq : QueueHolds w oq hs)
    (hfull : DECODER_QUEUE_DEPTH ≤ hs.length) :
    msgQSend w oq buffer nBytes timeout priority = Outcome.blocked := by
  obtain ⟨q, rfl, -, hlive, hcap, -, hrep⟩ := hq
  have hused : q.used = hs.length := by rw [← hrep.1]; simp
  exact send_full_eq w q buffer nBytes timeout priority hlive (by rw [hcap, hused]; exact hfull)

/-- Receiving a record from a queue of a decoder channel that holds one. -/
theorem queueHolds_receive (w : Nat) (oq : Option msg_q) (h : Nat) (rest : List Nat)
    (buffer : Nat → Nat) (timeout : Int) (hd : DECODER_QUEUE_DEPTH ∣ 2 ^ w)
    (hq : QueueHolds w oq (h :: rest)) (hh : h < 256 ^ ptrSize w) :
    ∃ q' buffer', msgQReceive w oq buffer (sizeofFrameData w) timeout
        = Outcome.returned ((sizeofFrameData w : Int), q', buffer') ∧
      QueueHolds w (some q') rest ∧
      FrameData.ofBytes w buffer' = { frame := h, rawPixelData := 0 } := by
  obtain ⟨q, rfl, hwf, hlive, hcap, hlen, hrep⟩ := hq
  have hused : q.used = rest.length + 1 := by rw [← hrep.1]; simp
  obtain ⟨q', b', hs', e1, e2, e3, e4, e5, e6, e7, e8⟩ :=
    receive_step_wrap w q buffer (sizeofFrameData w) timeout hwf hlive (by omega)
  have hmin : min (sizeofFrameData w) q.maxMsgLength = sizeofFrameData w := by
    rw [hlen]; exact Nat.min_self _
  rw [hmin] at hs' e7 e8
  have hhead : q'.head % q.capacity = (q.head + 1) % q.capacity := by
    rw [e3]; exact mod_mod_of_dvd_pow w q.capacity _ (by rw [hcap]; exact hd)
  simp only [List.map_cons] at hrep
  obtain ⟨r1, r2⟩ := rep_receive_mod q q' buffer b' (sizeofFrameData w) (frameMsg w h)
    (rest.map (frameMsg w)) hwf.2.1 hrep e1 e2 hhead e4 e7 e8 (by rw [hlen])
  have hu' : q'.used ≤ q.capacity := by
    have := hwf.2.1
    rw [e4]; omega
  refine ⟨q', b', hs', ⟨q', rfl, wf_of_fields w q q' hwf e1 e2 e6 hu',
    by rw [e5]; exact hlive, e1.trans hcap, e2.trans hlen, r1⟩, ?_⟩
  apply ofBytes_of_toBytes w { frame := h, rawPixelData := 0 } b' hh (by positivity)
  intro i hi
  exact r2 i hi hi

/-- Receiving from an empty queue of a decoder channel: the call waits when
asked to wait forever and returns `MSG_Q_ERROR` otherwise. -/
theorem queueHolds_receive_empty (w : Nat) (oq : Option msg_q) (buffer : Nat → Nat)
    (maxNBytes : Nat) (timeout : Int) (hq : QueueHolds w oq []) :
    ∃ q, oq = some q ∧ msgQReceive w oq buffer maxNBytes timeout =
      if timeout = MSG_Q_WAIT_FOREVER then Outcome.blocked
      else Outcome.returned (MSG_Q_ERROR, q, buffer) := by
  obtain ⟨q, rfl, -, hlive, -, -, hrep⟩ := hq
  have hused : q.used = 0 := by rw [← hrep.1]; simp
  exact ⟨q, rfl, receive_empty_eq w q buffer maxNBytes timeout hlive hused⟩

/-- The frames read off the storage of a queue are the frames it holds. -/
theorem queueFrames_of_holds (w : Nat) (oq : Option msg_q) (hs : List Nat)
    (hq : QueueHolds w oq hs) (hb : ∀ h ∈ hs, h < 256 ^ ptrSize w) :
    queueFrames w oq = hs := by
  obtain ⟨q, rfl, -, -, -, hlen, hrep⟩ := hq
  obtain ⟨hl, hh⟩ := hrep
  simp only [List.length_map] at hl
  have key : ∀ (hs : List Nat) (k : Nat), HoldsFrom q k (hs.map (frameMsg w)) →
      (∀ h ∈ hs, h < 256 ^ ptrSize w) →
      (List.range' k hs.length).map
        (fun k => (FrameData.ofBytes w
          (fun j => q.data.bytes ((q.head + k) % q.capacity * q.maxMsgLength + j))).frame)
        = hs := by
    intro hs
    induction hs with
    | nil => intro _ _ _; rfl
    | cons h rest ih =>
      intro k hk hb
      obtain ⟨⟨-, h2⟩, h3⟩ := hk
      simp only [List.length_cons, List.range'_succ, List.map_cons]
      rw [ih (k + 1) h3 (fun x hx => hb x (by simp [hx]))]
      congr 1
      have := ofBytes_of_toBytes w { frame := h, rawPixelData := 0 }
        (fun j => q.data.bytes ((q.head + k) % q.capacity * q.maxMsgLength + j))
        (hb h (by simp)) (by positivity) (fun i hi => by
          have := h2 i hi
          simpa [slotByte, frameMsg] using this)
      rw [this]
  have := key hs 0 hh hb
  simp only [queueFrames, queueRecords, List.map_map]
  rw [← hl, List.range_eq_range']
  exact this

/-! ## Status values as `size_t` -/

theorem int_to_size_natCast (w n : Nat) (h : n < 2 ^ w) : int_to_size w (n : Int) = n := by
  unfold int_to_size
  have h1 : ((n : Int)) < ((2 ^ w : Nat) : Int) := by exact_mod_cast h
  rw [Int.emod_eq_of_lt (Int.ofNat_nonneg n) h1]
  exact Int.toNat_ofNat n

theorem int_to_size_error (w : Nat) : int_to_size w MSG_Q_ERROR = 2 ^ w - 1 := by
  unfold int_to_size MSG_Q_ERROR
  have hpos : (0 : Int) < ((2 ^ w : Nat) : Int) := by positivity
  have h1 : (-1 : Int) % ((2 ^ w : Nat) : Int) = ((2 ^ w : Nat) : Int) - 1 := by
    have e : (-1 : Int) = (((2 ^ w : Nat) : Int) - 1) + (-1) * ((2 ^ w : Nat) : Int) := by ring
    rw [e, Int.add_mul_emod_self]
    exact Int.emod_eq_of_lt (by omega) (by omega)
  rw [h1]
  omega

/-! ## The decoder channel is the pool of the specification -/

/-- An operation of the pool moves one handle and keeps them all. -/
theorem poolStep_perm (capacity : Nat) (p p' : Pool) (st : ProtocolStep)
    (h : poolStep capacity p st = some p') : List.Perm p'.handles p.handles := by
  obtain ⟨free, fh, filled, dh⟩ := p
  rw [List.perm_iff_count]
  intro a
  cases st with
  | decoderAcquire =>
    cases fh with
    | some x => simp [poolStep] at h
    | none =>
      cases free with
      | nil => simp [poolStep] at h
      | cons b rest =>
        simp only [poolStep, Option.some.injEq] at h
        subst h
        simp only [Pool.handles, Option.toList, List.count_append, List.count_cons,
          List.count_nil]
        omega
  | decoderPublish =>
    cases fh with
    | none => simp [poolStep] at h
    | some x =>
      simp only [poolStep] at h
      split_ifs at h
      simp only [Option.some.injEq] at h
      subst h
      simp only [Pool.handles, Option.toList, List.count_append, List.count_cons,
        List.count_nil]
      omega
  | decoderHandBack =>
    cases fh with
    | none => simp [poolStep] at h
    | some x =>
      simp only [poolStep] at h
      split_ifs at h
      simp only [Option.some.injEq] at h
      subst h
      simp only [Pool.handles, Option.toList, List.count_append, List.count_cons,
        List.count_nil]
      omega
  | rendererAcquire =>
    cases dh with
    | some x => simp [poolStep] at h
    | none =>
      cases filled with
      | nil =>
        simp only [poolStep, Option.some.injEq] at h
        subst h
        rfl
      | cons b rest =>
        simp only [poolStep, Option.some.injEq] at h
        subst h
        simp only [Pool.handles, Option.toList, List.count_append, List.count_cons,
          List.count_nil]
        omega
  | rendererRelease =>
    cases dh with
    | none => simp [poolStep] at h
    | some x =>
      simp only [poolStep] at h
      split_ifs at h
      simp only [Option.some.injEq] at h
      subst h
      simp only [Pool.handles, Option.toList, List.count_append, List.count_cons,
        List.count_nil]
      omega

/-! ## The functions of pipeline_src.c on the queues of a channel -/

theorem queueHolds_size (w : Nat) (oq : Option msg_q) (hs : List Nat)
    (hq : QueueHolds w oq hs) : 2 * sizeofFrameData w < 2 ^ w := by
  obtain ⟨q, _, hwf, _, hc, hl, _⟩ := hq
  have := hwf.2.2.2.2.2
  rw [hc, hl] at this
  exact this

theorem returnFrame_spec (w index : Nat) (g : SrcQueues) (hs : List Nat) (h : Nat)
    (hd : DECODER_QUEUE_DEPTH ∣ 2 ^ w)
    (hq : QueueHolds w (g.FrameQueuesReturnedToDecoder index) hs)
    (hlt : hs.length < DECODER_QUEUE_DEPTH) :
    ∃ g', ReturnFrameToDecoderQueue w g h index = Outcome.returned g' ∧
      g'.FrameQueuesDecoded = g.FrameQueuesDecoded ∧
      QueueHolds w (g'.FrameQueuesReturnedToDecoder index) (hs ++ [h]) := by
  obtain ⟨rc, q', hsend, hq'⟩ := queueHolds_send w _ hs h hd hq hlt
  refine ⟨{ g with
    FrameQueuesReturnedToDecoder :=
      Function.update g.FrameQueuesReturnedToDecoder index (some q') }, ?_, rfl, ?_⟩
  · simp only [ReturnFrameToDecoderQueue, hsend]
  · simpa using hq'

theorem returnFrame_full (w index : Nat) (g : SrcQueues) (hs : List Nat) (h : Nat)
    (hq : QueueHolds w (g.FrameQueuesReturnedToDecoder index) hs)
    (hfull : DECODER_QUEUE_DEPTH ≤ hs.length) :
    ReturnFrameToDecoderQueue w g h index = Outcome.blocked := by
  simp only [ReturnFrameToDecoderQueue, queueHolds_send_full w _ hs _ _ _ _ hq hfull]

theorem submitFrame_spec (w index : Nat) (g : SrcQueues) (hs : List Nat) (h : Nat)
    (hd : DECODER_QUEUE_DEPTH ∣ 2 ^ w)
    (hq : QueueHolds w (g.FrameQueuesDecoded index) hs)
    (hlt : hs.length < DECODER_QUEUE_DEPTH) :
    ∃ g', SubmitFrameFromDecoder w g h index = Outcome.returned g' ∧
      g'.FrameQueuesReturnedToDecoder = g.FrameQueuesReturnedToDecoder ∧
      QueueHolds w (g'.FrameQueuesDecoded index) (hs ++ [h]) := by
  obtain ⟨rc, q', hsend, hq'⟩ := queueHolds_send w _ hs h hd hq hlt
  refine ⟨{ g with
    FrameQueuesDecoded := Function.update g.FrameQueuesDecoded index (some q') }, ?_, rfl, ?_⟩
  · simp only [SubmitFrameFromDecoder, hsend]
  · simpa using hq'

theorem submitFrame_full (w index : Nat) (g : SrcQueues) (hs : List Nat) (h : Nat)
    (hq : QueueHolds w (g.FrameQueuesDecoded index) hs)
    (hfull : DECODER_QUEUE_DEPTH ≤ hs.length) :
    SubmitFrameFromDecoder w g h index = Outcome.blocked := by
  simp only [SubmitFrameFromDecoder, queueHolds_send_full w _ hs _ _ _ _ hq hfull]

theorem decoderReceive_spec (w index : Nat) (g : SrcQueues) (h : Nat) (rest : List Nat)
    (hd : DECODER_QUEUE_DEPTH ∣ 2 ^ w)
    (hq : QueueHolds w (g.FrameQueuesReturnedToDecoder index) (h :: rest))
    (hh : h < 256 ^ ptrSize w) :
    ∃ g', decoderReceiveFrame w g index = Outcome.returned (some h, g') ∧
      g'.FrameQueuesDecoded = g.FrameQueuesDecoded ∧
      QueueHolds w (g'.FrameQueuesReturnedToDecoder index) rest := by
  have hsz := queueHolds_size w _ _ hq
  obtain ⟨q', buffer', hrecv, hq', hfd⟩ :=
    queueHolds_receive w _ h rest (FrameData.toBytes w { frame := 0, rawPixelData := 0 })
      MSG_Q_WAIT_FOREVER hd hq hh
  refine ⟨{ g with
    FrameQueuesReturnedToDecoder :=
      Function.update g.FrameQueuesReturnedToDecoder index (some q') }, ?_, rfl, ?_⟩
  · simp only [decoderReceiveFrame, hrecv, hfd,
      int_to_size_natCast w (sizeofFrameData w) (by omega), ne_eq, not_true_eq_false,
      if_false]
  · simpa using hq'

theorem decoderReceive_empty (w index : Nat) (g : SrcQueues)
    (hq : QueueHolds w (g.FrameQueuesReturnedToDecoder index) []) :
    decoderReceiveFrame w g index = Outcome.blocked := by
  obtain ⟨q, _, hrecv⟩ := queueHolds_receive_empty w _
    (FrameData.toBytes w { frame := 0, rawPixelData := 0 }) (sizeofFrameData w)
    MSG_Q_WAIT_FOREVER hq
  simp only [decoderReceiveFrame, hrecv, if_true]

theorem tryReceive_spec (w index : Nat) (g : SrcQueues) (h : Nat) (rest : List Nat)
    (hd : DECODER_QUEUE_DEPTH ∣ 2 ^ w)
    (hq : QueueHolds w (g.FrameQueuesDecoded index) (h :: rest))
    (hh : h < 256 ^ ptrSize w) :
    ∃ g', TryReceiveDecodedFrame w g { frame := 0, rawPixelData := 0 } index
        = Outcome.returned (true, { frame := h, rawPixelData := 0 }, g') ∧
      g'.FrameQueuesReturnedToDecoder = g.FrameQueuesReturnedToDecoder ∧
      QueueHolds w (g'.FrameQueuesDecoded index) rest := by
  have hsz := queueHolds_size w _ _ hq
  obtain ⟨q', buffer', hrecv, hq', hfd⟩ :=
    queueHolds_receive w _ h rest (FrameData.toBytes w { frame := 0, rawPixelData := 0 })
      MSG_Q_NO_WAIT hd hq hh
  refine ⟨{ g with
    FrameQueuesDecoded := Function.update g.FrameQueuesDecoded index (some q') }, ?_, rfl, ?_⟩
  · simp only [TryReceiveDecodedFrame, hrecv, hfd,
      int_to_size_natCast w (sizeofFrameData w) (by omega), decide_True]
  · simpa using hq'

theorem tryReceive_empty (w index : Nat) (g : SrcQueues) (hw : 0 < w)
    (hq : QueueHolds w (g.FrameQueuesDecoded index) []) :
    ∃ fd g', TryReceiveDecodedFrame w g { frame := 0, rawPixelData := 0 } index
        = Outcome.returned (false, fd, g') ∧
      g'.FrameQueuesReturnedToDecoder = g.FrameQueuesReturnedToDecoder ∧
      QueueHolds w (g'.FrameQueuesDecoded index) [] := by
  have hsz := queueHolds_size w _ _ hq
  obtain ⟨q, hqe, hrecv⟩ := queueHolds_receive_empty w _
    (FrameData.toBytes w { frame := 0, rawPixelData := 0 }) (sizeofFrameData w)
    MSG_Q_NO_WAIT hq
  have hne : ¬ (2 ^ w - 1 = sizeofFrameData w) := by
    have : 2 ≤ 2 ^ w := by
      calc 2 = 2 ^ 1 := rfl
        _ ≤ 2 ^ w := Nat.pow_le_pow_right (by norm_num) hw
    omega
  have hnw : ¬ (MSG_Q_NO_WAIT = MSG_Q_WAIT_FOREVER) := by decide
  refine ⟨FrameData.ofBytes w (FrameData.toBytes w { frame := 0, rawPixelData := 0 }), { g with
    FrameQueuesDecoded := Function.update g.FrameQueuesDecoded index (some q) }, ?_, rfl, ?_⟩
  · simp only [TryReceiveDecodedFrame, hrecv, hnw, if_false, int_to_size_error, hne,
      decide_False]
  · rw [hqe] at hq
    simpa using hq

/-- Every operation of the pool of section 4.2 is an operation of the channel
that returns, and leads to the channel state of the new pool. -/
theorem sim_step (w index : Nat) (s : DecoderChannel) (p p' : Pool) (st : ProtocolStep)
    (hd : DECODER_QUEUE_DEPTH ∣ 2 ^ w) (hw : 0 < w) (hsim : Sim w index s p)
    (hstep : poolStep DECODER_QUEUE_DEPTH p st = some p') :
    ∃ s', protocolStep w index s st = some s' ∧ Sim w index s' p' := by
  have hb' : ∀ h ∈ p'.handles, h < 256 ^ ptrSize w := fun h hh =>
    hsim.2.2.2.2 h ((poolStep_perm _ _ _ _ hstep).mem_iff.1 hh)
  obtain ⟨g, dh, rh⟩ := s
  obtain ⟨free, fh, filled, drh⟩ := p
  obtain ⟨e1, e2, hfree, hfilled, hb⟩ := hsim
  simp only at e1 e2 hfree hfilled
  subst e1 e2
  cases st with
  | decoderAcquire =>
    cases dh with
    | some x => simp [poolStep] at hstep
    | none =>
      cases free with
      | nil => simp [poolStep] at hstep
      | cons a rest =>
        simp only [poolStep, Option.some.injEq] at hstep
        subst hstep
        have ha : a < 256 ^ ptrSize w := hb a (by simp [Pool.handles])
        obtain ⟨g', hr, hsame, hq'⟩ := decoderReceive_spec w index g a rest hd hfree ha
        refine ⟨{ queues := g', decoderHeld := some a, rendererHeld := rh }, ?_, rfl, rfl, hq',
          ?_, hb'⟩
        · simp only [protocolStep, hr]
        · simpa only [hsame] using hfilled
  | decoderPublish =>
    cases dh with
    | none => simp [poolStep] at hstep
    | some x =>
      simp only [poolStep] at hstep
      split_ifs at hstep with hlt
      simp only [Option.some.injEq] at hstep
      subst hstep
      obtain ⟨g', hr, hsame, hq'⟩ := submitFrame_spec w index g filled x hd hfilled hlt
      refine ⟨{ queues := g', decoderHeld := none, rendererHeld := rh }, ?_, rfl, rfl, ?_,
        hq', hb'⟩
      · simp only [protocolStep, hr]
      · simpa only [hsame] using hfree
  | decoderHandBack =>
    cases dh with
    | none => simp [poolStep] at hstep
    | some x =>
      simp only [poolStep] at hstep
      split_ifs at hstep with hlt
      simp only [Option.some.injEq] at hstep
      subst hstep
      obtain ⟨g', hr, hsame, hq'⟩ := returnFrame_spec w index g free x hd hfree hlt
      refine ⟨{ queues := g', decoderHeld := none, rendererHeld := rh }, ?_, rfl, rfl, hq',
        ?_, hb'⟩
      · simp only [protocolStep, hr]
      · simpa only [hsame] using hfilled
  | rendererAcquire =>
    cases rh with
    | some x => simp [poolStep] at hstep
    | none =>
      cases filled with
      | nil =>
        simp only [poolStep, Option.some.injEq] at hstep
        subst hstep
        obtain ⟨fd, g', hr, hsame, hq'⟩ := tryReceive_empty w index g hw hfilled
        refine ⟨{ queues := g', decoderHeld := dh, rendererHeld := none }, ?_, rfl, rfl, ?_,
          hq', hb'⟩
        · simp only [protocolStep, hr, Bool.false_eq_true, if_false]
        · simpa only [hsame] using hfree
      | cons a rest =>
        simp only [poolStep, Option.some.injEq] at hstep
        subst hstep
        have ha : a < 256 ^ ptrSize w := hb a (by simp [Pool.handles])
        obtain ⟨g', hr, hsame, hq'⟩ := tryReceive_spec w index g a rest hd hfilled ha
        refine ⟨{ queues := g', decoderHeld := dh, rendererHeld := some a }, ?_, rfl, rfl, ?_,
          hq', hb'⟩
        · simp only [protocolStep, hr, if_true]
        · simpa only [hsame] using hfree
  | rendererRelease =>
    cases rh with
    | none => simp [poolStep] at hstep
    | some x =>
      simp only [poolStep] at hstep
      split_ifs at hstep with hlt
      simp only [Option.some.injEq] at hstep
      subst hstep
      obtain ⟨g', hr, hsame, hq'⟩ := returnFrame_spec w index g free x hd hfree hlt
      refine ⟨{ queues := g', decoderHeld := dh, rendererHeld := none }, ?_, rfl, rfl, hq',
        ?_, hb'⟩
      · simp only [protocolStep, hr]
      · simpa only [hsame] using hfilled

theorem queueHolds_length (w : Nat) (oq : Option msg_q) (hs : List Nat)
    (hq : QueueHolds w oq hs) : hs.length ≤ DECODER_QUEUE_DEPTH := by
  obtain ⟨q, _, hwf, _, hc, _, hrep⟩ := hq
  have h1 := hrep.1
  have h2 := hwf.2.1
  simp only [List.length_map] at h1
  omega

/-- An operation the pool of section 4.2 does not allow, or blocks in, does
not take place in the channel either. -/
theorem sim_step_none (w index : Nat) (s : DecoderChannel) (p : Pool) (st : ProtocolStep)
    (hsim : Sim w index s p)
    (hstep : poolStep DECODER_QUEUE_DEPTH p st = none) :
    protocolStep w index s st = none := by
  obtain ⟨g, dh, rh⟩ := s
  obtain ⟨free, fh, filled, drh⟩ := p
  obtain ⟨e1, e2, hfree, hfilled, hb⟩ := hsim
  simp only at e1 e2 hfree hfilled
  subst e1 e2
  cases st with
  | decoderAcquire =>
    cases dh with
    | some x => simp [protocolStep]
    | none =>
      cases free with
      | nil => simp only [protocolStep, decoderReceive_empty w index g hfree]
      | cons a rest => simp [poolStep] at hstep
  | decoderPublish =>
    cases dh with
    | none => simp [protocolStep]
    | some x =>
      simp only [poolStep] at hstep
      split_ifs at hstep with hlt
      simp only [protocolStep, submitFrame_full w index g filled x hfilled (by omega)]
  | decoderHandBack =>
    cases dh with
    | none => simp [protocolStep]
    | some x =>
      simp only [poolStep] at hstep
      split_ifs at hstep with hlt
      simp only [protocolStep, returnFrame_full w index g free x hfree (by omega)]
  | rendererAcquire =>
    cases rh with
    | some x => simp [protocolStep]
    | none =>
      cases filled with
      | nil => simp [poolStep] at hstep
      | cons a rest => simp [poolStep] at hstep
  | rendererRelease =>
    cases rh with
    | none => simp [protocolStep]
    | some x =>
      simp only [poolStep] at hstep
      split_ifs at hstep with hlt
      simp only [protocolStep, returnFrame_full w index g free x hfree (by omega)]

/-! ## The channel from its creation on -/

/-- The queues `InitializeDecoders` leaves at the stream indices it went
through are the ones `msgQCreate` returned. -/
theorem initDecoderQueues_spec (w : Nat) (env : CreateEnv) (n : Nat) :
    ∀ (g0 g : SrcQueues) (i0 : Nat), initDecoderQueues w env g0 i0 n = some g →
      ∀ i, i0 ≤ i → i < i0 + n →
        g.FrameQueuesDecoded i
            = msgQCreate w DECODER_QUEUE_DEPTH (sizeofFrameData w) MSG_Q_FIFO env ∧
          g.FrameQueuesReturnedToDecoder i
            = msgQCreate w DECODER_QUEUE_DEPTH (sizeofFrameData w) MSG_Q_FIFO env ∧
          (msgQCreate w DECODER_QUEUE_DEPTH (sizeofFrameData w) MSG_Q_FIFO env).isSome = true := by
  induction n with
  | zero => intro g0 g i0 _ i h1 h2; omega
  | succ n ih =>
    intro g0 g i0 h
    have keep : ∀ (m : Nat) (a b : SrcQueues) (j0 : Nat),
        initDecoderQueues w env a j0 m = some b → ∀ i, i < j0 →
          b.FrameQueuesDecoded i = a.FrameQueuesDecoded i ∧
            b.FrameQueuesReturnedToDecoder i = a.FrameQueuesReturnedToDecoder i := by
      intro m
      induction m with
      | zero =>
        intro a b j0 hab i _
        simp only [initDecoderQueues, Option.some.injEq] at hab
        subst hab
        exact ⟨rfl, rfl⟩
      | succ m ihm =>
        intro a b j0 hab i hi
        simp only [initDecoderQueues] at hab
        cases hc : msgQCreate w DECODER_QUEUE_DEPTH (sizeofFrameData w) MSG_Q_FIFO env with
        | none => simp [hc] at hab
        | some q =>
          simp only [hc] at hab
          obtain ⟨k1, k2⟩ := ihm _ b (j0 + 1) hab i (by omega)
          have hne : i ≠ j0 := by omega
          simp only [Function.update_noteq hne] at k1 k2
          exact ⟨k1, k2⟩
    simp only [initDecoderQueues] at h
    cases hc : msgQCreate w DECODER_QUEUE_DEPTH (sizeofFrameData w) MSG_Q_FIFO env with
    | none => simp [hc] at h
    | some q =>
      simp only [hc] at h
      intro i h1 h2
      by_cases hi : i = i0
      · subst hi
        obtain ⟨k1, k2⟩ := keep n _ g (i + 1) h i (by omega)
        simp only [Function.update_same] at k1 k2
        exact ⟨k1, k2, rfl⟩
      · have := ih _ g (i0 + 1) h i (by omega) (by omega)
        simpa only [hc] using this

/-- A queue created for a decoder channel is live, well formed and empty. -/
theorem create_queueHolds (w : Nat) (env : CreateEnv) (q : msg_q) (hw : 31 ≤ w)
    (hw2 : w ≤ 64)
    (h : msgQCreate w DECODER_QUEUE_DEPTH (sizeofFrameData w) MSG_Q_FIFO env = some q) :
    QueueHolds w (some q) [] := by
  have hs : sizeofFrameData w ≤ 16 := by unfold sizeofFrameData ptrSize; omega
  have h1 : ((DECODER_QUEUE_DEPTH : Nat) : Int) < 2 ^ 31 := by
    unfold DECODER_QUEUE_DEPTH; norm_num
  have h2 : ((sizeofFrameData w : Nat) : Int) < 2 ^ 31 := by
    have : ((sizeofFrameData w : Nat) : Int) ≤ 16 := by exact_mod_cast hs
    omega
  have h3 : ((sizeofFrameData w : Nat) : Int) * ((DECODER_QUEUE_DEPTH : Nat) : Int) < 2 ^ 31 := by
    have : ((sizeofFrameData w : Nat) : Int) ≤ 16 := by exact_mod_cast hs
    have e : ((DECODER_QUEUE_DEPTH : Nat) : Int) = 2 := by unfold DECODER_QUEUE_DEPTH; rfl
    rw [e]
    omega
  obtain ⟨hwf, hrep, hlive, _, _, hc, hl⟩ :=
    create_wf w DECODER_QUEUE_DEPTH (sizeofFrameData w) MSG_Q_FIFO env q hw h1 h2 h3 h
  exact ⟨q, rfl, hwf, hlive, by exact_mod_cast hc, by exact_mod_cast hl, by simpa using hrep⟩

/-- The seeding loop sends all its frames to the returned queue, in order,
while that queue has room for them. -/
theorem seed_spec (w index : Nat) (hd : DECODER_QUEUE_DEPTH ∣ 2 ^ w) :
    ∀ (frames : List Nat) (g : SrcQueues) (hs : List Nat),
      QueueHolds w (g.FrameQueuesReturnedToDecoder index) hs →
      hs.length + frames.length ≤ DECODER_QUEUE_DEPTH → (∀ f ∈ frames, f ≠ 0) →
      ∃ g', seedDecoderFrames w index g frames = Outcome.returned (true, g') ∧
        g'.FrameQueuesDecoded = g.FrameQueuesDecoded ∧
        QueueHolds w (g'.FrameQueuesReturnedToDecoder index) (hs ++ frames) := by
  intro frames
  induction frames with
  | nil =>
    intro g hs hq _ _
    exact ⟨g, rfl, rfl, by simpa using hq⟩
  | cons f rest ih =>
    intro g hs hq hlen hnz
    have hf : f ≠ 0 := hnz f (by simp)
    simp only [List.length_cons] at hlen
    obtain ⟨g1, hr, hsame, hq1⟩ := returnFrame_spec w index g hs f hd hq (by omega)
    obtain ⟨g', hr', hsame', hq'⟩ := ih g1 (hs ++ [f]) hq1
      (by simp only [List.length_append, List.length_singleton]; omega)
      (fun x hx => hnz x (by simp [hx]))
    refine ⟨g', ?_, by rw [hsame', hsame], by simpa using hq'⟩
    simp only [seedDecoderFrames, hf, if_false, hr, hr']

theorem two_dvd_pow (w : Nat) (hw : 0 < w) : DECODER_QUEUE_DEPTH ∣ 2 ^ w := by
  unfold DECODER_QUEUE_DEPTH
  exact dvd_pow_self 2 (by omega)

/-- The channel at the start of the decoder loop is the pool with all frames
in `free`. -/
theorem start_sim (w index : Nat) (env : CreateEnv) (frames : List Nat) (s0 : DecoderChannel)
    (hw : 31 ≤ w) (hw2 : w ≤ 64) (hi : index < NUM_SRC_STREAMS)
    (hlen : frames.length = DECODER_QUEUE_DEPTH)
    (hb : ∀ f ∈ frames, f < 256 ^ ptrSize w)
    (hstart : startChannel w env index frames = some s0) :
    Sim w index s0 { free := frames, fillerHeld := none, filled := [], drainerHeld := none } := by
  unfold startChannel at hstart
  cases hinit : InitializeDecoders w env with
  | none => simp [hinit] at hstart
  | some g =>
    simp only [hinit] at hstart
    obtain ⟨e1, e2, e3⟩ := initDecoderQueues_spec w env NUM_SRC_STREAMS _ g 0 hinit index
      (by omega) (by omega)
    obtain ⟨q, hq⟩ := Option.isSome_iff_exists.1 e3
    have hq0 := create_queueHolds w env q hw hw2 hq
    have htake : frames.take DECODER_QUEUE_DEPTH = frames := by
      rw [← hlen]; exact List.take_length frames
    rw [htake] at hstart
    by_cases hnz : ∀ f ∈ frames, f ≠ 0
    · obtain ⟨g', hr, hsame, hq'⟩ := seed_spec w index (two_dvd_pow w (by omega)) frames g []
        (by rw [e2, hq]; exact hq0) (by simp [hlen]) hnz
      simp only [hr, Option.some.injEq] at hstart
      subst hstart
      refine ⟨rfl, rfl, by simpa using hq', ?_, ?_⟩
      · simp only [hsame, e1, hq]
        exact hq0
      · intro h hh
        simp only [Pool.handles, Option.toList, List.append_nil] at hh
        exact hb h hh
    · exfalso
      have hfalse : ∀ (fs : List Nat) (a : SrcQueues), (¬ ∀ f ∈ fs, f ≠ 0) →
          ∀ g', seedDecoderFrames w index a fs ≠ Outcome.returned (true, g') := by
        intro fs
        induction fs with
        | nil => intro a h; simp at h
        | cons f rest ih =>
          intro a h g' hcontra
          by_cases hf : f = 0
          · simp [seedDecoderFrames, hf] at hcontra
          · simp only [seedDecoderFrames, hf, if_false] at hcontra
            cases hr : ReturnFrameToDecoderQueue w a f index with
            | returned a' =>
              simp only [hr] at hcontra
              refine ih a' ?_ g' hcontra
              intro hall
              apply h
              intro x hx
              rcases List.mem_cons.1 hx with rfl | hx
              · exact hf
              · exact hall x hx
            | blocked => simp [hr] at hcontra
            | undefined => simp [hr] at hcontra
      cases hsd : seedDecoderFrames w index g frames with
      | returned r =>
        obtain ⟨b, g'⟩ := r
        cases b with
        | true => exact hfalse frames g hnz g' hsd
        | false => simp [hsd] at hstart
      | blocked => simp [hsd] at hstart
      | undefined => simp [hsd] at hstart

/-- Every sequence of operations of the channel is one of the pool of
section 4.2, with the same places for the frames. -/
theorem sim_run (w index : Nat) (hw : 0 < w) (sts : List ProtocolStep) :
    ∀ (s s' : DecoderChannel) (p : Pool), Sim w index s p →
      runProtocol w index s sts = some s' →
      ∃ p', runPool DECODER_QUEUE_DEPTH p sts = some p' ∧ Sim w index s' p' := by
  induction sts with
  | nil =>
    intro s s' p hsim hrun
    simp only [runProtocol, Option.some.injEq] at hrun
    subst hrun
    exact ⟨p, rfl, hsim⟩
  | cons st rest ih =>
    intro s s' p hsim hrun
    cases hp : poolStep DECODER_QUEUE_DEPTH p st with
    | none =>
      have := sim_step_none w index s p st hsim hp
      simp [runProtocol, this] at hrun
    | some p1 =>
      obtain ⟨s1, hs1, hsim1⟩ := sim_step w index s p p1 st (two_dvd_pow w hw) hw hsim hp
      simp only [runProtocol, hs1] at hrun
      obtain ⟨p', hp', hsim'⟩ := ih s1 s' p1 hsim1 hrun
      exact ⟨p', by simp only [runPool, hp, hp'], hsim'⟩

/-- Every sequence of operations of the pool of section 4.2 takes place in
the channel. -/
theorem sim_run_pool (w index : Nat) (hw : 0 < w) (sts : List ProtocolStep) :
    ∀ (s : DecoderChannel) (p p' : Pool), Sim w index s p →
      runPool DECODER_QUEUE_DEPTH p sts = some p' →
      ∃ s', runProtocol w index s sts = some s' ∧ Sim w index s' p' := by
  induction sts with
  | nil =>
    intro s p p' hsim hrun
    simp only [runPool, Option.some.injEq] at hrun
    subst hrun
    exact ⟨s, rfl, hsim⟩
  | cons st rest ih =>
    intro s p p' hsim hrun
    cases hp : poolStep DECODER_QUEUE_DEPTH p st with
    | none => simp [runPool, hp] at hrun
    | some p1 =>
      obtain ⟨s1, hs1, hsim1⟩ := sim_step w index s p p1 st (two_dvd_pow w hw) hw hsim hp
      simp only [runPool, hp] at hrun
      obtain ⟨s', hs', hsim'⟩ := ih s1 p1 p' hsim1 hrun
      exact ⟨s', by simp only [runProtocol, hs1, hs'], hsim'⟩

theorem runPool_perm (capacity : Nat) (sts : List ProtocolStep) :
    ∀ (p p' : Pool), runPool capacity p sts = some p' → List.Perm p'.handles p.handles := by
  induction sts with
  | nil =>
    intro p p' h
    simp only [runPool, Option.some.injEq] at h
    subst h
    exact List.Perm.refl _
  | cons st rest ih =>
    intro p p' h
    cases hp : poolStep capacity p st with
    | none => simp [runPool, hp] at h
    | some p1 =>
      simp only [runPool, hp] at h
      exact (ih p1 p' h).trans (poolStep_perm capacity p p1 st hp)

theorem places_of_sim (w index : Nat) (s : DecoderChannel) (p : Pool)
    (hsim : Sim w index s p) : s.places w index = p.handles := by
  obtain ⟨e1, e2, hfree, hfilled, hb⟩ := hsim
  have h1 := queueFrames_of_holds w _ _ hfree
    (fun h hh => hb h (by simp [Pool.handles, hh]))
  have h2 := queueFrames_of_holds w _ _ hfilled
    (fun h hh => hb h (by simp [Pool.handles, hh]))
  simp only [DecoderChannel.places, Pool.handles, h1, h2, e1, e2]

theorem usedOf_of_holds (w : Nat) (oq : Option msg_q) (hs : List Nat)
    (hq : QueueHolds w oq hs) : usedOf oq = hs.length := by
  obtain ⟨q, rfl, _, _, _, _, hrep⟩ := hq
  have := hrep.1
  simp only [List.length_map] at this
  simp only [usedOf, this]

/-- Every state a decoder channel reaches from its start is a pool of the
frames it was seeded with. -/
theorem channel_reachable (w index : Nat) (env : CreateEnv) (frames : List Nat)
    (sts : List ProtocolStep) (s0 s : DecoderChannel)
    (hw : 31 ≤ w) (hw2 : w ≤ 64) (hi : index < NUM_SRC_STREAMS)
    (hlen : frames.length = DECODER_QUEUE_DEPTH)
    (hb : ∀ f ∈ frames, f < 256 ^ ptrSize w)
    (hstart : startChannel w env index frames = some s0)
    (hrun : runProtocol w index s0 sts = some s) :
    ∃ p, Sim w index s p ∧ List.Perm p.handles frames := by
  have h0 := start_sim w index env frames s0 hw hw2 hi hlen hb hstart
  obtain ⟨p, hp, hsim⟩ := sim_run w index (by omega) sts s0 s _ h0 hrun
  refine ⟨p, hsim, ?_⟩
  have := runPool_perm _ sts _ p hp
  simpa [Pool.handles] using this

/-- In a pool of as many handles as a queue has slots, a handle in flight
with the filling role leaves a slot of `filled` free, and a full `filled`
leaves nothing in `free` or in flight. -/
theorem pool_counts (p : Pool) (frames : List Nat)
    (hperm : List.Perm p.handles frames) (hlen : frames.length = DECODER_QUEUE_DEPTH) :
    (p.fillerHeld.isSome = true → p.filled.length < DECODER_QUEUE_DEPTH) ∧
      (p.drainerHeld.isSome = true → p.free.length < DECODER_QUEUE_DEPTH) ∧
      (p.filled.length = DECODER_QUEUE_DEPTH →
        p.free = [] ∧ p.fillerHeld = none ∧ p.drainerHeld = none) := by
  have hl := hperm.length_eq
  rw [hlen] at hl
  obtain ⟨free, fh, filled, dh⟩ := p
  have hd : DECODER_QUEUE_DEPTH = 2 := rfl
  rw [hd] at hl ⊢
  simp only [Pool.handles, List.length_append] at hl
  have hz : ∀ l : List Nat, l.length = 0 → l = [] := fun l h => List.length_eq_zero.1 h
  cases fh with
  | none =>
    cases dh with
    | none =>
      simp only [Option.toList, List.length_nil] at hl
      exact ⟨fun h => by simp at h, fun h => by simp at h,
        fun h => ⟨hz free (by simp only at h; omega), rfl, rfl⟩⟩
    | some y =>
      simp only [Option.toList, List.length_nil, List.length_singleton] at hl
      exact ⟨fun h => by simp at h, fun _ => by simp only; omega,
        fun h => by simp only at h; omega⟩
  | some x =>
    cases dh with
    | none =>
      simp only [Option.toList, List.length_nil, List.length_singleton] at hl
      exact ⟨fun _ => by simp only; omega, fun h => by simp at h,
        fun h => by simp only at h; omega⟩
    | some y =>
      simp only [Option.toList, List.length_singleton] at hl
      exact ⟨fun _ => by simp only; omega, fun _ => by simp only; omega,
        fun h => by simp only at h; omega⟩

/-- While the decoder of a channel holds a frame its decoded queue has a
free slot and `SubmitFrameFromDecoder` returns; when the decoded queue is
full the decoder holds nothing, the returned queue is empty and the receive
of the decoder blocks. -/
theorem decoder_blocks_on_returned_queue (w index : Nat) (env : CreateEnv)
    (frames : List Nat) (sts : List ProtocolStep) (s0 s : DecoderChannel)
    (hw : 31 ≤ w) (hw2 : w ≤ 64) (hi : index < NUM_SRC_STREAMS)
    (hlen : frames.length = DECODER_QUEUE_DEPTH)
    (hb : ∀ f ∈ frames, f < 256 ^ ptrSize w)
    (hstart : startChannel w env index frames = some s0)
    (hrun : runProtocol w index s0 sts = some s) :
    (∀ f, s.decoderHeld = some f →
        usedOf (s.queues.FrameQueuesDecoded index) < DECODER_QUEUE_DEPTH ∧
          ∃ g', SubmitFrameFromDecoder w s.queues f index = Outcome.returned g') ∧
      (usedOf (s.queues.FrameQueuesDecoded index) = DECODER_QUEUE_DEPTH →
        s.decoderHeld = none ∧ usedOf (s.queues.FrameQueuesReturnedToDecoder index) = 0 ∧
          decoderReceiveFrame w s.queues index = Outcome.blocked) := by
  obtain ⟨p, hsim, hperm⟩ :=
    channel_reachable w index env frames sts s0 s hw hw2 hi hlen hb hstart hrun
  obtain ⟨c1, -, c3⟩ := pool_counts p frames hperm hlen
  obtain ⟨e1, e2, hfree, hfilled, hbound⟩ := hsim
  have u1 := usedOf_of_holds w _ _ hfilled
  have u2 := usedOf_of_holds w _ _ hfree
  refine ⟨fun f hf => ?_, fun hfull => ?_⟩
  · have hlt : p.filled.length < DECODER_QUEUE_DEPTH := c1 (by rw [← e1, hf]; rfl)
    obtain ⟨g', hr, -, -⟩ :=
      submitFrame_spec w index s.queues p.filled f (two_dvd_pow w (by omega)) hfilled hlt
    exact ⟨by rw [u1]; exact hlt, g', hr⟩
  · obtain ⟨d1, d2, -⟩ := c3 (by rw [← u1]; exact hfull)
    rw [d1] at hfree
    exact ⟨by rw [e1, d2], by rw [u2, d1]; rfl, decoderReceive_empty w index s.queues hfree⟩

/-- The decoder that publishes every frame it acquires fills its decoded
queue. -/
theorem decoded_queue_saturates (w index : Nat) (env : CreateEnv)
    (frames : List Nat) (s0 : DecoderChannel)
    (hw : 31 ≤ w) (hw2 : w ≤ 64) (hi : index < NUM_SRC_STREAMS)
    (hlen : frames.length = DECODER_QUEUE_DEPTH)
    (hb : ∀ f ∈ frames, f < 256 ^ ptrSize w)
    (hstart : startChannel w env index frames = some s0) :
    ∃ s, runProtocol w index s0
        [ProtocolStep.decoderAcquire, ProtocolStep.decoderPublish,
         ProtocolStep.decoderAcquire, ProtocolStep.decoderPublish] = some s ∧
      usedOf (s.queues.FrameQueuesDecoded index) = DECODER_QUEUE_DEPTH ∧
      queueFrames w (s.queues.FrameQueuesDecoded index) = frames := by
  have h0 := start_sim w index env frames s0 hw hw2 hi hlen hb hstart
  match frames, hlen with
  | [f1, f2], _ =>
    have hp : runPool DECODER_QUEUE_DEPTH
        { free := [f1, f2], fillerHeld := none, filled := [], drainerHeld := none }
        [ProtocolStep.decoderAcquire, ProtocolStep.decoderPublish,
         ProtocolStep.decoderAcquire, ProtocolStep.decoderPublish]
        = some { free := [], fillerHeld := none, filled := [f1, f2], drainerHeld := none } := by
      simp [runPool, poolStep, DECODER_QUEUE_DEPTH]
    obtain ⟨s, hs, hsim⟩ := sim_run_pool w index (by omega) _ s0 _ _ h0 hp
    obtain ⟨-, -, -, hfilled, hbound⟩ := hsim
    refine ⟨s, hs, ?_, ?_⟩
    · rw [usedOf_of_holds w _ _ hfilled]; rfl
    · exact queueFrames_of_holds w _ _ hfilled
        (fun h hh => hbound h (by simp only [Pool.handles]; simp at hh ⊢; tauto))

/-- The frames of the seeding loop are in the returned queue, the queue the
decoder receives from, in the order they were allocated, and the decoded
queue is empty. -/
theorem decoder_frames_seeded_into_returned_queue (w index : Nat) (env : CreateEnv)
    (frames : List Nat) (s0 : DecoderChannel)
    (hw : 31 ≤ w) (hw2 : w ≤ 64) (hi : index < NUM_SRC_STREAMS)
    (hlen : frames.length = DECODER_QUEUE_DEPTH)
    (hb : ∀ f ∈ frames, f < 256 ^ ptrSize w)
    (hstart : startChannel w env index frames = some s0) :
    queueFrames w (s0.queues.FrameQueuesReturnedToDecoder index) = frames ∧
      usedOf (s0.queues.FrameQueuesReturnedToDecoder index) = DECODER_QUEUE_DEPTH ∧
      usedOf (s0.queues.FrameQueuesDecoded index) = 0 ∧
      s0.decoderHeld = none ∧ s0.rendererHeld = none := by
  obtain ⟨e1, e2, hfree, hfilled, hbound⟩ :=
    start_sim w index env frames s0 hw hw2 hi hlen hb hstart
  refine ⟨queueFrames_of_holds w _ _ hfree hb, ?_, ?_, e1, e2⟩
  · rw [usedOf_of_holds w _ _ hfree]; exact hlen
  · rw [usedOf_of_holds w _ _ hfilled]; rfl

/-! ## A further reachable state of the three-slot queue -/

/-- The empty queue of three one-byte slots with `head = 2 ^ 64 - 2` is reached
from the queue `msgQCreate` returns. -/
theorem emptyQ3_near_max_reachable : ∃ q0, msgQCreate 64 3 1 MSG_Q_FIFO zeroEnv = some q0 ∧
    runCalls 64 q0 (pump (2 ^ 64 - 2)) = some (emptyQ3 (2 ^ 64 - 2)) := by
  refine ⟨emptyQ3 0, rfl, ?_⟩
  rw [pump_run 64 (by norm_num) (2 ^ 64 - 2) 0 (by norm_num)]
  norm_num

/-! ## Storage size, slot indices and results of a receive -/

/-- While the `int` product of the two arguments of `msgQCreate` does not
wrap, the storage is exactly `capacity * maxMsgLength` bytes and holds every
slot. -/
theorem create_storage_exact (w : Nat) (maxMsgs maxMsgLength options : Int) (env : CreateEnv)
    (q : msg_q) (hw : 31 ≤ w) (h1 : maxMsgs < 2 ^ 31) (h2 : maxMsgLength < 2 ^ 31)
    (hprod : maxMsgLength * maxMsgs < 2 ^ 31)
    (h : msgQCreate w maxMsgs maxMsgLength options env = some q) :
    q.data.size = q.capacity * q.maxMsgLength ∧
      ∀ i, i < q.capacity → i * q.maxMsgLength + q.maxMsgLength ≤ q.data.size := by
  obtain ⟨p1, p2, e1, e2, e3, e4, e5, e6⟩ :=
    create_fields w maxMsgs maxMsgLength options env q h
  have c1 := int_to_size_of_lt w maxMsgs (le_of_lt p1) h1 hw
  have c2 := int_to_size_of_lt w maxMsgLength (le_of_lt p2) h2 hw
  have hpos : 0 ≤ maxMsgLength * maxMsgs := le_of_lt (Int.mul_pos p2 p1)
  have c3 : to_int (maxMsgLength * maxMsgs) = maxMsgLength * maxMsgs := by
    have := to_int_of_lt (maxMsgLength * maxMsgs).toNat (by omega)
    rwa [Int.toNat_of_nonneg hpos] at this
  have c4 := int_to_size_of_lt w (maxMsgLength * maxMsgs) hpos hprod hw
  rw [← e1] at c1
  rw [← e3] at c2
  rw [← c3, ← e6] at c4
  have hsz : q.data.size = q.capacity * q.maxMsgLength := by
    have : (q.data.size : Int) = ((q.capacity * q.maxMsgLength : Nat) : Int) := by
      push_cast
      rw [c1, c2, c4, c3, mul_comm]
    exact_mod_cast this
  refine ⟨hsz, fun i hi => ?_⟩
  rw [hsz]
  have : (i + 1) * q.maxMsgLength ≤ q.capacity * q.maxMsgLength :=
    Nat.mul_le_mul_right _ hi
  have e : (i + 1) * q.maxMsgLength = i * q.maxMsgLength + q.maxMsgLength := by ring
  omega

/-- When the capacity divides `2 ^ w`, the slot index follows `head` through
its wrap-around. -/
theorem slot_mapping_of_dvd (w c h u : Nat) (hd : c ∣ 2 ^ w) :
    size_add w h 1 % c = (h % c + 1) % c ∧ size_add w h u % c = (h % c + u) % c := by
  unfold size_add
  rw [mod_mod_of_dvd_pow w c (h + 1) hd, mod_mod_of_dvd_pow w c (h + u) hd]
  constructor
  · rw [Nat.add_mod, Nat.add_mod (h % c) 1, Nat.mod_mod]
  · rw [Nat.add_mod, Nat.add_mod (h % c) u, Nat.mod_mod]

/-- While `head + used` does not wrap, the slot index follows `head`. -/
theorem slot_mapping_of_no_wrap (w c h u : Nat) (hu : 0 < u) (hnw : h + u < 2 ^ w) :
    size_add w h 1 % c = (h % c + 1) % c ∧ size_add w h u % c = (h % c + u) % c := by
  unfold size_add
  rw [Nat.mod_eq_of_lt (by omega : h + 1 < 2 ^ w), Nat.mod_eq_of_lt hnw]
  constructor
  · rw [Nat.add_mod, Nat.add_mod (h % c) 1, Nat.mod_mod]
  · rw [Nat.add_mod, Nat.add_mod (h % c) u, Nat.mod_mod]

/-- While `capacity + head` does not wrap, the slot a send writes holds no
queued message. -/
theorem send_slot_free_of_no_wrap (w : Nat) (q : msg_q) (i : Nat) (hwf : WF w q)
    (hlt : q.used < q.capacity) (hnw : q.capacity + q.head < 2 ^ w) (hi : i < q.used) :
    sendIdx w q MSG_PRI_NORMAL = (q.head + q.used) % q.capacity ∧
      sendIdx w q MSG_PRI_URGENT = (q.capacity + q.head - 1) % q.capacity ∧
      sendIdx w q MSG_PRI_NORMAL ≠ (q.head + i) % q.capacity ∧
      sendIdx w q MSG_PRI_URGENT ≠ (q.head + i) % q.capacity := by
  have hpos := hwf.1
  have e1 : sendIdx w q MSG_PRI_NORMAL = (q.head + q.used) % q.capacity := by
    have hne : ¬ (MSG_PRI_URGENT = MSG_PRI_NORMAL) := by decide
    unfold sendIdx size_add
    rw [if_neg hne, Nat.mod_eq_of_lt (by omega : q.head + q.used < 2 ^ w)]
  have e2 : sendIdx w q MSG_PRI_URGENT = (q.capacity + q.head - 1) % q.capacity := by
    have h1 : 1 % 2 ^ w = 1 := Nat.mod_eq_of_lt (by omega)
    have h2 : (q.capacity + q.head) % 2 ^ w = q.capacity + q.head := Nat.mod_eq_of_lt hnw
    have h3 : q.capacity + q.head + 2 ^ w - 1 = (q.capacity + q.head - 1) + 2 ^ w := by omega
    unfold sendIdx sendHead size_sub size_add
    rw [if_pos rfl, if_pos rfl, h2, h2, h1, h3, Nat.add_mod_right,
      Nat.mod_eq_of_lt (by omega : q.capacity + q.head - 1 < 2 ^ w), Nat.mod_mod]
  refine ⟨e1, e2, ?_, ?_⟩
  · rw [e1]
    exact (mod_add_ne q.head i q.used q.capacity hi hlt).symm
  · rw [e2]
    intro heq
    have h3 := urgent_slot q.capacity q.head i hpos
    rw [heq, Nat.add_mod, Nat.mod_mod, ← Nat.add_mod] at h3
    have h4 := mod_add_ne (q.head + i) 0 (i + 1) q.capacity (by omega) (by omega)
    apply h4
    rw [Nat.add_zero]
    have : q.head + i + (i + 1) = q.head + i + (i + 1) := rfl
    omega

/-- The value of `timeout` enters a receive only through the test
`timeout == MSG_Q_WAIT_FOREVER`. -/
theorem receive_timeout_irrelevant (w : Nat) (msgQId : Option msg_q) (buffer : Nat → Nat)
    (maxNBytes : Nat) (t1 t2 : Int) (h1 : t1 ≠ MSG_Q_WAIT_FOREVER)
    (h2 : t2 ≠ MSG_Q_WAIT_FOREVER) :
    msgQReceive w msgQId buffer maxNBytes t1 = msgQReceive w msgQId buffer maxNBytes t2 := by
  cases msgQId with
  | none => rfl
  | some q => simp only [msgQReceive, h1, h2, if_false]

/-- A frame with the renderer leaves a free slot in the returned queue, and
`ReturnFrameToDecoderQueue` returns. -/
theorem renderer_release_returns (w index : Nat) (env : CreateEnv)
    (frames : List Nat) (sts : List ProtocolStep) (s0 s : DecoderChannel) (f : Nat)
    (hw : 31 ≤ w) (hw2 : w ≤ 64) (hi : index < NUM_SRC_STREAMS)
    (hlen : frames.length = DECODER_QUEUE_DEPTH)
    (hb : ∀ f ∈ frames, f < 256 ^ ptrSize w)
    (hstart : startChannel w env index frames = some s0)
    (hrun : runProtocol w index s0 sts = some s)
    (hheld : s.rendererHeld = some f) :
    usedOf (s.queues.FrameQueuesReturnedToDecoder index) < DECODER_QUEUE_DEPTH ∧
      ∃ g', ReturnFrameToDecoderQueue w s.queues f index = Outcome.returned g' ∧
        usedOf (g'.FrameQueuesReturnedToDecoder index)
          = usedOf (s.queues.FrameQueuesReturnedToDecoder index) + 1 ∧
        g'.FrameQueuesDecoded = s.queues.FrameQueuesDecoded := by
  obtain ⟨p, hsim, hperm⟩ :=
    channel_reachable w index env frames sts s0 s hw hw2 hi hlen hb hstart hrun
  obtain ⟨-, c2, -⟩ := pool_counts p frames hperm hlen
  obtain ⟨e1, e2, hfree, hfilled, hbound⟩ := hsim
  have hlt : p.free.length < DECODER_QUEUE_DEPTH := c2 (by rw [← e2, hheld]; rfl)
  have u2 := usedOf_of_holds w _ _ hfree
  obtain ⟨g', hr, hsame, hq'⟩ :=
    returnFrame_spec w index s.queues p.free f (two_dvd_pow w (by omega)) hfree hlt
  refine ⟨by rw [u2]; exact hlt, g', hr, ?_, hsame⟩
  rw [usedOf_of_holds w _ _ hq', u2, List.length_append, List.length_singleton]

/-- On a destroyed returned queue an iteration of the decoder loop that read a
packet ends in `continue`: it does not reach `done`. -/
theorem decoderIteration_on_destroyed (w : Nat) (g : SrcQueues)
    (thisDecoderIndex decodedFrameIndex : Nat) (p : PacketRead) (q : msg_q)
    (hq : g.FrameQueuesReturnedToDecoder thisDecoderIndex = some q)
    (hd : q.isDestroyed ≠ 0) (hs : sizeofFrameData w < 2 ^ w - 1)
    (hp : 0 ≤ p.av_read_frame) :
    ∃ g', decoderIteration w g thisDecoderIndex decodedFrameIndex p
        = Outcome.returned (some (g', size_add w decodedFrameIndex 1)) ∧
      g'.FrameQueuesReturnedToDecoder thisDecoderIndex = some q ∧
      g'.FrameQueuesDecoded = g.FrameQueuesDecoded := by
  have hnp : ¬ (p.av_read_frame < 0) := by omega
  have hne : ¬ (2 ^ w - 1 = sizeofFrameData w) := by omega
  by_cases hsame : p.sameStream = false
  · exact ⟨g, by simp only [decoderIteration, hnp, if_false, hsame, if_true], hq, rfl⟩
  · refine ⟨{ g with
      FrameQueuesReturnedToDecoder :=
        Function.update g.FrameQueuesReturnedToDecoder thisDecoderIndex (some q) }, ?_,
      by simp, rfl⟩
    simp only [decoderIteration, hnp, if_false, hsame, decoderReceiveFrame, hq,
      receive_destroyed_eq w q _ _ _ hd, int_to_size_error, ne_eq, hne, not_false_eq_true,
      if_true, Bool.true_eq_false]

/-- The decoder loop on a destroyed returned queue is still running after any
number of packets read: only a failing `av_read_frame` ends it. -/
theorem decoderMainLoop_on_destroyed (w : Nat) (thisDecoderIndex : Nat) (q : msg_q)
    (hd : q.isDestroyed ≠ 0) (hs : sizeofFrameData w < 2 ^ w - 1) (ps : List PacketRead) :
    ∀ (g : SrcQueues) (decodedFrameIndex : Nat),
      g.FrameQueuesReturnedToDecoder thisDecoderIndex = some q →
      (∀ p ∈ ps, 0 ≤ p.av_read_frame) →
      ∃ g', decoderMainLoop w thisDecoderIndex g decodedFrameIndex ps
          = Outcome.returned (false, g') ∧
        g'.FrameQueuesReturnedToDecoder thisDecoderIndex = some q := by
  induction ps with
  | nil =>
    intro g n hq _
    exact ⟨g, rfl, hq⟩
  | cons p ps ih =>
    intro g n hq hall
    obtain ⟨g1, h1, hq1, -⟩ := decoderIteration_on_destroyed w g thisDecoderIndex n p q hq hd hs
      (hall p (by simp))
    obtain ⟨g', h', hq'⟩ := ih g1 (size_add w n 1) hq1 (fun x hx => hall x (by simp [hx]))
    exact ⟨g', by simp only [decoderMainLoop, h1, h'], hq'⟩

/-! ## `TryReceiveDecodedFrame` on any queue of a decoder channel -/

theorem ptrOfBytes_congr (b b' : Nat → Nat) (n : Nat) : ∀ off : Nat,
    (∀ i, i < n → b (off + i) = b' (off + i)) → ptrOfBytes b off n = ptrOfBytes b' off n := by
  induction n with
  | zero => intro off _; rfl
  | succ n ih =>
    intro off h
    simp only [ptrOfBytes]
    have h0 := h 0 (by omega)
    rw [Nat.add_zero] at h0
    rw [h0, ih (off + 1) (fun i hi => by
      have := h (i + 1) (by omega)
      rw [show off + 1 + i = off + (i + 1) by ring]
      exact this)]

/-- A record read from memory depends on the bytes of the record only. -/
theorem ofBytes_congr (w : Nat) (b b' : Nat → Nat)
    (h : ∀ i, i < sizeofFrameData w → b i = b' i) :
    FrameData.ofBytes w b = FrameData.ofBytes w b' := by
  unfold FrameData.ofBytes
  have h1 := ptrOfBytes_congr b b' (ptrSize w) 0 (fun i hi => by
    rw [Nat.zero_add]; exact h i (by unfold sizeofFrameData; omega))
  have h2 := ptrOfBytes_congr b b' (ptrSize w) (ptrSize w) (fun i hi =>
    h _ (by unfold sizeofFrameData; omega))
  rw [h1, h2]

/-- A receive of a whole record from a live queue of a decoder channel that
holds one takes the first record off the queue and hands it to the caller. -/
theorem receive_record (w : Nat) (q : msg_q) (buffer : Nat → Nat) (timeout : Int)
    (hd : q.capacity ∣ 2 ^ w) (hwf : WF w q) (hlen : q.maxMsgLength = sizeofFrameData w)
    (hlive : q.isDestroyed = 0) (hpos : 0 < q.used) :
    ∃ q' buffer', msgQReceive w (some q) buffer (sizeofFrameData w) timeout
        = Outcome.returned ((sizeofFrameData w : Int), q', buffer') ∧
      q'.used + 1 = q.used ∧ q'.isDestroyed = 0 ∧
      queueRecords w (some q) = FrameData.ofBytes w buffer' :: queueRecords w (some q') := by
  obtain ⟨q', b', hs, e1, e2, e3, e4, e5, -, e7, e8⟩ :=
    receive_step_wrap w q buffer (sizeofFrameData w) timeout hwf hlive hpos
  rw [← hlen, Nat.min_self] at hs e7 e8
  refine ⟨q', b', by rw [← hlen]; exact hs, by omega, by rw [e5]; exact hlive, ?_⟩
  have hu : q.used = q'.used + 1 := by omega
  have hcap := hwf.2.1
  simp only [queueRecords]
  rw [hu, List.range_succ_eq_map, List.map_cons, List.map_map]
  congr 1
  · apply ofBytes_congr
    intro i hi
    rw [e8, memcpy_inside _ _ _ _ _ _ ⟨by omega, by omega⟩]
    simp only [Nat.add_zero, Nat.sub_zero]
  · apply List.map_congr_left
    intro k hk
    have hk' : k < q'.used := List.mem_range.1 hk
    simp only [Function.comp]
    apply ofBytes_congr
    intro i hi
    have hslot : (q'.head + k) % q'.capacity = (q.head + (k + 1)) % q.capacity := by
      rw [e1, e3, Nat.add_mod, mod_mod_of_dvd_pow w q.capacity (q.head + 1) hd, ← Nat.add_mod]
      congr 1
      omega
    have hne : (q.head + (k + 1)) % q.capacity ≠ q.head % q.capacity := by
      have := mod_add_ne q.head 0 (k + 1) q.capacity (by omega) (by omega)
      rw [Nat.add_zero] at this
      exact fun h => this h.symm
    rw [hslot, e2, e7]
    exact (memset_outside _ _ _ _ _
      (slot_disjoint _ _ _ _ _ hne (by omega) (le_refl _))).symm

/-- What `TryReceiveDecodedFrame` does on every queue of a decoder channel. -/
theorem tryReceive_general (w src_idx : Nat) (g : SrcQueues) (q : msg_q) (frameData : FrameData)
    (hw : 0 < w) (hq : g.FrameQueuesDecoded src_idx = some q) (hwf : WF w q)
    (hcap : q.capacity = DECODER_QUEUE_DEPTH) (hlen : q.maxMsgLength = sizeofFrameData w)
    (hf : frameData.frame < 256 ^ ptrSize w) (hr : frameData.rawPixelData < 256 ^ ptrSize w) :
    ∃ ok fd' g',
      TryReceiveDecodedFrame w g frameData src_idx = Outcome.returned (ok, fd', g') ∧
      (ok = true ↔ q.isDestroyed = 0 ∧ 0 < q.used) ∧
      (ok = true →
        queueRecords w (g.FrameQueuesDecoded src_idx)
            = fd' :: queueRecords w (g'.FrameQueuesDecoded src_idx) ∧
          usedOf (g'.FrameQueuesDecoded src_idx) + 1 = usedOf (g.FrameQueuesDecoded src_idx)) ∧
      (ok = false → g' = g ∧ fd' = frameData) ∧
      g'.FrameQueuesReturnedToDecoder = g.FrameQueuesReturnedToDecoder ∧
      ∀ j, j ≠ src_idx → g'.FrameQueuesDecoded j = g.FrameQueuesDecoded j := by
  have hsz : 2 * sizeofFrameData w < 2 ^ w := by
    have := hwf.2.2.2.2.2
    rw [hcap, hlen] at this
    exact this
  have h2w : 2 ≤ 2 ^ w := by
    calc 2 = 2 ^ 1 := rfl
      _ ≤ 2 ^ w := Nat.pow_le_pow_right (by norm_num) hw
  have hne : ¬ (2 ^ w - 1 = sizeofFrameData w) := by omega
  have hnw : ¬ (MSG_Q_NO_WAIT = MSG_Q_WAIT_FOREVER) := by decide
  have hsame : ({ g with
      FrameQueuesDecoded := Function.update g.FrameQueuesDecoded src_idx (some q) } : SrcQueues)
      = g := by
    rw [← hq, Function.update_eq_self]
  have hfd : FrameData.ofBytes w (FrameData.toBytes w frameData) = frameData :=
    ofBytes_of_toBytes w frameData _ hf hr (fun _ _ => rfl)
  by_cases hlive : q.isDestroyed = 0
  · by_cases hpos : 0 < q.used
    · obtain ⟨q', b', hrecv, hu, -, hrec⟩ :=
        receive_record w q (FrameData.toBytes w frameData) MSG_Q_NO_WAIT
          (by rw [hcap]; exact two_dvd_pow w hw) hwf hlen hlive hpos
      refine ⟨true, FrameData.ofBytes w b', { g with
        FrameQueuesDecoded := Function.update g.FrameQueuesDecoded src_idx (some q') }, ?_,
        ⟨fun _ => ⟨hlive, hpos⟩, fun _ => rfl⟩, fun _ => ⟨?_, ?_⟩, fun h => by simp at h, rfl,
        fun j hj => by simp [Function.update_noteq hj]⟩
      · simp only [TryReceiveDecodedFrame, hq, hrecv,
          int_to_size_natCast w (sizeofFrameData w) (by omega), decide_True]
      · simp only [Function.update_same, hq]
        exact hrec
      · simp only [Function.update_same, hq, usedOf]
        exact hu
    · have hempty : q.used = 0 := by omega
      refine ⟨false, FrameData.ofBytes w (FrameData.toBytes w frameData), { g with
        FrameQueuesDecoded := Function.update g.FrameQueuesDecoded src_idx (some q) }, ?_,
        ⟨fun h => by simp at h, fun h => absurd h.2 hpos⟩, fun h => by simp at h,
        fun _ => ⟨hsame, hfd⟩, rfl, fun j hj => by simp [Function.update_noteq hj]⟩
      simp only [TryReceiveDecodedFrame, hq, receive_empty_eq w q _ _ _ hlive hempty, hnw,
        if_false, int_to_size_error, hne, decide_False]
  · refine ⟨false, FrameData.ofBytes w (FrameData.toBytes w frameData), { g with
      FrameQueuesDecoded := Function.update g.FrameQueuesDecoded src_idx (some q) }, ?_,
      ⟨fun h => by simp at h, fun h => absurd h.1 hlive⟩, fun h => by simp at h,
      fun _ => ⟨hsame, hfd⟩, rfl, fun j hj => by simp [Function.update_noteq hj]⟩
    simp only [TryReceiveDecodedFrame, hq, receive_destroyed_eq w q _ _ _ hlive,
      int_to_size_error, hne, decide_False]

/-! ## One polling pass of the renderer over the channels -/

/-- `TryReceiveDecodedFrame` touches the decoded queue of its stream only. -/
theorem tryReceive_other (w i : Nat) (g g' : SrcQueues) (fd fd' : FrameData) (ok : Bool)
    (h : TryReceiveDecodedFrame w g fd i = Outcome.returned (ok, fd', g')) :
    g'.FrameQueuesReturnedToDecoder = g.FrameQueuesReturnedToDecoder ∧
      ∀ j, j ≠ i → g'.FrameQueuesDecoded j = g.FrameQueuesDecoded j := by
  unfold TryReceiveDecodedFrame at h
  cases hr : msgQReceive w (g.FrameQueuesDecoded i) (FrameData.toBytes w fd)
      (sizeofFrameData w) MSG_Q_NO_WAIT with
  | returned r =>
    obtain ⟨rc, q', b'⟩ := r
    simp only [hr, Outcome.returned.injEq, Prod.mk.injEq] at h
    obtain ⟨-, -, rfl⟩ := h
    exact ⟨rfl, fun j hj => by simp [Function.update_noteq hj]⟩
  | blocked => simp [hr] at h
  | undefined => simp [hr] at h

/-- `ReturnFrameToDecoderQueue` touches the returned queue of its stream
only. -/
theorem returnFrame_other (w i : Nat) (g g' : SrcQueues) (f : Nat)
    (h : ReturnFrameToDecoderQueue w g f i = Outcome.returned g') :
    g'.FrameQueuesDecoded = g.FrameQueuesDecoded ∧
      ∀ j, j ≠ i → g'.FrameQueuesReturnedToDecoder j = g.FrameQueuesReturnedToDecoder j := by
  unfold ReturnFrameToDecoderQueue at h
  cases hr : msgQSend w (g.FrameQueuesReturnedToDecoder i)
      (FrameData.toBytes w { frame := f, rawPixelData := 0 }) (sizeofFrameData w)
      MSG_Q_WAIT_FOREVER MSG_PRI_NORMAL with
  | returned r =>
    obtain ⟨rc, q'⟩ := r
    simp only [hr, Outcome.returned.injEq] at h
    subst h
    exact ⟨rfl, fun j hj => by simp [Function.update_noteq hj]⟩
  | blocked => simp [hr] at h
  | undefined => simp [hr] at h

/-- The polling loop from stream `i0` on for `n` streams, on channels that
hold no more than `DECODER_QUEUE_DEPTH` frames each in their queues: it
returns; a channel with an empty decoded queue keeps its queues, a channel
with a decoded frame has it moved to its returned queue; the queues of the
streams outside the range are kept. -/
theorem renderPoll_spec (w : Nat) (hw : 0 < w) (free filled : Nat → List Nat) (n : Nat) :
    ∀ (g : SrcQueues) (i0 : Nat),
      (∀ j, i0 ≤ j → j < i0 + n →
        QueueHolds w (g.FrameQueuesReturnedToDecoder j) (free j) ∧
          QueueHolds w (g.FrameQueuesDecoded j) (filled j) ∧
          (free j).length + (filled j).length ≤ DECODER_QUEUE_DEPTH ∧
          ∀ h ∈ filled j, h < 256 ^ ptrSize w) →
      ∃ g', renderPoll w g i0 n = Outcome.returned g' ∧
        (∀ j, i0 ≤ j → j < i0 + n →
          (filled j = [] →
            g'.FrameQueuesDecoded j = g.FrameQueuesDecoded j ∧
              g'.FrameQueuesReturnedToDecoder j = g.FrameQueuesReturnedToDecoder j) ∧
          (∀ h rest, filled j = h :: rest →
            QueueHolds w (g'.FrameQueuesDecoded j) rest ∧
              QueueHolds w (g'.FrameQueuesReturnedToDecoder j) (free j ++ [h]))) ∧
        (∀ j, ¬ (i0 ≤ j ∧ j < i0 + n) →
          g'.FrameQueuesDecoded j = g.FrameQueuesDecoded j ∧
            g'.FrameQueuesReturnedToDecoder j = g.FrameQueuesReturnedToDecoder j) := by
  induction n with
  | zero =>
    intro g i0 _
    exact ⟨g, rfl, fun j h1 h2 => by omega, fun j _ => ⟨rfl, rfl⟩⟩
  | succ n ih =>
    intro g i0 hyp
    obtain ⟨hfree, hfilled, hpool, hb⟩ := hyp i0 (le_refl _) (by omega)
    -- the iteration at `i0`
    have step : ∃ g2, renderPoll w g i0 (n + 1) = renderPoll w g2 (i0 + 1) n ∧
        (∀ j, j ≠ i0 → g2.FrameQueuesDecoded j = g.FrameQueuesDecoded j ∧
          g2.FrameQueuesReturnedToDecoder j = g.FrameQueuesReturnedToDecoder j) ∧
        (filled i0 = [] →
          g2.FrameQueuesDecoded i0 = g.FrameQueuesDecoded i0 ∧
            g2.FrameQueuesReturnedToDecoder i0 = g.FrameQueuesReturnedToDecoder i0) ∧
        (∀ h rest, filled i0 = h :: rest →
          QueueHolds w (g2.FrameQueuesDecoded i0) rest ∧
            QueueHolds w (g2.FrameQueuesReturnedToDecoder i0) (free i0 ++ [h])) := by
      cases hfl : filled i0 with
      | nil =>
        rw [hfl] at hfilled
        obtain ⟨fd, g1, hr, hsame, hq1⟩ := tryReceive_empty w i0 g hw hfilled
        obtain ⟨o1, o2⟩ := tryReceive_other w i0 g g1 _ _ _ hr
        obtain ⟨q, hqe, hrecv⟩ := queueHolds_receive_empty w _
          (FrameData.toBytes w { frame := 0, rawPixelData := 0 }) (sizeofFrameData w)
          MSG_Q_NO_WAIT hfilled
        have hnw : ¬ (MSG_Q_NO_WAIT = MSG_Q_WAIT_FOREVER) := by decide
        have hg1 : g1.FrameQueuesDecoded i0 = g.FrameQueuesDecoded i0 := by
          unfold TryReceiveDecodedFrame at hr
          rw [hrecv, if_neg hnw] at hr
          simp only [Outcome.returned.injEq, Prod.mk.injEq] at hr
          obtain ⟨-, -, rfl⟩ := hr
          simp [hqe]
        refine ⟨g1, ?_, fun j hj => ⟨o2 j hj, by rw [o1]⟩, fun _ => ⟨hg1, by rw [o1]⟩,
          fun h rest he => by simp at he⟩
        simp only [renderPoll, hr, Bool.false_eq_true, if_false]
      | cons h rest =>
        rw [hfl] at hfilled hpool hb
        have hh : h < 256 ^ ptrSize w := hb h (by simp)
        obtain ⟨g1, hr, hsame, hq1⟩ :=
          tryReceive_spec w i0 g h rest (two_dvd_pow w hw) hfilled hh
        obtain ⟨o1, o2⟩ := tryReceive_other w i0 g g1 _ _ _ hr
        have hfree1 : QueueHolds w (g1.FrameQueuesReturnedToDecoder i0) (free i0) := by
          rw [o1]; exact hfree
        have hlt : (free i0).length < DECODER_QUEUE_DEPTH := by
          simp only [List.length_cons] at hpool
          omega
        obtain ⟨g2, hr2, hsame2, hq2⟩ :=
          returnFrame_spec w i0 g1 (free i0) h (two_dvd_pow w hw) hfree1 hlt
        obtain ⟨p1, p2⟩ := returnFrame_other w i0 g1 g2 h hr2
        refine ⟨g2, ?_, fun j hj => ⟨by rw [p1]; exact o2 j hj, by rw [p2 j hj, o1]⟩,
          fun he => by simp at he, fun h' rest' he => ?_⟩
        · simp only [renderPoll, hr, if_true, hr2]
        · simp only [List.cons.injEq] at he
          obtain ⟨rfl, rfl⟩ := he
          exact ⟨by rw [p1]; exact hq1, hq2⟩
    obtain ⟨g2, hstep, hother, hnil, hcons⟩ := step
    obtain ⟨g', hrun, hin, hout⟩ := ih g2 (i0 + 1) (fun j h1 h2 => by
      have hne : j ≠ i0 := by omega
      obtain ⟨a, b⟩ := hother j hne
      rw [a, b]
      exact hyp j (by omega) (by omega))
    refine ⟨g', by rw [hstep]; exact hrun, fun j h1 h2 => ?_, fun j hj => ?_⟩
    · by_cases hj : j = i0
      · subst hj
        obtain ⟨a, b⟩ := hout j (by omega)
        refine ⟨fun he => ?_, fun h rest he => ?_⟩
        · obtain ⟨c, d⟩ := hnil he
          exact ⟨by rw [a, c], by rw [b, d]⟩
        · obtain ⟨c, d⟩ := hcons h rest he
          exact ⟨by rw [a]; exact c, by rw [b]; exact d⟩
      · obtain ⟨a, b⟩ := hother j hj
        obtain ⟨c, d⟩ := hin j (by omega) (by omega)
        refine ⟨fun he => ?_, fun h rest he => d h rest he⟩
        obtain ⟨e, f⟩ := c he
        exact ⟨by rw [e, a], by rw [f, b]⟩
    · obtain ⟨a, b⟩ := hout j (by omega)
      obtain ⟨c, d⟩ := hother j (by omega)
      exact ⟨by rw [a, c], by rw [b, d]⟩

/-! ## URGENT sends in a row, while the counters do not wrap -/

theorem admissible_urgentAll (capacity : Nat) (rest : List Call) (ps : List Msg) : ∀ used,
    used + ps.length ≤ capacity → Admissible capacity (used + ps.length) rest →
    Admissible capacity used (urgentAll ps ++ rest) := by
  induction ps with
  | nil => intro used _ h; simpa [urgentAll] using h
  | cons p ps ih =>
    intro used hle h
    simp only [List.length_cons] at hle h
    refine ⟨by omega, ?_⟩
    apply ih (used + 1) (by omega)
    rw [show used + 1 + ps.length = used + (ps.length + 1) by omega]
    exact h

theorem specRun_urgentAll (slotSize : Nat) (rest : List Call) (ps : List Msg) :
    ∀ ms, (∀ p ∈ ps, p.len ≤ slotSize) →
    specRun slotSize ms (urgentAll ps ++ rest) = specRun slotSize (ps.reverse ++ ms) rest := by
  induction ps with
  | nil => intro ms _; simp [urgentAll]
  | cons p ps ih =>
    intro ms h
    have hp : min p.len slotSize = p.len := Nat.min_eq_left (h p (by simp))
    have := ih (p :: ms) (fun x hx => h x (by simp [hx]))
    simp only [urgentAll] at this
    simp only [urgentAll, List.map_cons, List.cons_append, specRun, if_true, hp,
      List.reverse_cons, List.append_assoc, List.singleton_append]
    exact this

/-- Last in, first out for URGENT sends while the counters stay below the
`size_t` limit: on a live queue holding `ms`, after the URGENT sends of `us`
the receives deliver `us` in reverse order and then `ms`. -/
theorem urgent_lifo_of_no_wrap (w : Nat) (q : msg_q) (ms us : List Msg) (maxNBytes : Nat)
    (hwf : WF w q) (hlive : q.isDestroyed = 0) (hrep : Rep q ms)
    (hroom : ms.length + us.length ≤ q.capacity)
    (hlen : ∀ p ∈ us, p.len ≤ q.maxMsgLength)
    (hnw : max q.head q.capacity + 3 * q.capacity < 2 ^ w) :
    ∃ q' out,
      runTrace w q (urgentAll us ++ receiveN (us.reverse ++ ms).length maxNBytes)
        = some (q', out) ∧
      q'.used = 0 ∧
      List.Forall₂ Delivered out
        ((us.reverse ++ ms).map (fun m => (m, min maxNBytes q.maxMsgLength))) := by
  have hl : ms.length = q.used := hrep.1
  have hlen' : (us.reverse ++ ms).length = ms.length + us.length := by
    simp only [List.length_append, List.length_reverse]
    omega
  obtain ⟨q', out, r1, -, -, -, -, r6, r7⟩ :=
    run_refines_spec w (urgentAll us ++ receiveN (us.reverse ++ ms).length maxNBytes)
      q ms hwf hlive hrep
      (admissible_urgentAll _ _ _ _ (by omega)
        (admissible_receiveN _ _ _ _ (by rw [hlen']; omega)))
      (by
        simp only [List.length_append, urgentAll, List.length_map, receiveN,
          List.length_replicate, List.length_reverse]
        omega)
  have hs : specRun q.maxMsgLength ms
      (urgentAll us ++ receiveN (us.reverse ++ ms).length maxNBytes)
      = ([], (us.reverse ++ ms).map (fun m => (m, min maxNBytes q.maxMsgLength))) := by
    rw [specRun_urgentAll _ _ _ _ hlen]
    exact specRun_receiveN q.maxMsgLength maxNBytes (us.reverse ++ ms)
  rw [hs] at r6 r7
  exact ⟨q', out, r1, by rw [← r6.1]; rfl, r7⟩

/-- Between two passes of the renderer, every state a decoder channel reaches
has at most `DECODER_QUEUE_DEPTH` frames in its two queues. -/
theorem channel_state_is_pool_state (w index : Nat) (env : CreateEnv) (frames : List Nat)
    (sts : List ProtocolStep) (s0 s : DecoderChannel)
    (hw : 31 ≤ w) (hw2 : w ≤ 64) (hi : index < NUM_SRC_STREAMS)
    (hlen : frames.length = DECODER_QUEUE_DEPTH)
    (hb : ∀ f ∈ frames, f < 256 ^ ptrSize w)
    (hstart : startChannel w env index frames = some s0)
    (hrun : runProtocol w index s0 sts = some s) :
    ∃ free filled,
      QueueHolds w (s.queues.FrameQueuesReturnedToDecoder index) free ∧
      QueueHolds w (s.queues.FrameQueuesDecoded index) filled ∧
      free.length + filled.length ≤ DECODER_QUEUE_DEPTH ∧
      ∀ h ∈ filled, h < 256 ^ ptrSize w := by
  obtain ⟨p, hsim, hperm⟩ :=
    channel_reachable w index env frames sts s0 s hw hw2 hi hlen hb hstart hrun
  obtain ⟨-, -, hfree, hfilled, hbound⟩ := hsim
  refine ⟨p.free, p.filled, hfree, hfilled, ?_, fun h hh => hbound h (by
    simp only [Pool.handles, List.mem_append]; tauto)⟩
  have hl := hperm.length_eq
  rw [hlen] at hl
  simp only [Pool.handles, List.length_append] at hl
  omega

/-- On the decoder queues after stream 0 published a frame and the encoder
queues as `InitEncoderQueues` leaves them, a call of `RenderPipelineWithGL`
gets through its polling loop and then waits in `DownloadFramebuffer`. -/
theorem render_call_waits_in_download_framebuffer :
    ∃ s0 s e g',
      startChannel 64 zeroEnv 0 [4096, 8192] = some s0 ∧
      runProtocol 64 0 s0 [ProtocolStep.decoderAcquire, ProtocolStep.decoderPublish] = some s ∧
      InitEncoderQueues 64 zeroEnv [4096, 8192, 12288, 16384] = some (Outcome.returned e) ∧
      renderPoll 64 s.queues 0 NUM_SRC_STREAMS = Outcome.returned g' ∧
      DownloadFramebuffer 64 e = Outcome.blocked ∧
      RenderPipelineWithGL 64 s.queues e = Outcome.blocked :=
  ⟨_, _, _, _, rfl, rfl, rfl, rfl, rfl, rfl⟩

/-! ## The claims of the specification -/

/-- Claim C1, evaluated where it fails: `msgQCreate (65537, 65537)` asks
`malloc` for the `int` product `65537 * 65537`, which wraps to `131073`, and
returns a queue of `65537` slots of `65537` bytes over `131073` bytes of
storage.  The first two sends of a one-byte payload return `1`; the third
writes at byte offset `2 * 65537`, outside the storage, so the round trip of
`65537` payloads does not take place. -/
theorem C1_round_trip_fails_when_size_wraps :
    ∃ q0 q1 q2,
      msgQCreate 64 65537 65537 MSG_Q_FIFO zeroEnv = some q0 ∧
      q0.capacity = 65537 ∧ q0.maxMsgLength = 65537 ∧ q0.used = 0 ∧ q0.isDestroyed = 0 ∧
      q0.data.size = 131073 ∧ q0.data.size < q0.capacity * q0.maxMsgLength ∧
      msgQSend 64 (some q0) (bytesOf [65]) 1 MSG_Q_WAIT_FOREVER MSG_PRI_NORMAL
        = Outcome.returned (1, q1) ∧
      msgQSend 64 (some q1) (bytesOf [66]) 1 MSG_Q_WAIT_FOREVER MSG_PRI_NORMAL
        = Outcome.returned (1, q2) ∧
      q2.used = 2 ∧ q2.used < q2.capacity ∧
      msgQSend 64 (some q2) (bytesOf [67]) 1 MSG_Q_WAIT_FOREVER MSG_PRI_NORMAL
        = Outcome.undefined :=
  ⟨_, _, _, rfl, rfl, rfl, rfl, rfl, rfl, by decide, rfl, rfl, rfl, by decide, rfl⟩

/-- Claim C2, evaluated where it fails: the empty queue of three one-byte
slots with `head = 2 ^ 64 - 1` is reached from a created queue; on it a
NORMAL send of `A` and a NORMAL send of `B` both return `1` with a free slot
at hand, and the first receive then delivers `B`, the second message sent:
`head + used` wrapped to `0`, so `B` was written over `A` in slot `0`. -/
theorem C2_fifo_fails_when_head_wraps :
    ∃ q0 qA qAB q1 b1,
      msgQCreate 64 3 1 MSG_Q_FIFO zeroEnv = some q0 ∧
      runCalls 64 q0 (pump (2 ^ 64 - 1)) = some (emptyQ3 (2 ^ 64 - 1)) ∧
      msgQSend 64 (some (emptyQ3 (2 ^ 64 - 1))) (bytesOf [65]) 1 MSG_Q_WAIT_FOREVER
        MSG_PRI_NORMAL = Outcome.returned (1, qA) ∧
      qA.used = 1 ∧ qA.used < qA.capacity ∧
      msgQSend 64 (some qA) (bytesOf [66]) 1 MSG_Q_WAIT_FOREVER MSG_PRI_NORMAL
        = Outcome.returned (1, qAB) ∧
      qAB.used = 2 ∧
      msgQReceive 64 (some qAB) (bytesOf []) 1 MSG_Q_NO_WAIT = Outcome.returned (1, q1, b1) ∧
      b1 0 = 66 := by
  obtain ⟨q0, h0, hrun⟩ := emptyQ3_max_reachable
  exact ⟨q0, _, _, _, _, h0, hrun, rfl, rfl, by decide, rfl, rfl, rfl, rfl⟩

/-- Claim C3: in every state reached from a queue returned by `msgQCreate`
through any sequence of send, receive and delete calls that return (any
priority, any timeout), `0 ≤ used` and `used ≤ capacity`. -/
theorem C3_used_within_capacity (w : Nat) (maxMsgs maxMsgLength options : Int)
    (env : CreateEnv) (q0 q : msg_q) (cs : List Call)
    (hcreate : msgQCreate w maxMsgs maxMsgLength options env = some q0)
    (hrun : runCalls w q0 cs = some q) :
    0 ≤ q.used ∧ q.used ≤ q.capacity := by
  obtain ⟨-, -, hc, hu, -⟩ := create_fields w maxMsgs maxMsgLength options env q0 hcreate
  refine ⟨Nat.zero_le _, (run_used_le w cs q0 q hrun ?_ ?_).1⟩
  · omega
  · rw [hc]; exact int_to_size_lt w maxMsgs

/-- Witness of C3: a queue of two slots after a NORMAL send, an URGENT send,
a receive, a delete and a send on the destroyed queue. -/
theorem C3_used_within_capacity_witness :
    ∃ q0 q,
      msgQCreate 64 2 16 MSG_Q_FIFO zeroEnv = some q0 ∧
      runCalls 64 q0
        [Call.send (bytesOf [65]) 1 MSG_Q_NO_WAIT MSG_PRI_NORMAL,
         Call.send (bytesOf [66]) 1 MSG_Q_WAIT_FOREVER MSG_PRI_URGENT,
         Call.receive (bytesOf []) 16 MSG_Q_NO_WAIT,
         Call.delete,
         Call.send (bytesOf [67]) 1 MSG_Q_NO_WAIT MSG_PRI_URGENT] = some q ∧
      0 ≤ q.used ∧ q.used ≤ q.capacity :=
  ⟨_, _, rfl, rfl,
    C3_used_within_capacity 64 2 16 MSG_Q_FIFO zeroEnv _ _
      [Call.send (bytesOf [65]) 1 MSG_Q_NO_WAIT MSG_PRI_NORMAL,
       Call.send (bytesOf [66]) 1 MSG_Q_WAIT_FOREVER MSG_PRI_URGENT,
       Call.receive (bytesOf []) 16 MSG_Q_NO_WAIT,
       Call.delete,
       Call.send (bytesOf [67]) 1 MSG_Q_NO_WAIT MSG_PRI_URGENT] rfl rfl⟩

/-- Claim C4, evaluated where it fails: on a queue of capacity 2 and slot
size 16, sends of `A` and `B` return; the queue is then full and live, and a
send of `C` with `MSG_Q_NO_WAIT` does not return a would-block status but
waits, as `msgQSend` never reads its timeout.  The two receives that follow
deliver `A` and then `B`. -/
theorem C4_send_no_wait_on_full_queue_waits :
    ∃ q0 qA qAB q1 b1 q2 b2,
      msgQCreate 64 2 16 MSG_Q_FIFO zeroEnv = some q0 ∧
      msgQSend 64 (some q0) (bytesOf [65]) 1 MSG_Q_NO_WAIT MSG_PRI_NORMAL
        = Outcome.returned (1, qA) ∧
      msgQSend 64 (some qA) (bytesOf [66]) 1 MSG_Q_NO_WAIT MSG_PRI_NORMAL
        = Outcome.returned (1, qAB) ∧
      qAB.used = qAB.capacity ∧ qAB.isDestroyed = 0 ∧
      msgQSend 64 (some qAB) (bytesOf [67]) 1 MSG_Q_NO_WAIT MSG_PRI_NORMAL = Outcome.blocked ∧
      msgQReceive 64 (some qAB) (bytesOf []) 16 MSG_Q_NO_WAIT = Outcome.returned (16, q1, b1) ∧
      b1 0 = 65 ∧
      msgQReceive 64 (some q1) (bytesOf []) 16 MSG_Q_NO_WAIT = Outcome.returned (16, q2, b2) ∧
      b2 0 = 66 :=
  ⟨_, _, _, _, _, _, _, rfl, rfl, rfl, rfl, rfl, rfl, rfl, rfl, rfl, rfl⟩

/-- Claim C5, evaluated where it fails: on the reachable queue of three
one-byte slots with `head = 2 ^ 64 - 1`, a NORMAL send queues `M1 = 77`; an
URGENT send of `U = 85` returns, the next receive delivers `U`, and the
receive after it delivers `0` instead of `M1`: `capacity + head` wrapped, so
the new head is slot `1`, not the slot before `M1`. -/
theorem C5_urgent_loses_message_when_head_wraps :
    ∃ q0 qM qU q1 b1 q2 b2,
      msgQCreate 64 3 1 MSG_Q_FIFO zeroEnv = some q0 ∧
      runCalls 64 q0 (pump (2 ^ 64 - 1)) = some (emptyQ3 (2 ^ 64 - 1)) ∧
      msgQSend 64 (some (emptyQ3 (2 ^ 64 - 1))) (bytesOf [77]) 1 MSG_Q_WAIT_FOREVER
        MSG_PRI_NORMAL = Outcome.returned (1, qM) ∧
      qM.used = 1 ∧ qM.used < qM.capacity ∧ qM.isDestroyed = 0 ∧
      msgQSend 64 (some qM) (bytesOf [85]) 1 MSG_Q_WAIT_FOREVER MSG_PRI_URGENT
        = Outcome.returned (1, qU) ∧
      qU.used = 2 ∧
      msgQReceive 64 (some qU) (bytesOf []) 1 MSG_Q_NO_WAIT = Outcome.returned (1, q1, b1) ∧
      b1 0 = 85 ∧
      msgQReceive 64 (some q1) (bytesOf []) 1 MSG_Q_NO_WAIT = Outcome.returned (1, q2, b2) ∧
      b2 0 = 0 ∧ b2 0 ≠ 77 := by
  obtain ⟨q0, h0, hrun⟩ := emptyQ3_max_reachable
  exact ⟨q0, _, _, _, _, _, _, h0, hrun, rfl, rfl, by decide, rfl, rfl, rfl, rfl, rfl, rfl,
    rfl, by decide⟩

/-- Claim C6: a receive with `MSG_Q_NO_WAIT` on an empty live queue returns
at once with the status `MSG_Q_ERROR` and leaves the queue (all its fields and
stored bytes) and the caller's buffer as they were. -/
theorem C6_receive_no_wait_on_empty (w : Nat) (q : msg_q) (buffer : Nat → Nat)
    (maxNBytes : Nat) (hlive : q.isDestroyed = 0) (hempty : q.used = 0) :
    msgQReceive w (some q) buffer maxNBytes MSG_Q_NO_WAIT
      = Outcome.returned (MSG_Q_ERROR, q, buffer) := by
  rw [receive_empty_eq w q buffer maxNBytes MSG_Q_NO_WAIT hlive hempty]
  simp [MSG_Q_NO_WAIT, MSG_Q_WAIT_FOREVER]

/-- Witness of C6: the empty three-slot queue and a caller's buffer holding
the byte `9`. -/
theorem C6_receive_no_wait_on_empty_witness :
    (emptyQ3 0).isDestroyed = 0 ∧ (emptyQ3 0).used = 0 ∧
      msgQReceive 64 (some (emptyQ3 0)) (bytesOf [9]) 1 MSG_Q_NO_WAIT
        = Outcome.returned (MSG_Q_ERROR, emptyQ3 0, bytesOf [9]) :=
  ⟨rfl, rfl, C6_receive_no_wait_on_empty 64 (emptyQ3 0) (bytesOf [9]) 1 rfl rfl⟩

/-- Claim C7: on a destroyed queue, whatever `used` is, every send (any
priority, any timeout) and every receive (any timeout) returns `MSG_Q_ERROR`
and leaves the queue and the caller's buffer unchanged, and after any sequence
of send, receive and delete calls the queue is still destroyed and holds the
same counters and bytes. -/
theorem C7_destroyed_queue_fails_and_stays_destroyed (w : Nat) (q : msg_q)
    (hd : q.isDestroyed ≠ 0) :
    (∀ (buffer : Nat → Nat) (nBytes : Nat) (timeout priority : Int),
        msgQSend w (some q) buffer nBytes timeout priority
          = Outcome.returned (MSG_Q_ERROR, q)) ∧
    (∀ (buffer : Nat → Nat) (maxNBytes : Nat) (timeout : Int),
        msgQReceive w (some q) buffer maxNBytes timeout
          = Outcome.returned (MSG_Q_ERROR, q, buffer)) ∧
    (∀ (cs : List Call), ∃ q', runCalls w q cs = some q' ∧
        q'.isDestroyed ≠ 0 ∧ q'.capacity = q.capacity ∧ q'.maxMsgLength = q.maxMsgLength ∧
        q'.head = q.head ∧ q'.used = q.used ∧ q'.data = q.data) := by
  refine ⟨fun b n t p => send_destroyed_eq w q b n t p hd,
    fun b n t => receive_destroyed_eq w q b n t hd, fun cs => ?_⟩
  have hex : ∀ (cs : List Call) (q1 : msg_q), q1.isDestroyed ≠ 0 →
      ∃ q', runCalls w q1 cs = some q' := by
    intro cs
    induction cs with
    | nil => intro q1 _; exact ⟨q1, rfl⟩
    | cons c cs ih =>
      intro q1 h1
      have hn : ∃ q2, c.next w q1 = some q2 := by
        cases c with
        | send b n t p => exact ⟨q1, by simp [Call.next, send_destroyed_eq w q1 b n t p h1]⟩
        | receive b n t => exact ⟨q1, by simp [Call.next, receive_destroyed_eq w q1 b n t h1]⟩
        | delete => exact ⟨_, rfl⟩
      obtain ⟨q2, h2⟩ := hn
      obtain ⟨q3, h3⟩ := ih q2 (next_destroyed w q1 q2 h1 c h2).1
      exact ⟨q3, by simp [runCalls, h2, h3]⟩
  obtain ⟨q', hq'⟩ := hex cs q hd
  exact ⟨q', hq', run_destroyed w cs q q' hd hq'⟩

/-- Witness of C7: a destroyed queue that still holds one message. -/
theorem C7_destroyed_queue_fails_and_stays_destroyed_witness :
    destroyedQ3.isDestroyed ≠ 0 ∧
      msgQSend 64 (some destroyedQ3) (bytesOf [1]) 1 MSG_Q_NO_WAIT MSG_PRI_URGENT
        = Outcome.returned (MSG_Q_ERROR, destroyedQ3) ∧
      msgQReceive 64 (some destroyedQ3) (bytesOf []) 1 MSG_Q_WAIT_FOREVER
        = Outcome.returned (MSG_Q_ERROR, destroyedQ3, bytesOf []) :=
  ⟨by decide,
    (C7_destroyed_queue_fails_and_stays_destroyed 64 destroyedQ3 (by decide)).1
      (bytesOf [1]) 1 MSG_Q_NO_WAIT MSG_PRI_URGENT,
    (C7_destroyed_queue_fails_and_stays_destroyed 64 destroyedQ3 (by decide)).2.1
      (bytesOf []) 1 MSG_Q_WAIT_FOREVER⟩

/-- Claim C8: `msgQDelete` sets `isDestroyed` and leaves capacity, slot size,
head, used and the storage as they were, and a second `msgQDelete` returns the
very state the first one produced. -/
theorem C8_delete_sets_flag_only_and_is_idempotent (q : msg_q) :
    ∃ q', (msgQDelete (some q)).2 = some q' ∧
      q'.isDestroyed = 1 ∧ q'.capacity = q.capacity ∧ q'.maxMsgLength = q.maxMsgLength ∧
      q'.head = q.head ∧ q'.used = q.used ∧ q'.data = q.data ∧
      (msgQDelete (some q')).2 = some q' :=
  ⟨{ q with isDestroyed := 1 }, rfl, rfl, rfl, rfl, rfl, rfl, rfl, rfl⟩

/-- Claim C9: `msgQCreate` returns no handle when the count or the length is
not positive; when both are positive `int` values and every resource it
acquires is granted, it returns a live queue whose capacity and slot size are
the arguments, with `used = 0`, `head = 0` and `isDestroyed = 0`. -/
theorem C9_create (w : Nat) (maxMsgs maxMsgLength options : Int) (env : CreateEnv) :
    ((maxMsgs ≤ 0 ∨ maxMsgLength ≤ 0) →
        msgQCreate w maxMsgs maxMsgLength options env = none) ∧
    (0 < maxMsgs → 0 < maxMsgLength → maxMsgs < 2 ^ 31 → maxMsgLength < 2 ^ 31 → 31 ≤ w →
        env.succeeds (int_to_size w (to_int (maxMsgLength * maxMsgs))) →
        ∃ q, msgQCreate w maxMsgs maxMsgLength options env = some q ∧
          (q.capacity : Int) = maxMsgs ∧ (q.maxMsgLength : Int) = maxMsgLength ∧
          q.used = 0 ∧ q.head = 0 ∧ q.isDestroyed = 0) := by
  refine ⟨create_nonpos w maxMsgs maxMsgLength options env, ?_⟩
  intro h1 h2 h3 h4 hw ⟨e1, e2, e3, e4⟩
  obtain ⟨bytes, hb⟩ := Option.isSome_iff_exists.mp e2
  exact ⟨_, create_ok w maxMsgs maxMsgLength options env bytes h1 h2 e1 hb e3 e4,
    int_to_size_of_lt w maxMsgs (le_of_lt h1) h3 hw,
    int_to_size_of_lt w maxMsgLength (le_of_lt h2) h4 hw, rfl, rfl, rfl⟩

/-- Witness of C9: no queue for a capacity of `0`, and a queue of 2 slots of
16 bytes when every allocation succeeds. -/
theorem C9_create_witness :
    msgQCreate 64 0 16 MSG_Q_FIFO zeroEnv = none ∧
      ∃ q, msgQCreate 64 2 16 MSG_Q_FIFO zeroEnv = some q ∧
        (q.capacity : Int) = 2 ∧ (q.maxMsgLength : Int) = 16 ∧
        q.used = 0 ∧ q.head = 0 ∧ q.isDestroyed = 0 :=
  ⟨(C9_create 64 0 16 MSG_Q_FIFO zeroEnv).1 (Or.inl (by decide)),
    (C9_create 64 2 16 MSG_Q_FIFO zeroEnv).2 (by decide) (by decide) (by decide) (by decide)
      (by decide) ⟨rfl, rfl, rfl, rfl⟩⟩

/-- Claim C10, evaluated where it fails: on the reachable queue of three
one-byte slots with `head = 2 ^ 64 - 1` that holds `M1 = 77` in slot `0`
(so `used = 1 < capacity` and `(head + used) mod capacity = 1`), a NORMAL send
of the byte `66` returns `1` but leaves slot `1` as it was and stores the byte
in slot `0`, the slot of the queued message. -/
theorem C10_normal_send_writes_wrong_slot_when_head_wraps :
    ∃ q0 qM q',
      msgQCreate 64 3 1 MSG_Q_FIFO zeroEnv = some q0 ∧
      runCalls 64 q0 (pump (2 ^ 64 - 1)) = some (emptyQ3 (2 ^ 64 - 1)) ∧
      msgQSend 64 (some (emptyQ3 (2 ^ 64 - 1))) (bytesOf [77]) 1 MSG_Q_WAIT_FOREVER
        MSG_PRI_NORMAL = Outcome.returned (1, qM) ∧
      qM.isDestroyed = 0 ∧ qM.used = 1 ∧ qM.used < qM.capacity ∧
      (qM.head + qM.used) % qM.capacity = 1 ∧ qM.head % qM.capacity = 0 ∧
      qM.data.bytes (0 * qM.maxMsgLength) = 77 ∧
      msgQSend 64 (some qM) (bytesOf [66]) 1 MSG_Q_WAIT_FOREVER MSG_PRI_NORMAL
        = Outcome.returned (1, q') ∧
      q'.data.bytes (1 * q'.maxMsgLength) = qM.data.bytes (1 * qM.maxMsgLength) ∧
      q'.data.bytes (1 * q'.maxMsgLength) ≠ 66 ∧
      q'.data.bytes (0 * q'.maxMsgLength) = 66 := by
  obtain ⟨q0, h0, hrun⟩ := emptyQ3_max_reachable
  exact ⟨q0, _, _, h0, hrun, rfl, rfl, rfl, by decide, by decide, by decide, rfl, rfl, rfl,
    by decide, rfl⟩

/-- Claim C11, evaluated where it fails: on the reachable queue of three
one-byte slots whose `head` counter is `2 ^ 64 - 1`, holding the message 77,
a receive returns the message and takes one from `used`, but `head` wraps to
`0` and `head mod capacity` is `0` before and after the call instead of one
slot further. -/
theorem C11_receive_keeps_slot_index_when_head_wraps :
    ∃ q0 qM q' b',
      msgQCreate 64 3 1 MSG_Q_FIFO zeroEnv = some q0 ∧
      runCalls 64 q0 (pump (2 ^ 64 - 1)) = some (emptyQ3 (2 ^ 64 - 1)) ∧
      msgQSend 64 (some (emptyQ3 (2 ^ 64 - 1))) (bytesOf [77]) 1 MSG_Q_WAIT_FOREVER
        MSG_PRI_NORMAL = Outcome.returned (1, qM) ∧
      qM.isDestroyed = 0 ∧ 0 < qM.used ∧
      msgQReceive 64 (some qM) (bytesOf []) 1 MSG_Q_NO_WAIT = Outcome.returned (1, q', b') ∧
      b' 0 = 77 ∧ q'.used + 1 = qM.used ∧
      qM.head % qM.capacity = 0 ∧ q'.head % q'.capacity = 0 ∧
      q'.head % q'.capacity ≠ (qM.head % qM.capacity + 1) % qM.capacity := by
  obtain ⟨q0, h0, hrun⟩ := emptyQ3_max_reachable
  exact ⟨q0, _, _, _, h0, hrun, rfl, rfl, by decide, rfl, rfl, rfl, rfl, rfl, by decide⟩

/-- Claim C12, evaluated where it fails: on a created queue of one slot of
four bytes holding `65 66 67 68`, a receive of at most two bytes returns
`65 66` and sets only those two bytes of the slot to zero; after a send of
the one-byte message `88`, a receive of four bytes delivers `88 0 67 68`, the
last two bytes being those of the first message. -/
theorem C12_receive_leaves_bytes_beyond_the_copied_length :
    ∃ q0 q1 q2 b2 q3 q4 b4,
      msgQCreate 64 1 4 MSG_Q_FIFO zeroEnv = some q0 ∧
      msgQSend 64 (some q0) (bytesOf [65, 66, 67, 68]) 4 MSG_Q_WAIT_FOREVER MSG_PRI_NORMAL
        = Outcome.returned (4, q1) ∧
      msgQReceive 64 (some q1) (bytesOf []) 2 MSG_Q_NO_WAIT = Outcome.returned (2, q2, b2) ∧
      b2 0 = 65 ∧ b2 1 = 66 ∧
      q2.data.bytes 0 = 0 ∧ q2.data.bytes 1 = 0 ∧ q2.data.bytes 2 = 67 ∧ q2.data.bytes 3 = 68 ∧
      msgQSend 64 (some q2) (bytesOf [88]) 1 MSG_Q_WAIT_FOREVER MSG_PRI_NORMAL
        = Outcome.returned (1, q3) ∧
      msgQReceive 64 (some q3) (bytesOf []) 4 MSG_Q_NO_WAIT = Outcome.returned (4, q4, b4) ∧
      b4 0 = 88 ∧ b4 1 = 0 ∧ b4 2 = 67 ∧ b4 3 = 68 :=
  ⟨_, _, _, _, _, _, _, rfl, rfl, rfl, rfl, rfl, rfl, rfl, rfl, rfl, rfl, rfl, rfl, rfl, rfl,
    rfl⟩

/-- Claim C13: for every queue reached from a queue returned by `msgQCreate`
by a sequence of sends, receives and deletes that return, `msgQNumMsgs`
returns `used`, and this is the number of sends that returned a byte count
minus the number of receives that returned a byte count. -/
theorem C13_num_msgs_is_net_count (w : Nat) (maxMsgs maxMsgLength options : Int)
    (env : CreateEnv) (q0 q : msg_q) (cs : List Call) (hw : 31 ≤ w)
    (h1 : maxMsgs < 2 ^ 31) (h2 : maxMsgLength < 2 ^ 31)
    (hcreate : msgQCreate w maxMsgs maxMsgLength options env = some q0)
    (hrun : runCalls w q0 cs = some q) :
    msgQNumMsgs (some q) = (q.used : Int) ∧ msgQNumMsgs (some q) = netCount w q0 cs := by
  obtain ⟨p1, p2, e1, e2, e3, -, -, -⟩ :=
    create_fields w maxMsgs maxMsgLength options env q0 hcreate
  have c1 := int_to_size_of_lt w maxMsgs (le_of_lt p1) h1 hw
  have c2 := int_to_size_of_lt w maxMsgLength (le_of_lt p2) h2 hw
  rw [← e1] at c1
  rw [← e3] at c2
  have hcap31 : q0.capacity < 2 ^ 31 := by
    have : (q0.capacity : Int) < 2 ^ 31 := by rw [c1]; exact h1
    exact_mod_cast this
  have hl31 : q0.maxMsgLength < 2 ^ 31 := by
    have : (q0.maxMsgLength : Int) < 2 ^ 31 := by rw [c2]; exact h2
    exact_mod_cast this
  have hcw : q0.capacity < 2 ^ w := by rw [e1]; exact int_to_size_lt w maxMsgs
  have hu0 : q0.used ≤ q0.capacity := by omega
  obtain ⟨hu, -⟩ := run_used_le w cs q0 q hrun hu0 hcw
  obtain ⟨hcapeq, -, -⟩ := run_shape w cs q0 q hrun
  have hnum : msgQNumMsgs (some q) = (q.used : Int) := by
    simp only [msgQNumMsgs]
    exact to_int_of_lt q.used (by omega)
  refine ⟨hnum, ?_⟩
  rw [hnum, run_used_eq_netCount w cs q0 q hrun hu0 hcw hl31, e2]
  simp

/-- Witness of C13: a queue of two slots after two sends, a receive, a
receive with `MSG_Q_NO_WAIT` on the then empty queue, which fails, and one
more send. -/
theorem C13_num_msgs_is_net_count_witness :
    ∃ q0 q,
      msgQCreate 64 2 16 MSG_Q_FIFO zeroEnv = some q0 ∧
      runCalls 64 q0
        [Call.send (bytesOf [65]) 1 MSG_Q_WAIT_FOREVER MSG_PRI_NORMAL,
         Call.receive (bytesOf []) 16 MSG_Q_NO_WAIT,
         Call.receive (bytesOf []) 16 MSG_Q_NO_WAIT,
         Call.send (bytesOf [66]) 1 MSG_Q_WAIT_FOREVER MSG_PRI_URGENT,
         Call.send (bytesOf [67]) 1 MSG_Q_WAIT_FOREVER MSG_PRI_NORMAL] = some q ∧
      (msgQNumMsgs (some q) = (q.used : Int) ∧
        msgQNumMsgs (some q) = netCount 64 q0
          [Call.send (bytesOf [65]) 1 MSG_Q_WAIT_FOREVER MSG_PRI_NORMAL,
           Call.receive (bytesOf []) 16 MSG_Q_NO_WAIT,
           Call.receive (bytesOf []) 16 MSG_Q_NO_WAIT,
           Call.send (bytesOf [66]) 1 MSG_Q_WAIT_FOREVER MSG_PRI_URGENT,
           Call.send (bytesOf [67]) 1 MSG_Q_WAIT_FOREVER MSG_PRI_NORMAL]) :=
  ⟨_, _, rfl, rfl,
    C13_num_msgs_is_net_count 64 2 16 MSG_Q_FIFO zeroEnv _ _
      [Call.send (bytesOf [65]) 1 MSG_Q_WAIT_FOREVER MSG_PRI_NORMAL,
       Call.receive (bytesOf []) 16 MSG_Q_NO_WAIT,
       Call.receive (bytesOf []) 16 MSG_Q_NO_WAIT,
       Call.send (bytesOf [66]) 1 MSG_Q_WAIT_FOREVER MSG_PRI_URGENT,
       Call.send (bytesOf [67]) 1 MSG_Q_WAIT_FOREVER MSG_PRI_NORMAL]
      (by decide) (by decide) (by decide) rfl rfl⟩

/-- Claim C14, evaluated where it fails: `InitEncoderQueues` with four
buffers leaves `FrameQueuesEncoderInput`, the queue `TryGetEncoderInputBuffer`
receives from, empty, and all four buffers in `FrameQueuesReturnedToEncoder`,
the queue `GetFrameForEncoder` receives from; the first
`TryGetEncoderInputBuffer` of the renderer waits, and the first
`GetFrameForEncoder` of the encoder gets the first buffer, which nothing was
rendered to. -/
theorem C14_encoder_buffers_are_seeded_into_the_filled_queue :
    ∃ s b r,
      InitEncoderQueues 64 zeroEnv [4096, 8192, 12288, 16384] = some (Outcome.returned s) ∧
      usedOf s.FrameQueuesEncoderInput = 0 ∧
      usedOf s.FrameQueuesReturnedToEncoder = ENCODER_QUEUE_DEPTH ∧
      (queueRecords 64 s.FrameQueuesReturnedToEncoder).map FrameData.rawPixelData
        = [4096, 8192, 12288, 16384] ∧
      TryGetEncoderInputBuffer 64 s { frame := 0, rawPixelData := 0 } = Outcome.blocked ∧
      GetFrameForEncoder 64 s { frame := 0, rawPixelData := 0 }
        = Outcome.returned (true, b, r) ∧ b.rawPixelData = 4096 :=
  ⟨_, _, _, rfl, rfl, rfl, rfl, rfl, rfl, rfl⟩

/-- Claim C15: in every state a decoder channel reaches from its start (the
queues of `InitializeDecoders`, seeded with `DECODER_QUEUE_DEPTH` frames) by
a sequence of the queue operations of the decoder and the renderer, the
frames in the returned queue, with the decoder, in the decoded queue and with
the renderer are, taken together, exactly the seeded frames, each as often as
it was seeded; when the seeded frames are distinct, no frame is in two
places. -/
theorem C15_pool_conservation (w index : Nat) (env : CreateEnv) (frames : List Nat)
    (sts : List ProtocolStep) (s0 s : DecoderChannel)
    (hw : 31 ≤ w) (hw2 : w ≤ 64) (hi : index < NUM_SRC_STREAMS)
    (hlen : frames.length = DECODER_QUEUE_DEPTH)
    (hb : ∀ f ∈ frames, f < 256 ^ ptrSize w)
    (hstart : startChannel w env index frames = some s0)
    (hrun : runProtocol w index s0 sts = some s) :
    List.Perm (s.places w index) frames ∧ (frames.Nodup → (s.places w index).Nodup) := by
  obtain ⟨p, hsim, hperm⟩ :=
    channel_reachable w index env frames sts s0 s hw hw2 hi hlen hb hstart hrun
  rw [places_of_sim w index s p hsim]
  exact ⟨hperm, fun h => hperm.nodup_iff.2 h⟩

/-- Witness of C15: the channel of stream 1 with the frames at `4096` and
`8192`, after the decoder published one frame, the renderer took it, the
decoder took the other one, the renderer released and the decoder handed
back. -/
theorem C15_pool_conservation_witness :
    ∃ s0 s,
      startChannel 64 zeroEnv 1 [4096, 8192] = some s0 ∧
      runProtocol 64 1 s0
        [ProtocolStep.decoderAcquire, ProtocolStep.decoderPublish,
         ProtocolStep.rendererAcquire, ProtocolStep.decoderAcquire,
         ProtocolStep.rendererRelease, ProtocolStep.decoderHandBack] = some s ∧
      (List.Perm (s.places 64 1) [4096, 8192] ∧
        ([4096, 8192].Nodup → (s.places 64 1).Nodup)) :=
  ⟨_, _, rfl, rfl,
    C15_pool_conservation 64 1 zeroEnv [4096, 8192]
      [ProtocolStep.decoderAcquire, ProtocolStep.decoderPublish,
       ProtocolStep.rendererAcquire, ProtocolStep.decoderAcquire,
       ProtocolStep.rendererRelease, ProtocolStep.decoderHandBack] _ _
      (by decide) (by decide) (by decide) rfl (by decide) rfl rfl⟩

/-- Claim C16, evaluated where it fails: on the encoder queues as
`InitEncoderQueues` leaves them, `FrameQueuesEncoderInput` is live and empty,
and `TryGetEncoderInputBuffer`, which receives with `MSG_Q_WAIT_FOREVER`, does
not return `false` but waits, and so does `DownloadFramebuffer`. -/
theorem C16_try_get_encoder_input_buffer_waits_on_empty_queue :
    ∃ s q,
      InitEncoderQueues 64 zeroEnv [4096, 8192, 12288, 16384] = some (Outcome.returned s) ∧
      s.FrameQueuesEncoderInput = some q ∧ q.used = 0 ∧ q.isDestroyed = 0 ∧
      TryGetEncoderInputBuffer 64 s { frame := 0, rawPixelData := 0 } = Outcome.blocked ∧
      DownloadFramebuffer 64 s = Outcome.blocked :=
  ⟨_, _, rfl, rfl, rfl, rfl, rfl, rfl⟩

/-- Claim C18, evaluated where it fails: on the reachable empty live queue of
three slots whose `head` counter is `2 ^ 64 - 1`, two sends that return and
two receives that return leave the queue empty, and the receives deliver `66`
and `0`: the message `65` is lost and a message nobody sent is received. -/
theorem C18_message_lost_when_head_wraps :
    ∃ q0 q' r1 r2,
      msgQCreate 64 3 1 MSG_Q_FIFO zeroEnv = some q0 ∧
      runCalls 64 q0 (pump (2 ^ 64 - 1)) = some (emptyQ3 (2 ^ 64 - 1)) ∧
      Admissible 3 0
        [Call.send (bytesOf [65]) 1 MSG_Q_WAIT_FOREVER MSG_PRI_NORMAL,
         Call.send (bytesOf [66]) 1 MSG_Q_WAIT_FOREVER MSG_PRI_NORMAL,
         Call.receive (bytesOf []) 1 MSG_Q_WAIT_FOREVER,
         Call.receive (bytesOf []) 1 MSG_Q_WAIT_FOREVER] ∧
      runTrace 64 (emptyQ3 (2 ^ 64 - 1))
        [Call.send (bytesOf [65]) 1 MSG_Q_WAIT_FOREVER MSG_PRI_NORMAL,
         Call.send (bytesOf [66]) 1 MSG_Q_WAIT_FOREVER MSG_PRI_NORMAL,
         Call.receive (bytesOf []) 1 MSG_Q_WAIT_FOREVER,
         Call.receive (bytesOf []) 1 MSG_Q_WAIT_FOREVER] = some (q', [r1, r2]) ∧
      q'.used = 0 ∧ q'.isDestroyed = 0 ∧
      r1.1 = 1 ∧ r1.2 0 = 66 ∧ r2.1 = 1 ∧ r2.2 0 = 0 := by
  obtain ⟨q0, h0, hrun⟩ := emptyQ3_max_reachable
  exact ⟨q0, _, _, _, h0, hrun,
    ⟨by decide, by decide, by decide, by decide, trivial⟩, rfl, rfl, rfl, rfl, rfl, rfl, rfl⟩

/-- Claim C19, evaluated where it fails: a created queue of two slots after
two rounds of one send and one receive has `head = 2`, which is not below its
capacity `2`. -/
theorem C19_head_reaches_capacity :
    ∃ q0 q,
      msgQCreate 64 2 16 MSG_Q_FIFO zeroEnv = some q0 ∧
      runCalls 64 q0
        [Call.send (bytesOf [65]) 1 MSG_Q_WAIT_FOREVER MSG_PRI_NORMAL,
         Call.receive (bytesOf []) 16 MSG_Q_WAIT_FOREVER,
         Call.send (bytesOf [66]) 1 MSG_Q_WAIT_FOREVER MSG_PRI_NORMAL,
         Call.receive (bytesOf []) 16 MSG_Q_WAIT_FOREVER] = some q ∧
      q.capacity = 2 ∧ q.head = 2 ∧ ¬ (q.head < q.capacity) :=
  ⟨_, _, rfl, rfl, rfl, rfl, by decide⟩

/-- Claim C20 as stated does not hold: the channel of stream 0 with the
frames at `4096` and `8192` reaches no state in which the decoder holds a
frame while its decoded queue holds `DECODER_QUEUE_DEPTH` messages. -/
theorem C20_decoder_holds_no_frame_at_full_decoded_queue :
    ¬ ∃ s0 sts s,
      startChannel 64 zeroEnv 0 [4096, 8192] = some s0 ∧
      runProtocol 64 0 s0 sts = some s ∧ s.decoderHeld.isSome = true ∧
      usedOf (s.queues.FrameQueuesDecoded 0) = DECODER_QUEUE_DEPTH := by
  rintro ⟨s0, sts, s, hstart, hrun, hheld, hfull⟩
  obtain ⟨-, h2⟩ := decoder_blocks_on_returned_queue 64 0 zeroEnv [4096, 8192] sts s0 s
    (by decide) (by decide) (by decide) rfl (by decide) hstart hrun
  rw [(h2 hfull).1] at hheld
  exact absurd hheld (by decide)

/-- Claim C20, amended: in a decoder channel whose renderer stops receiving,
the publishes of the decoder fill the decoded queue (two rounds of acquire
and publish reach `used = DECODER_QUEUE_DEPTH`); in every reachable state in
which the decoder holds a frame the decoded queue has a free slot and
`SubmitFrameFromDecoder` returns; and in every reachable state in which the
decoded queue is full the decoder holds no frame, the returned queue is empty
and the receive of the decoder from it waits. -/
theorem C20_backpressure_through_returned_queue (w index : Nat) (env : CreateEnv)
    (frames : List Nat) (s0 : DecoderChannel)
    (hw : 31 ≤ w) (hw2 : w ≤ 64) (hi : index < NUM_SRC_STREAMS)
    (hlen : frames.length = DECODER_QUEUE_DEPTH)
    (hb : ∀ f ∈ frames, f < 256 ^ ptrSize w)
    (hstart : startChannel w env index frames = some s0) :
    (∃ s, runProtocol w index s0
        [ProtocolStep.decoderAcquire, ProtocolStep.decoderPublish,
         ProtocolStep.decoderAcquire, ProtocolStep.decoderPublish] = some s ∧
      usedOf (s.queues.FrameQueuesDecoded index) = DECODER_QUEUE_DEPTH) ∧
    ∀ sts s, runProtocol w index s0 sts = some s →
      (∀ f, s.decoderHeld = some f →
        usedOf (s.queues.FrameQueuesDecoded index) < DECODER_QUEUE_DEPTH ∧
          ∃ g', SubmitFrameFromDecoder w s.queues f index = Outcome.returned g') ∧
      (usedOf (s.queues.FrameQueuesDecoded index) = DECODER_QUEUE_DEPTH →
        s.decoderHeld = none ∧ usedOf (s.queues.FrameQueuesReturnedToDecoder index) = 0 ∧
          decoderReceiveFrame w s.queues index = Outcome.blocked) := by
  obtain ⟨s, h1, h2, -⟩ :=
    decoded_queue_saturates w index env frames s0 hw hw2 hi hlen hb hstart
  exact ⟨⟨s, h1, h2⟩, fun sts s hrun =>
    decoder_blocks_on_returned_queue w index env frames sts s0 s hw hw2 hi hlen hb hstart hrun⟩

/-- Witness of C20: the channel of stream 0 with the frames at `4096` and
`8192`. -/
theorem C20_backpressure_through_returned_queue_witness :
    ∃ s0,
      startChannel 64 zeroEnv 0 [4096, 8192] = some s0 ∧
      ((∃ s, runProtocol 64 0 s0
          [ProtocolStep.decoderAcquire, ProtocolStep.decoderPublish,
           ProtocolStep.decoderAcquire, ProtocolStep.decoderPublish] = some s ∧
        usedOf (s.queues.FrameQueuesDecoded 0) = DECODER_QUEUE_DEPTH) ∧
      ∀ sts s, runProtocol 64 0 s0 sts = some s →
        (∀ f, s.decoderHeld = some f →
          usedOf (s.queues.FrameQueuesDecoded 0) < DECODER_QUEUE_DEPTH ∧
            ∃ g', SubmitFrameFromDecoder 64 s.queues f 0 = Outcome.returned g') ∧
        (usedOf (s.queues.FrameQueuesDecoded 0) = DECODER_QUEUE_DEPTH →
          s.decoderHeld = none ∧ usedOf (s.queues.FrameQueuesReturnedToDecoder 0) = 0 ∧
            decoderReceiveFrame 64 s.queues 0 = Outcome.blocked)) :=
  ⟨_, rfl,
    C20_backpressure_through_returned_queue 64 0 zeroEnv [4096, 8192] _
      (by decide) (by decide) (by decide) rfl (by decide) rfl⟩

/-- Claim C21: in every state a decoder channel reaches from its start in
which the renderer holds a frame, the returned queue holds fewer than
`DECODER_QUEUE_DEPTH` messages, and `ReturnFrameToDecoderQueue` returns
(it does not wait), adding one message to the returned queue. -/
theorem C21_renderer_release_never_blocks (w index : Nat) (env : CreateEnv)
    (frames : List Nat) (sts : List ProtocolStep) (s0 s : DecoderChannel) (f : Nat)
    (hw : 31 ≤ w) (hw2 : w ≤ 64) (hi : index < NUM_SRC_STREAMS)
    (hlen : frames.length = DECODER_QUEUE_DEPTH)
    (hb : ∀ f ∈ frames, f < 256 ^ ptrSize w)
    (hstart : startChannel w env index frames = some s0)
    (hrun : runProtocol w index s0 sts = some s)
    (hheld : s.rendererHeld = some f) :
    usedOf (s.queues.FrameQueuesReturnedToDecoder index) < DECODER_QUEUE_DEPTH ∧
      ∃ g', ReturnFrameToDecoderQueue w s.queues f index = Outcome.returned g' ∧
        usedOf (g'.FrameQueuesReturnedToDecoder index)
          = usedOf (s.queues.FrameQueuesReturnedToDecoder index) + 1 ∧
        g'.FrameQueuesDecoded = s.queues.FrameQueuesDecoded :=
  renderer_release_returns w index env frames sts s0 s f hw hw2 hi hlen hb hstart hrun hheld

/-- Witness of C21: the channel of stream 2 with the frames at `4096` and
`8192`, after the decoder published the first frame, the renderer took it and
the decoder took the second one and handed it back, so that the returned
queue holds one frame while the renderer holds the other. -/
theorem C21_renderer_release_never_blocks_witness :
    ∃ s0 s,
      startChannel 64 zeroEnv 2 [4096, 8192] = some s0 ∧
      runProtocol 64 2 s0
        [ProtocolStep.decoderAcquire, ProtocolStep.decoderPublish,
         ProtocolStep.rendererAcquire, ProtocolStep.decoderAcquire,
         ProtocolStep.decoderHandBack] = some s ∧
      s.rendererHeld = some 4096 ∧
      (usedOf (s.queues.FrameQueuesReturnedToDecoder 2) < DECODER_QUEUE_DEPTH ∧
        ∃ g', ReturnFrameToDecoderQueue 64 s.queues 4096 2 = Outcome.returned g' ∧
          usedOf (g'.FrameQueuesReturnedToDecoder 2)
            = usedOf (s.queues.FrameQueuesReturnedToDecoder 2) + 1 ∧
          g'.FrameQueuesDecoded = s.queues.FrameQueuesDecoded) :=
  ⟨_, _, rfl, rfl, rfl,
    C21_renderer_release_never_blocks 64 2 zeroEnv [4096, 8192]
      [ProtocolStep.decoderAcquire, ProtocolStep.decoderPublish,
       ProtocolStep.rendererAcquire, ProtocolStep.decoderAcquire,
       ProtocolStep.decoderHandBack] _ _ 4096
      (by decide) (by decide) (by decide) rfl (by decide) rfl rfl rfl⟩

/-- Claim C22: on every queue of a decoder channel (capacity
`DECODER_QUEUE_DEPTH`, slots of the size of a `struct FrameData`, live or
destroyed, whatever it holds) `TryReceiveDecodedFrame` returns; it returns
`true` exactly when the queue is live and not empty, and then the record it
hands to the caller is the first record of the queue and the queue is left
with the records that followed it; when it returns `false` the queues and the
caller's `struct FrameData` are as before the call.  The queues of the other
streams and the returned queues are never changed. -/
theorem C22_non_blocking_drain (w src_idx : Nat) (g : SrcQueues) (q : msg_q)
    (frameData : FrameData) (hw : 0 < w) (hq : g.FrameQueuesDecoded src_idx = some q)
    (hwf : WF w q) (hcap : q.capacity = DECODER_QUEUE_DEPTH)
    (hlen : q.maxMsgLength = sizeofFrameData w)
    (hf : frameData.frame < 256 ^ ptrSize w) (hr : frameData.rawPixelData < 256 ^ ptrSize w) :
    ∃ ok fd' g',
      TryReceiveDecodedFrame w g frameData src_idx = Outcome.returned (ok, fd', g') ∧
      (ok = true ↔ q.isDestroyed = 0 ∧ 0 < q.used) ∧
      (ok = true →
        queueRecords w (g.FrameQueuesDecoded src_idx)
            = fd' :: queueRecords w (g'.FrameQueuesDecoded src_idx) ∧
          usedOf (g'.FrameQueuesDecoded src_idx) + 1 = usedOf (g.FrameQueuesDecoded src_idx)) ∧
      (ok = false → g' = g ∧ fd' = frameData) ∧
      g'.FrameQueuesReturnedToDecoder = g.FrameQueuesReturnedToDecoder ∧
      ∀ j, j ≠ src_idx → g'.FrameQueuesDecoded j = g.FrameQueuesDecoded j :=
  tryReceive_general w src_idx g q frameData hw hq hwf hcap hlen hf hr

/-- Witness of C22: the decoded queue of stream 0 after the decoder published
the frame at `4096`, and a caller's record holding the addresses 7 and 9. -/
theorem C22_non_blocking_drain_witness :
    ∃ s0 s q,
      startChannel 64 zeroEnv 0 [4096, 8192] = some s0 ∧
      runProtocol 64 0 s0 [ProtocolStep.decoderAcquire, ProtocolStep.decoderPublish] = some s ∧
      s.queues.FrameQueuesDecoded 0 = some q ∧
      ∃ ok fd' g',
        TryReceiveDecodedFrame 64 s.queues { frame := 7, rawPixelData := 9 } 0
          = Outcome.returned (ok, fd', g') ∧
        (ok = true ↔ q.isDestroyed = 0 ∧ 0 < q.used) ∧
        (ok = true →
          queueRecords 64 (s.queues.FrameQueuesDecoded 0)
              = fd' :: queueRecords 64 (g'.FrameQueuesDecoded 0) ∧
            usedOf (g'.FrameQueuesDecoded 0) + 1 = usedOf (s.queues.FrameQueuesDecoded 0)) ∧
        (ok = false → g' = s.queues ∧ fd' = { frame := 7, rawPixelData := 9 }) ∧
        g'.FrameQueuesReturnedToDecoder = s.queues.FrameQueuesReturnedToDecoder ∧
        ∀ j, j ≠ 0 → g'.FrameQueuesDecoded j = s.queues.FrameQueuesDecoded j :=
  ⟨_, _, _, rfl, rfl, rfl,
    C22_non_blocking_drain 64 0 _ _ { frame := 7, rawPixelData := 9 } (by decide) rfl
      (by decide) rfl rfl (by decide) (by decide)⟩

/-- Claim C23: one polling pass of `RenderPipelineWithGL`, the loop over the
`NUM_SRC_STREAMS` channels, each of them in any state with at most
`DECODER_QUEUE_DEPTH` frames in its two queues, returns, and for every
stream `j`: when the decoded queue of `j` is empty both queues of `j` are
as before the pass; when it holds a frame, the first frame is taken off the
decoded queue of `j` and appended to the returned queue of `j`; whatever the
other channels hold.  After the pass the function goes on to
`DownloadFramebuffer`: the call returns with these queues when that returns,
and waits when that waits. -/
theorem C23_fan_in_independence (w : Nat) (g : SrcQueues) (free filled : Nat → List Nat)
    (hw : 0 < w)
    (hfree : ∀ j, j < NUM_SRC_STREAMS →
      QueueHolds w (g.FrameQueuesReturnedToDecoder j) (free j))
    (hfilled : ∀ j, j < NUM_SRC_STREAMS → QueueHolds w (g.FrameQueuesDecoded j) (filled j))
    (hpool : ∀ j, j < NUM_SRC_STREAMS →
      (free j).length + (filled j).length ≤ DECODER_QUEUE_DEPTH)
    (hb : ∀ j, j < NUM_SRC_STREAMS → ∀ h ∈ filled j, h < 256 ^ ptrSize w) :
    ∃ g', renderPoll w g 0 NUM_SRC_STREAMS = Outcome.returned g' ∧
      (∀ j, j < NUM_SRC_STREAMS →
        (filled j = [] →
          g'.FrameQueuesDecoded j = g.FrameQueuesDecoded j ∧
            g'.FrameQueuesReturnedToDecoder j = g.FrameQueuesReturnedToDecoder j) ∧
        (∀ h rest, filled j = h :: rest →
          QueueHolds w (g'.FrameQueuesDecoded j) rest ∧
            QueueHolds w (g'.FrameQueuesReturnedToDecoder j) (free j ++ [h]))) ∧
      (∀ s s', DownloadFramebuffer w s = Outcome.returned s' →
        RenderPipelineWithGL w g s = Outcome.returned (g', s')) ∧
      (∀ s, DownloadFramebuffer w s = Outcome.blocked →
        RenderPipelineWithGL w g s = Outcome.blocked) := by
  obtain ⟨g', hr, hin, -⟩ := renderPoll_spec w hw free filled NUM_SRC_STREAMS g 0
    (fun j _ h2 => by
      rw [Nat.zero_add] at h2
      exact ⟨hfree j h2, hfilled j h2, hpool j h2, hb j h2⟩)
  refine ⟨g', hr, fun j hj => hin j (Nat.zero_le _) (by rw [Nat.zero_add]; exact hj),
    fun s s' hd => ?_, fun s hd => ?_⟩
  · simp only [RenderPipelineWithGL, hr, hd]
  · simp only [RenderPipelineWithGL, hr, hd]

/-- Witness of C23: the queues `InitializeDecoders` created, when only the
decoder of stream 0 has run: it seeded the frames at `4096` and `8192` and
published the first one; the channels 1, 2 and 3 are empty. -/
theorem C23_fan_in_independence_witness :
    ∃ s0 s,
      startChannel 64 zeroEnv 0 [4096, 8192] = some s0 ∧
      runProtocol 64 0 s0 [ProtocolStep.decoderAcquire, ProtocolStep.decoderPublish] = some s ∧
      ∃ g', renderPoll 64 s.queues 0 NUM_SRC_STREAMS = Outcome.returned g' ∧
        (∀ j, j < NUM_SRC_STREAMS →
          ((if j = 0 then [4096] else []) = [] →
            g'.FrameQueuesDecoded j = s.queues.FrameQueuesDecoded j ∧
              g'.FrameQueuesReturnedToDecoder j = s.queues.FrameQueuesReturnedToDecoder j) ∧
          (∀ h rest, (if j = 0 then [4096] else []) = h :: rest →
            QueueHolds 64 (g'.FrameQueuesDecoded j) rest ∧
              QueueHolds 64 (g'.FrameQueuesReturnedToDecoder j)
                ((if j = 0 then [8192] else []) ++ [h]))) ∧
        (∀ e e', DownloadFramebuffer 64 e = Outcome.returned e' →
          RenderPipelineWithGL 64 s.queues e = Outcome.returned (g', e')) ∧
        (∀ e, DownloadFramebuffer 64 e = Outcome.blocked →
          RenderPipelineWithGL 64 s.queues e = Outcome.blocked) := by
  refine ⟨_, _, rfl, rfl, ?_⟩
  have h0 := start_sim 64 0 zeroEnv [4096, 8192] _ (by decide) (by decide) (by decide) rfl
    (by decide) rfl
  obtain ⟨p, hp, hsim⟩ := sim_run 64 0 (by decide)
    [ProtocolStep.decoderAcquire, ProtocolStep.decoderPublish] _ _ _ h0 rfl
  have hp' : ({ free := [8192], fillerHeld := none, filled := [4096], drainerHeld := none }
      : Pool) = p := Option.some.inj hp
  subst hp'
  obtain ⟨-, -, hfree0, hfilled0, -⟩ := hsim
  exact C23_fan_in_independence 64 _ (fun j => if j = 0 then [8192] else [])
    (fun j => if j = 0 then [4096] else []) (by decide)
    (fun j hj => by
      have hj4 : j < 4 := hj
      interval_cases j
      · exact hfree0
      · exact ⟨_, rfl, by decide, rfl, rfl, rfl, rfl, trivial⟩
      · exact ⟨_, rfl, by decide, rfl, rfl, rfl, rfl, trivial⟩
      · exact ⟨_, rfl, by decide, rfl, rfl, rfl, rfl, trivial⟩)
    (fun j hj => by
      have hj4 : j < 4 := hj
      interval_cases j
      · exact hfilled0
      · exact ⟨_, rfl, by decide, rfl, rfl, rfl, rfl, trivial⟩
      · exact ⟨_, rfl, by decide, rfl, rfl, rfl, rfl, trivial⟩
      · exact ⟨_, rfl, by decide, rfl, rfl, rfl, rfl, trivial⟩)
    (fun j hj => by
      have hj4 : j < 4 := hj
      interval_cases j <;> decide)
    (fun j hj => by
      have hj4 : j < 4 := hj
      interval_cases j <;> decide)

/-- Claim C24, evaluated where it fails: on the channel of stream 0 after the
`msgQDelete` calls of `WaitAndReleaseDecoders`, the receive of the decoder
returns without a record, and the decoder loop is still running after three
more packets were read; it is left through `done` only when `av_read_frame`
fails. -/
theorem C24_decoder_loop_continues_on_destroyed_queue :
    ∃ s0 g r g1 g2,
      startChannel 64 zeroEnv 0 [4096, 8192] = some s0 ∧
      WaitAndReleaseDecoders s0.queues = g ∧
      decoderReceiveFrame 64 g 0 = Outcome.returned (none, r) ∧
      decoderMainLoop 64 0 g 0 [goodPacket, goodPacket, goodPacket]
        = Outcome.returned (false, g1) ∧
      decoderMainLoop 64 0 g 0 [goodPacket, goodPacket, goodPacket, endOfInput]
        = Outcome.returned (true, g2) :=
  ⟨_, _, _, _, _, rfl, rfl, rfl, rfl, rfl⟩

/-- Claim C25 as stated does not hold: a receive with `MSG_Q_NO_WAIT` on the
empty live queue of three slots and a receive on a destroyed queue return the
same value. -/
theorem C25_empty_and_destroyed_return_the_same_value :
    ∃ r1 q1 b1 r2 q2 b2,
      (emptyQ3 0).isDestroyed = 0 ∧ (emptyQ3 0).used = 0 ∧ destroyedQ3.isDestroyed ≠ 0 ∧
      msgQReceive 64 (some (emptyQ3 0)) (bytesOf []) 1 MSG_Q_NO_WAIT
        = Outcome.returned (r1, q1, b1) ∧
      msgQReceive 64 (some destroyedQ3) (bytesOf []) 1 MSG_Q_NO_WAIT
        = Outcome.returned (r2, q2, b2) ∧
      r1 = r2 :=
  ⟨_, _, _, _, _, _, rfl, rfl, by decide, rfl, rfl, rfl⟩

/-- Claim C25, amended: a receive that does not wait for ever on an empty live
queue and a receive on a destroyed queue both return `MSG_Q_ERROR` and leave
the queue and the caller's buffer as they were, so the value returned does
not tell the one from the other. -/
theorem C25_receive_reports_empty_and_destroyed_alike (w : Nat) (q qd : msg_q)
    (buffer bufferd : Nat → Nat) (maxNBytes maxNBytesd : Nat) (timeout timeoutd : Int)
    (hlive : q.isDestroyed = 0) (hempty : q.used = 0) (ht : timeout ≠ MSG_Q_WAIT_FOREVER)
    (hd : qd.isDestroyed ≠ 0) :
    msgQReceive w (some q) buffer maxNBytes timeout
        = Outcome.returned (MSG_Q_ERROR, q, buffer) ∧
      msgQReceive w (some qd) bufferd maxNBytesd timeoutd
        = Outcome.returned (MSG_Q_ERROR, qd, bufferd) := by
  refine ⟨?_, receive_destroyed_eq w qd bufferd maxNBytesd timeoutd hd⟩
  rw [receive_empty_eq w q buffer maxNBytes timeout hlive hempty, if_neg ht]

/-- Witness of C25: the empty live queue of three slots polled with
`MSG_Q_NO_WAIT`, and the destroyed queue that still holds a message. -/
theorem C25_receive_reports_empty_and_destroyed_alike_witness :
    msgQReceive 64 (some (emptyQ3 0)) (bytesOf [1]) 1 MSG_Q_NO_WAIT
        = Outcome.returned (MSG_Q_ERROR, emptyQ3 0, bytesOf [1]) ∧
      msgQReceive 64 (some destroyedQ3) (bytesOf [2]) 1 MSG_Q_WAIT_FOREVER
        = Outcome.returned (MSG_Q_ERROR, destroyedQ3, bytesOf [2]) :=
  C25_receive_reports_empty_and_destroyed_alike 64 (emptyQ3 0) destroyedQ3 (bytesOf [1])
    (bytesOf [2]) 1 1 MSG_Q_NO_WAIT MSG_Q_WAIT_FOREVER rfl rfl (by decide) (by decide)

/-- Claim C26, evaluated where it fails: `msgQCreate (65536, 65537)` succeeds,
its `int` product wraps to `65536`, and the storage of `65536` bytes is not
`capacity * maxMsgLength` bytes: it is shorter than one slot, so the byte
range of slot 0 is not inside it and a send of a whole slot is an access
outside the storage. -/
theorem C26_storage_shorter_than_one_slot_when_size_wraps :
    ∃ q0,
      msgQCreate 64 65536 65537 MSG_Q_FIFO zeroEnv = some q0 ∧
      q0.capacity = 65536 ∧ q0.maxMsgLength = 65537 ∧
      q0.data.size = 65536 ∧ q0.data.size ≠ q0.capacity * q0.maxMsgLength ∧
      ¬ (0 * q0.maxMsgLength + q0.maxMsgLength ≤ q0.data.size) ∧
      msgQSend 64 (some q0) (bytesOf [65]) 65537 MSG_Q_WAIT_FOREVER MSG_PRI_NORMAL
        = Outcome.undefined :=
  ⟨_, rfl, rfl, rfl, rfl, by decide, by decide, rfl⟩

/-- Claim C27: for every `timeout` other than `MSG_Q_WAIT_FOREVER` a receive
does what a receive with `MSG_Q_NO_WAIT` does, on every queue handle; the
same holds for any two such values; and on an empty live queue it returns
`MSG_Q_ERROR` with the queue and the buffer unchanged. -/
theorem C27_timed_receive_is_a_single_poll (w : Nat) (msgQId : Option msg_q)
    (buffer : Nat → Nat) (maxNBytes : Nat) (timeout : Int)
    (ht : timeout ≠ MSG_Q_WAIT_FOREVER) :
    msgQReceive w msgQId buffer maxNBytes timeout
        = msgQReceive w msgQId buffer maxNBytes MSG_Q_NO_WAIT ∧
      (∀ t, t ≠ MSG_Q_WAIT_FOREVER →
        msgQReceive w msgQId buffer maxNBytes timeout = msgQReceive w msgQId buffer maxNBytes t) ∧
      (∀ q, msgQId = some q → q.isDestroyed = 0 → q.used = 0 →
        msgQReceive w msgQId buffer maxNBytes timeout
          = Outcome.returned (MSG_Q_ERROR, q, buffer)) := by
  refine ⟨receive_timeout_irrelevant w msgQId buffer maxNBytes _ _ ht (by decide),
    fun t h => receive_timeout_irrelevant w msgQId buffer maxNBytes _ _ ht h,
    fun q hq hlive hempty => ?_⟩
  rw [hq, receive_empty_eq w q buffer maxNBytes timeout hlive hempty, if_neg ht]

/-- Witness of C27: a receive with a timeout of 500 on the empty live queue of
three slots. -/
theorem C27_timed_receive_is_a_single_poll_witness :
    msgQReceive 64 (some (emptyQ3 0)) (bytesOf [1]) 1 500
        = msgQReceive 64 (some (emptyQ3 0)) (bytesOf [1]) 1 MSG_Q_NO_WAIT ∧
      (∀ t, t ≠ MSG_Q_WAIT_FOREVER →
        msgQReceive 64 (some (emptyQ3 0)) (bytesOf [1]) 1 500
          = msgQReceive 64 (some (emptyQ3 0)) (bytesOf [1]) 1 t) ∧
      (∀ q, some (emptyQ3 0) = some q → q.isDestroyed = 0 → q.used = 0 →
        msgQReceive 64 (some (emptyQ3 0)) (bytesOf [1]) 1 500
          = Outcome.returned (MSG_Q_ERROR, q, bytesOf [1])) :=
  C27_timed_receive_is_a_single_poll 64 (some (emptyQ3 0)) (bytesOf [1]) 1 500 (by decide)

/-- Claim C28, evaluated where it fails: on the reachable queue of three
one-byte slots whose `head` counter is `2 ^ 64 - 1`, holding the message 77,
the URGENT sends of 85 and 86 return, and the three receives that follow
deliver 86, 85 and 0: the queued message 77 is not delivered. -/
theorem C28_urgent_sends_lose_message_when_head_wraps :
    ∃ q0 qM q1 q2 q3 b3 q4 b4 q5 b5,
      msgQCreate 64 3 1 MSG_Q_FIFO zeroEnv = some q0 ∧
      runCalls 64 q0 (pump (2 ^ 64 - 1)) = some (emptyQ3 (2 ^ 64 - 1)) ∧
      msgQSend 64 (some (emptyQ3 (2 ^ 64 - 1))) (bytesOf [77]) 1 MSG_Q_WAIT_FOREVER
        MSG_PRI_NORMAL = Outcome.returned (1, qM) ∧
      qM.isDestroyed = 0 ∧ qM.used = 1 ∧ qM.used + 2 ≤ qM.capacity ∧
      msgQSend 64 (some qM) (bytesOf [85]) 1 MSG_Q_WAIT_FOREVER MSG_PRI_URGENT
        = Outcome.returned (1, q1) ∧
      msgQSend 64 (some q1) (bytesOf [86]) 1 MSG_Q_WAIT_FOREVER MSG_PRI_URGENT
        = Outcome.returned (1, q2) ∧
      msgQReceive 64 (some q2) (bytesOf []) 1 MSG_Q_NO_WAIT = Outcome.returned (1, q3, b3) ∧
      msgQReceive 64 (some q3) (bytesOf []) 1 MSG_Q_NO_WAIT = Outcome.returned (1, q4, b4) ∧
      msgQReceive 64 (some q4) (bytesOf []) 1 MSG_Q_NO_WAIT = Outcome.returned (1, q5, b5) ∧
      b3 0 = 86 ∧ b4 0 = 85 ∧ b5 0 = 0 ∧ b5 0 ≠ 77 := by
  obtain ⟨q0, h0, hrun⟩ := emptyQ3_max_reachable
  exact ⟨q0, _, _, _, _, _, _, _, _, _, h0, hrun, rfl, rfl, rfl, by decide, rfl, rfl, rfl, rfl,
    rfl, rfl, rfl, rfl, by decide⟩

/-- Claim C29, evaluated where it fails: on the reachable queue of capacity 3
with `head = 2 ^ 64 - 1` and `used = 1`, the slot index of a NORMAL send,
`((head + used) mod 2 ^ 64) mod capacity`, is not
`((head mod capacity) + used) mod capacity`, and after the receive the new
`head`, `(head + 1) mod 2 ^ 64`, taken `mod capacity` is not
`((head mod capacity) + 1) mod capacity`. -/
theorem C29_slot_mapping_breaks_when_head_wraps :
    ∃ q0 qM q' b',
      msgQCreate 64 3 1 MSG_Q_FIFO zeroEnv = some q0 ∧
      runCalls 64 q0 (pump (2 ^ 64 - 1)) = some (emptyQ3 (2 ^ 64 - 1)) ∧
      msgQSend 64 (some (emptyQ3 (2 ^ 64 - 1))) (bytesOf [77]) 1 MSG_Q_WAIT_FOREVER
        MSG_PRI_NORMAL = Outcome.returned (1, qM) ∧
      0 < qM.capacity ∧ qM.head < 2 ^ 64 ∧ qM.used ≤ qM.capacity ∧
      sendIdx 64 qM MSG_PRI_NORMAL = size_add 64 qM.head qM.used % qM.capacity ∧
      size_add 64 qM.head qM.used % qM.capacity
        ≠ (qM.head % qM.capacity + qM.used) % qM.capacity ∧
      msgQReceive 64 (some qM) (bytesOf []) 1 MSG_Q_NO_WAIT = Outcome.returned (1, q', b') ∧
      q'.head = size_add 64 qM.head 1 ∧
      size_add 64 qM.head 1 % qM.capacity ≠ (qM.head % qM.capacity + 1) % qM.capacity := by
  obtain ⟨q0, h0, hrun⟩ := emptyQ3_max_reachable
  exact ⟨q0, _, _, _, h0, hrun, rfl, by decide, by decide, by decide, rfl, by decide, rfl, rfl,
    by decide⟩

/-- Claim C30, evaluated where it fails: on the reachable queue of three
one-byte slots with `head = 2 ^ 64 - 2`, after the NORMAL sends of 65 and 66
the occupied slots are `(head + 0) mod 3 = 2` and `(head + 1) mod 3 = 0`; an
URGENT send of 67 writes slot 0, the slot of the queued message 66, and not
slot `(capacity + head - 1) mod capacity = 1`. -/
theorem C30_urgent_send_overwrites_queued_message_when_head_wraps :
    ∃ q0 qA qB qC,
      msgQCreate 64 3 1 MSG_Q_FIFO zeroEnv = some q0 ∧
      runCalls 64 q0 (pump (2 ^ 64 - 2)) = some (emptyQ3 (2 ^ 64 - 2)) ∧
      msgQSend 64 (some (emptyQ3 (2 ^ 64 - 2))) (bytesOf [65]) 1 MSG_Q_WAIT_FOREVER
        MSG_PRI_NORMAL = Outcome.returned (1, qA) ∧
      msgQSend 64 (some qA) (bytesOf [66]) 1 MSG_Q_WAIT_FOREVER MSG_PRI_NORMAL
        = Outcome.returned (1, qB) ∧
      qB.isDestroyed = 0 ∧ qB.used = 2 ∧ qB.used < qB.capacity ∧
      (qB.head + 0) % qB.capacity = 2 ∧ slotByte qB 2 0 = 65 ∧
      (qB.head + 1) % qB.capacity = 0 ∧ slotByte qB 0 0 = 66 ∧
      sendIdx 64 qB MSG_PRI_URGENT = 0 ∧
      sendIdx 64 qB MSG_PRI_URGENT = (qB.head + 1) % qB.capacity ∧
      (qB.capacity + qB.head - 1) % qB.capacity = 1 ∧
      msgQSend 64 (some qB) (bytesOf [67]) 1 MSG_Q_WAIT_FOREVER MSG_PRI_URGENT
        = Outcome.returned (1, qC) ∧
      slotByte qC 0 0 = 67 ∧ slotByte qC 1 0 = 0 ∧ slotByte qC 2 0 = 65 := by
  obtain ⟨q0, h0, hrun⟩ := emptyQ3_near_max_reachable
  exact ⟨q0, _, _, _, h0, hrun, rfl, rfl, rfl, rfl, by decide, by decide, rfl, by decide, rfl,
    rfl, by decide, by decide, rfl, rfl, rfl, rfl⟩

end QLib
